import Mathlib

/-!
# aws-check-prices: cache / fetch coordination layer

A shallow embedding of `awscheckprices.go`.

Conventions of the embedding.

* A Go pointer or slice or map that may be `nil` is an `Option`: `none` is `nil`.
  `OnDemandPrices` is a slice, so it is `Option (List F)`; a `*OnDemandPrices` is one
  more `Option` around it.  Values are immutable: a caller that writes into a slice or a
  map it was handed is outside the embedding.
* `float64` is a type parameter `F`, and `strconv.ParseFloat` is a parameter
  `parseFloat : String → Except String F` (the error carries the text of the Go error).
* `time.Time` and `time.Duration` are integers counting nanoseconds, without bound.  Every
  read of `time.Now()` is a parameter of the function that reads it.  A scan of the item
  list reads the clock once in the embedding; in Go it reads it at each item under the
  key, which is one item at most in a cache built by `writeCache` alone.
* The package variables `cache` and `CacheLifetime` are passed explicitly; a function
  that mutates `cache` returns the new value.  The lock is not modelled: the embedding
  is of one caller at a time.
* The two AWS services are scripts: the list of answers they give, call after call.  An
  answer is the pair `(result, err)` of the Go call; the result that comes with an error
  is read by the spot fetcher alone, after an authorization failure.  A run is `none` when
  it asks for an answer that the script does not hold.
* A product of the price list is typed: the type assertions of the code on the decoded
  JSON succeed.  The objects `terms.OnDemand` and `priceDimensions` are Go maps; a map is
  the list of its bindings in the order of the document, and the order in which a `range`
  statement visits them, which Go leaves unspecified and chooses anew at each execution
  of the statement, is the parameter `RangeOrder`: a function of the bindings and of the
  place of the execution in the run (page, product in the page, term in the product), so
  that two equal maps met at different places may be visited in different orders.
-/

namespace awscheckprices

/-! ## Data model -/

/-- Instants of `time.Time`, in nanoseconds. -/
abbrev Time := Int

/-- Values of `time.Duration`, in nanoseconds. -/
abbrev Duration := Int

/-- The constant `time.Minute`. -/
def Minute : Duration := 60 * 1000000000

/-- The constant `time.Hour`, the initial value of `CacheLifetime`. -/
def Hour : Duration := 60 * Minute

/-- The type `OptionTenancy string`. -/
abbrev OptionTenancy := String

def OptionTenancyShared : OptionTenancy := "Shared"

def OptionTenancyHost : OptionTenancy := "Host"

def OptionTenancyDedicated : OptionTenancy := "Dedicated"

/-- The type `OnDemandPrices []float64`; `none` is the nil slice. -/
abbrev OnDemandPrices (F : Type) := Option (List F)

/-- The type `AvailabilityZone string`. -/
abbrev AvailabilityZone := String

/-- The type `SpotPrices map[AvailabilityZone][]float64`; `none` is the nil map, and a
non-nil map is the list of its bindings, one per key, in order of first insertion. -/
abbrev SpotPrices (F : Type) := Option (List (AvailabilityZone × List F))

/-- The struct `priceCacheItem`; `p` and `sp` are pointers, `none` is the nil pointer. -/
structure priceCacheItem (F : Type) where
  age : Time
  instanceType : String
  region : String
  tenancy : OptionTenancy
  p : Option (OnDemandPrices F)
  sp : Option (SpotPrices F)
  deriving DecidableEq, Repr

/-- The struct `priceCacheItems`, without its lock. -/
structure priceCacheItems (F : Type) where
  items : List (priceCacheItem F)
  deriving DecidableEq, Repr

/-- The initial value of the package variable `cache`. -/
def cache (F : Type) : priceCacheItems F := ⟨[]⟩

/-! ## Cache store -/

/-- The composite key of an item. -/
def itemKey {F : Type} (i : priceCacheItem F) : String × String × OptionTenancy :=
  (i.instanceType, i.region, i.tenancy)

/-- The key test shared by `checkCache` and `writeCache`:
`instanceType == i.instanceType && region == i.region && tenancy == i.tenancy`. -/
def keyMatches {F : Type} (instanceType region : String) (tenancy : OptionTenancy)
    (i : priceCacheItem F) : Bool :=
  instanceType == i.instanceType && region == i.region && tenancy == i.tenancy

/-- The freshness test of `checkCache`: `i.age.Add(CacheLifetime).After(time.Now())`. -/
def isFresh {F : Type} (CacheLifetime : Duration) (now : Time) (i : priceCacheItem F) : Bool :=
  decide (now < i.age + CacheLifetime)

/-- The kind test of `checkCache`: `(isSpot && i.sp != nil) || (!isSpot && i.p != nil)`. -/
def hasKind {F : Type} (isSpot : Bool) (i : priceCacheItem F) : Bool :=
  (isSpot && i.sp.isSome) || (!isSpot && i.p.isSome)

/-- The function `checkCache`: the first item of the list that passes the key test, the
freshness test and the kind test; `now` is the value of `time.Now()`. -/
def checkCache {F : Type} (c : priceCacheItems F) (CacheLifetime : Duration) (now : Time)
    (instanceType region : String) (tenancy : OptionTenancy) (isSpot : Bool) :
    Option (priceCacheItem F) :=
  c.items.find? (fun i =>
    keyMatches instanceType region tenancy i && isFresh CacheLifetime now i && hasKind isSpot i)

/-- The function `checkCacheOnDemand`: nil on a miss, `*ret.p` on a hit. -/
def checkCacheOnDemand {F : Type} (c : priceCacheItems F) (CacheLifetime : Duration) (now : Time)
    (instanceType region : String) (tenancy : OptionTenancy) : OnDemandPrices F :=
  match checkCache c CacheLifetime now instanceType region tenancy false with
  | none => none
  | some ret => ret.p.join

/-- The function `checkCacheSpot`: nil on a miss, `*ret.sp` on a hit. -/
def checkCacheSpot {F : Type} (c : priceCacheItems F) (CacheLifetime : Duration) (now : Time)
    (instanceType region : String) (tenancy : OptionTenancy) : SpotPrices F :=
  match checkCache c CacheLifetime now instanceType region tenancy true with
  | none => none
  | some ret => ret.sp.join

/-- The body of the `if` inside the loop of `writeCache`: the timestamp is set, and each
non-nil argument replaces the field of its kind. -/
def mergeItem {F : Type} (now : Time) (p : Option (OnDemandPrices F)) (sp : Option (SpotPrices F))
    (i : priceCacheItem F) : priceCacheItem F :=
  { i with
    age := now
    p := if p.isSome then p else i.p
    sp := if sp.isSome then sp else i.sp }

/-- The function `writeCache`.  The loop visits every item and merges into each one that
passes the key test; `found` is whether some item passed; when none did, a new item is
appended.  `now` is the value of `time.Now()`. -/
def writeCache {F : Type} (c : priceCacheItems F) (now : Time)
    (instanceType region : String) (tenancy : OptionTenancy)
    (p : Option (OnDemandPrices F)) (sp : Option (SpotPrices F)) : priceCacheItems F :=
  let found := c.items.any (keyMatches instanceType region tenancy)
  let items := c.items.map (fun i =>
    if keyMatches instanceType region tenancy i then mergeItem now p sp i else i)
  if found then ⟨items⟩
  else ⟨items ++ [{ age := now, instanceType := instanceType, region := region,
                    tenancy := tenancy, p := p, sp := sp }]⟩

/-! ## Provider boundary -/

/-- A non-nil Go `error` returned by an SDK call.  `awserr` is an error for which the
type assertion `err.(awserr.Error)` succeeds, with its `Code()` and the text of its
`Error()`; `other` is any other error, with the text of its `Error()`. -/
inductive SdkError where
  | awserr (code : String) (text : String)
  | other (text : String)
  deriving DecidableEq, Repr

/-- The method `Error()` of a Go error: its text. -/
def SdkError.Error : SdkError → String
  | .awserr _ text => text
  | .other text => text

/-- One entry of a `priceDimensions` object: its `unit` and its `pricePerUnit.USD`. -/
structure PriceDimension where
  unit : String
  USD : String
  deriving DecidableEq, Repr

/-- One entry of `terms.OnDemand`: the bindings of its `priceDimensions` object, in the
order of the document. -/
structure Term where
  priceDimensions : List (String × PriceDimension)
  deriving DecidableEq, Repr

/-- One element of `PriceList`: the bindings of `price["terms"]["OnDemand"]`, in the order
of the document. -/
structure Product where
  OnDemand : List (String × Term)
  deriving DecidableEq, Repr

/-- The struct `pricing.Filter`. -/
structure Filter where
  Field : String
  FilterType : String
  Value : String
  deriving DecidableEq, Repr

/-- The struct `pricing.GetProductsInput`. -/
structure GetProductsInput where
  ServiceCode : String
  MaxResults : Int
  Filters : List Filter
  NextToken : Option String
  deriving DecidableEq, Repr

/-- The struct `pricing.GetProductsOutput`. -/
structure GetProductsOutput where
  PriceList : List Product
  NextToken : Option String
  deriving DecidableEq, Repr

/-- The pair `(result, err)` that one call of `svc.GetProducts` returns. -/
structure GetProductsResponse where
  result : GetProductsOutput
  err : Option SdkError
  deriving DecidableEq, Repr

/-- The struct `ec2.SpotPrice`, with the two fields the code reads. -/
structure Ec2SpotPrice where
  AvailabilityZone : String
  SpotPrice : String
  deriving DecidableEq, Repr

/-- The struct `ec2.DescribeSpotPriceHistoryInput`. -/
structure DescribeSpotPriceHistoryInput where
  StartTime : Time
  EndTime : Time
  MaxResults : Int
  ProductDescriptions : List String
  InstanceTypes : List String
  NextToken : Option String
  deriving DecidableEq, Repr

/-- The struct `ec2.DescribeSpotPriceHistoryOutput`. -/
structure DescribeSpotPriceHistoryOutput where
  SpotPriceHistory : List Ec2SpotPrice
  NextToken : Option String
  deriving DecidableEq, Repr

/-- The pair `(result, err)` that one call of `svc.DescribeSpotPriceHistory` returns. -/
structure DescribeSpotPriceHistoryResponse where
  result : DescribeSpotPriceHistoryOutput
  err : Option SdkError
  deriving DecidableEq, Repr

/-- The order in which the `range` statements of one run visit the bindings of the Go
maps.  The language leaves the order unspecified and chooses it afresh each time a `range`
statement is executed, so it is a parameter that depends on the place of the execution in
the run: `terms n j` is the order for the `terms.OnDemand` object of product `j` of the
page read after `n` others, and `dims n j k` the order for the `priceDimensions` object of
the term visited after `k` others in that product; each is given the bindings in the
order of the document. -/
structure RangeOrder where
  terms : Nat → Nat → List (String × Term) → List (String × Term)
  dims : Nat → Nat → Nat → List (String × PriceDimension) → List (String × PriceDimension)

/-- A range order visits every binding of the map once. -/
def RangeOrder.Valid (ro : RangeOrder) : Prop :=
  (∀ n j l, (ro.terms n j l).Perm l) ∧ (∀ n j k l, (ro.dims n j k l).Perm l)

/-- The range order that visits the bindings in the order of the document, everywhere. -/
def RangeOrder.document : RangeOrder := ⟨fun _ _ l => l, fun _ _ _ l => l⟩

/-- The range order that visits the bindings in the reverse of the order of the document,
everywhere. -/
def RangeOrder.reversed : RangeOrder := ⟨fun _ _ l => l.reverse, fun _ _ _ l => l.reverse⟩

/-- A range order that visits the dimensions in the order of the document in the products
of even index and in the reverse order in the products of odd index. -/
def RangeOrder.alternating : RangeOrder :=
  ⟨fun _ _ l => l, fun _ j _ l => if j % 2 = 0 then l else l.reverse⟩

/-- The test that ends both pagination loops:
`input.NextToken == nil || *input.NextToken == ""`. -/
def noNextToken : Option String → Bool
  | none => true
  | some tok => tok == ""

/-! ## On-demand price fetcher -/

/-- The constant `pricing.ErrCodeInternalErrorException` of the AWS SDK. -/
def ErrCodeInternalErrorException : String := "InternalErrorException"

/-- The constant `pricing.ErrCodeInvalidParameterException` of the AWS SDK. -/
def ErrCodeInvalidParameterException : String := "InvalidParameterException"

/-- The constant `pricing.ErrCodeNotFoundException` of the AWS SDK. -/
def ErrCodeNotFoundException : String := "NotFoundException"

/-- The constant `pricing.ErrCodeInvalidNextTokenException` of the AWS SDK. -/
def ErrCodeInvalidNextTokenException : String := "InvalidNextTokenException"

/-- The constant `pricing.ErrCodeExpiredNextTokenException` of the AWS SDK. -/
def ErrCodeExpiredNextTokenException : String := "ExpiredNextTokenException"

/-- The error returned after the first `svc.GetProducts` call fails (the `switch` that
follows the first call). -/
def onDemandFirstCallError : SdkError → String
  | .awserr code text =>
    if code = ErrCodeInternalErrorException then
      ErrCodeInternalErrorException ++ ": " ++ text
    else if code = ErrCodeInvalidParameterException then
      ErrCodeInvalidParameterException ++ ": " ++ text
    else if code = ErrCodeNotFoundException then
      ErrCodeNotFoundException ++ ": " ++ text
    else if code = ErrCodeInvalidNextTokenException then
      ErrCodeInvalidNextTokenException ++ ": " ++ text
    else if code = ErrCodeExpiredNextTokenException then
      ErrCodeExpiredNextTokenException ++ ": " ++ text
    else text
  | .other text => text

/-- The error returned after a later `svc.GetProducts` call fails (the `switch` inside
the pagination loop). -/
def onDemandNextCallError : SdkError → String
  | .awserr code text =>
    if code = ErrCodeInternalErrorException then
      ErrCodeInternalErrorException ++ ": " ++ text
    else if code = ErrCodeInvalidParameterException then
      ErrCodeInvalidParameterException ++ ": " ++ text
    else if code = ErrCodeNotFoundException then
      ErrCodeNotFoundException ++ ": " ++ text
    else if code = ErrCodeInvalidNextTokenException then
      ErrCodeInvalidNextTokenException ++ ": " ++ text
    else if code = ErrCodeExpiredNextTokenException then
      ErrCodeExpiredNextTokenException ++ ": " ++ text
    else text
  | .other text => text

/-- The body of the innermost loop of `GetPricesOnDemand`, for one price dimension `vv`:
the unit check, the parse, and `p = append(p, nPrice)`. -/
def readDimension {F : Type} (parseFloat : String → Except String F) (p : List F)
    (vv : PriceDimension) : Except String (List F) :=
  if vv.unit != "Hrs" then
    .error ("price format incorrect:" ++ vv.unit)
  else
    match parseFloat vv.USD with
    | .error err => .error ("price is NaN:" ++ err ++ ": '" ++ vv.USD ++ "'")
    | .ok nPrice => .ok (p ++ [nPrice])

/-- The loop `for _, vv := range v["priceDimensions"]` over one term: the term visited
after `k` others in product `j` of page `n`. -/
def readTerm {F : Type} (ro : RangeOrder) (n j k : Nat) (parseFloat : String → Except String F)
    (p : List F) (v : Term) : Except String (List F) :=
  (ro.dims n j k v.priceDimensions).foldlM (fun p vv => readDimension parseFloat p vv.2) p

/-- The loop `for _, v := range price["terms"]["OnDemand"]` over one product: product `j`
of page `n`.  The terms are numbered in the order of the visit. -/
def readProduct {F : Type} (ro : RangeOrder) (n j : Nat) (parseFloat : String → Except String F)
    (p : List F) (price : Product) : Except String (List F) :=
  (ro.terms n j price.OnDemand).enum.foldlM
    (fun p kv => readTerm ro n j kv.1 parseFloat p kv.2.2) p

/-- The loop `for _, price := range result.PriceList` over one page: the page read after
`n` others.  The products are numbered in the order of the slice. -/
def readPriceList {F : Type} (ro : RangeOrder) (n : Nat) (parseFloat : String → Except String F)
    (p : List F) (PriceList : List Product) : Except String (List F) :=
  PriceList.enum.foldlM (fun p jp => readProduct ro n jp.1 parseFloat p jp.2) p

/-- The request built by `GetPricesOnDemand` before its first call. -/
def onDemandInput (instanceType region : String) (tenancy : OptionTenancy) : GetProductsInput :=
  { ServiceCode := "AmazonEC2"
    MaxResults := 100
    Filters :=
      [ ⟨"instanceType", "TERM_MATCH", instanceType⟩,
        ⟨"regionCode", "TERM_MATCH", region⟩,
        ⟨"marketoption", "TERM_MATCH", "OnDemand"⟩,
        ⟨"tenancy", "TERM_MATCH", tenancy⟩,
        ⟨"capacitystatus", "TERM_MATCH", "Used"⟩,
        ⟨"preInstalledSw", "TERM_MATCH", "NA"⟩,
        ⟨"operatingSystem", "TERM_MATCH", "Linux"⟩ ]
    NextToken := none }

/-- The pagination loop `for { ... }` of `GetPricesOnDemand`, entered with the prices `p`
gathered so far and the page `result` in hand, `n` pages having been read before it.
`svc` is the list of the answers that `svc.GetProducts` gives to the calls still to come,
and `calls` the requests sent so far.  The value is the pair `(p, err)` the function is
about to return together with the requests sent, or `none` when the loop asks for an
answer that `svc` does not hold. -/
def onDemandLoop {F : Type} (ro : RangeOrder) (n : Nat) (parseFloat : String → Except String F)
    (input : GetProductsInput) (p : List F) (result : GetProductsOutput)
    (svc : List GetProductsResponse) (calls : List GetProductsInput) :
    Option (Except String (List F) × List GetProductsInput) :=
  match readPriceList ro n parseFloat p result.PriceList with
  | .error e => some (.error e, calls)
  | .ok p =>
    if noNextToken result.NextToken then
      some (.ok p, calls)
    else
      match svc with
      | [] => none
      | resp :: svc =>
        let input := { input with NextToken := result.NextToken }
        match resp.err with
        | some err => some (.error (onDemandNextCallError err), calls ++ [input])
        | none => onDemandLoop ro (n + 1) parseFloat input p resp.result svc (calls ++ [input])

/-- What one run of `GetPricesOnDemand` returns and does: the results `p` and `err`, the
value of `cache` afterwards, and the requests sent to the provider, in order. -/
structure OnDemandRun (F : Type) where
  p : OnDemandPrices F
  err : Option String
  cache : priceCacheItems F
  calls : List GetProductsInput
  deriving DecidableEq, Repr

/-- The function `GetPricesOnDemand`.  `now` is the clock read by `checkCache` and `nowW`
the clock read by `writeCache`; `svc` is the list of the answers of `svc.GetProducts`,
call after call.  The value is `none` when the run asks for an answer that `svc` does not
hold. -/
def GetPricesOnDemand {F : Type} (ro : RangeOrder) (parseFloat : String → Except String F)
    (c : priceCacheItems F) (CacheLifetime : Duration) (now nowW : Time)
    (instanceType region : String) (tenancy : OptionTenancy)
    (svc : List GetProductsResponse) : Option (OnDemandRun F) :=
  match checkCacheOnDemand c CacheLifetime now instanceType region tenancy with
  | some p => some ⟨some p, none, c, []⟩
  | none =>
    let input := onDemandInput instanceType region tenancy
    match svc with
    | [] => none
    | resp :: svc =>
      match resp.err with
      | some err => some ⟨none, some (onDemandFirstCallError err), c, [input]⟩
      | none =>
        match onDemandLoop ro 0 parseFloat input [] resp.result svc [input] with
        | none => none
        | some (.error e, calls) => some ⟨none, some e, c, calls⟩
        | some (.ok p, calls) =>
          some ⟨some p, none,
            writeCache c nowW instanceType region tenancy (some (some p)) none, calls⟩

/-! ## Spot price fetcher -/

/-- The function `strings.Contains`. -/
def stringsContains (s substr : String) : Bool :=
  s.toList.tails.any (fun t => substr.toList.isPrefixOf t)

/-- The error, if any, returned after the first `svc.DescribeSpotPriceHistory` call gave
a non-nil `err`; `none` when the function goes on. -/
def spotFirstCallError (region : String) : SdkError → Option String
  | .awserr _ text =>
    if !stringsContains text "AuthFailure:" then
      some ("error 1: region: " ++ region ++ ", " ++ text)
    else none
  | .other text => some ("error 2: region: " ++ region ++ ", " ++ text)

/-- The error, if any, returned after a later `svc.DescribeSpotPriceHistory` call gave a
non-nil `err`; `none` when the loop goes on. -/
def spotNextCallError (region : String) : SdkError → Option String
  | .awserr _ text =>
    if !stringsContains text "AuthFailure:" then
      some ("error 1: region: " ++ region ++ ", " ++ text)
    else none
  | .other text => some ("error 2: region: " ++ region ++ ", " ++ text)

/-- The assignment `m[k] = v` on a non-nil Go map: the binding of `k` is replaced where
it stands, or appended when `k` has none. -/
def mapSet {V : Type} (m : List (AvailabilityZone × V)) (k : AvailabilityZone) (v : V) :
    List (AvailabilityZone × V) :=
  if m.any (fun kv => kv.1 == k) then
    m.map (fun kv => if kv.1 == k then (k, v) else kv)
  else m ++ [(k, v)]

/-- The body of the loop `for _, price := range result.SpotPriceHistory`, for one
record: the parse, then the insertion under the record's availability zone. -/
def readSpotPrice {F : Type} (parseFloat : String → Except String F)
    (p : List (AvailabilityZone × List F)) (price : Ec2SpotPrice) :
    Except String (List (AvailabilityZone × List F)) :=
  match parseFloat price.SpotPrice with
  | .error err => .error ("could not parse float from " ++ price.SpotPrice ++ ": " ++ err)
  | .ok spotPrice =>
    match p.lookup price.AvailabilityZone with
    | none => .ok (mapSet p price.AvailabilityZone [spotPrice])
    | some l => .ok (mapSet p price.AvailabilityZone (l ++ [spotPrice]))

/-- The loop `for _, price := range result.SpotPriceHistory` over one page. -/
def readSpotPriceHistory {F : Type} (parseFloat : String → Except String F)
    (p : List (AvailabilityZone × List F)) (SpotPriceHistory : List Ec2SpotPrice) :
    Except String (List (AvailabilityZone × List F)) :=
  SpotPriceHistory.foldlM (readSpotPrice parseFloat) p

/-- The request built by `GetPricesSpot` before its first call; `endTime` is the value of
`time.Now()`. -/
def spotInput (instanceType : String) (endTime : Time) : DescribeSpotPriceHistoryInput :=
  { StartTime := endTime + (-1) * Minute
    EndTime := endTime
    MaxResults := 100
    ProductDescriptions := ["Linux/UNIX"]
    InstanceTypes := [instanceType]
    NextToken := none }

/-- The pagination loop `for { ... }` of `GetPricesSpot`, entered with the map `p` built so
far and the page `result` in hand.  `svc` is the list of the answers that
`svc.DescribeSpotPriceHistory` gives to the calls still to come, and `calls` the requests
sent so far.  The value is `none` when the loop asks for an answer that `svc` does not
hold. -/
def spotLoop {F : Type} (parseFloat : String → Except String F) (region : String)
    (input : DescribeSpotPriceHistoryInput) (p : List (AvailabilityZone × List F))
    (result : DescribeSpotPriceHistoryOutput)
    (svc : List DescribeSpotPriceHistoryResponse) (calls : List DescribeSpotPriceHistoryInput) :
    Option (Except String (List (AvailabilityZone × List F)) ×
      List DescribeSpotPriceHistoryInput) :=
  match readSpotPriceHistory parseFloat p result.SpotPriceHistory with
  | .error e => some (.error e, calls)
  | .ok p =>
    if noNextToken result.NextToken then
      some (.ok p, calls)
    else
      match svc with
      | [] => none
      | resp :: svc =>
        let input := { input with NextToken := result.NextToken }
        match resp.err.bind (spotNextCallError region) with
        | some e => some (.error e, calls ++ [input])
        | none => spotLoop parseFloat region input p resp.result svc (calls ++ [input])

/-- What one run of `GetPricesSpot` returns and does: the results `p` and `err`, the value
of `cache` afterwards, and the requests sent to the provider, in order. -/
structure SpotRun (F : Type) where
  p : SpotPrices F
  err : Option String
  cache : priceCacheItems F
  calls : List DescribeSpotPriceHistoryInput
  deriving DecidableEq, Repr

/-- The function `GetPricesSpot`.  `now` is the clock read by `checkCache`, `endTime` the
clock read for the request and `nowW` the clock read by `writeCache`; `svc` is the list of
the answers of `svc.DescribeSpotPriceHistory`, call after call.  The value is `none` when
the run asks for an answer that `svc` does not hold. -/
def GetPricesSpot {F : Type} (parseFloat : String → Except String F)
    (c : priceCacheItems F) (CacheLifetime : Duration) (now endTime nowW : Time)
    (region instanceType : String)
    (svc : List DescribeSpotPriceHistoryResponse) : Option (SpotRun F) :=
  match checkCacheSpot c CacheLifetime now instanceType region "" with
  | some p => some ⟨some p, none, c, []⟩
  | none =>
    let input := spotInput instanceType endTime
    match svc with
    | [] => none
    | resp :: svc =>
      match resp.err.bind (spotFirstCallError region) with
      | some e => some ⟨none, some e, c, [input]⟩
      | none =>
        match spotLoop parseFloat region input [] resp.result svc [input] with
        | none => none
        | some (.error e, calls) => some ⟨none, some e, c, calls⟩
        | some (.ok p, calls) =>
          some ⟨some p, none, writeCache c nowW instanceType region "" none (some (some p)), calls⟩

/-! ## Sequences of operations -/

/-- The arguments of one `writeCache` call, with the clock it reads. -/
structure WriteCall (F : Type) where
  now : Time
  instanceType : String
  region : String
  tenancy : OptionTenancy
  p : Option (OnDemandPrices F)
  sp : Option (SpotPrices F)

/-- The value of `cache` after the `writeCache` calls `ws`, made in order from `c`. -/
def writeAll {F : Type} (c : priceCacheItems F) (ws : List (WriteCall F)) : priceCacheItems F :=
  ws.foldl (fun c w => writeCache c w.now w.instanceType w.region w.tenancy w.p w.sp) c


/-! ## Specification of the fetchers

The definitions of this section follow the words of the specification; the theorems
compare them with the functions above. -/

/-- A provider answers with a page sequence: every page but the last carries a non-empty
continuation token, and the last carries none or an empty one.  The argument is the list
of the tokens of the pages. -/
def isPageSequence : List (Option String) → Bool
  | [] => false
  | [tok] => noNextToken tok
  | tok :: toks => !noNextToken tok && isPageSequence toks

/-- A price dimension has the unit "Hrs" and a USD price that parses. -/
def hourlyParseable {F : Type} (parseFloat : String → Except String F) (vv : PriceDimension) :
    Bool :=
  vv.unit == "Hrs" &&
    (match parseFloat vv.USD with
     | .ok _ => true
     | .error _ => false)

/-- Every price dimension of every on-demand term of every product of the pages has the
unit "Hrs" and a USD price that parses. -/
def allHourlyParseable {F : Type} (parseFloat : String → Except String F)
    (pages : List GetProductsOutput) : Bool :=
  pages.all (fun result => result.PriceList.all (fun price => price.OnDemand.all (fun v =>
    v.2.priceDimensions.all (fun vv => hourlyParseable parseFloat vv.2))))

/-- The parsed USD unit price of a price dimension, as a list: empty when the price does
not parse. -/
def dimensionPrice {F : Type} (parseFloat : String → Except String F) (vv : PriceDimension) :
    List F :=
  match parseFloat vv.USD with
  | .ok nPrice => [nPrice]
  | .error _ => []

/-- The parsed prices of the price dimensions of a term, in the order `ro` visits them:
the term visited after `k` others in product `j` of page `n`. -/
def termPrices {F : Type} (ro : RangeOrder) (n j k : Nat)
    (parseFloat : String → Except String F) (v : Term) : List F :=
  (ro.dims n j k v.priceDimensions).flatMap (fun vv => dimensionPrice parseFloat vv.2)

/-- The parsed prices of the on-demand terms of a product, in the order `ro` visits them:
product `j` of page `n`. -/
def productPrices {F : Type} (ro : RangeOrder) (n j : Nat)
    (parseFloat : String → Except String F) (price : Product) : List F :=
  (ro.terms n j price.OnDemand).enum.flatMap
    (fun kv => termPrices ro n j kv.1 parseFloat kv.2.2)

/-- The parsed prices of the products of a page, product after product: page `n`. -/
def pagePrices {F : Type} (ro : RangeOrder) (n : Nat) (parseFloat : String → Except String F)
    (result : GetProductsOutput) : List F :=
  result.PriceList.enum.flatMap (fun jp => productPrices ro n jp.1 parseFloat jp.2)

/-- The parsed prices of a sequence of pages, page after page, the first being page `n`. -/
def allPricesFrom {F : Type} (ro : RangeOrder) (parseFloat : String → Except String F) :
    Nat → List GetProductsOutput → List F
  | _, [] => []
  | n, result :: pages =>
    pagePrices ro n parseFloat result ++ allPricesFrom ro parseFloat (n + 1) pages

/-- The parsed prices of the pages of a fetch, page after page. -/
def allPrices {F : Type} (ro : RangeOrder) (parseFloat : String → Except String F)
    (pages : List GetProductsOutput) : List F :=
  allPricesFrom ro parseFloat 0 pages

/-- The script of a pricing provider that answers with the pages `pages`, without error,
and then with `extra`. -/
def productsScript (pages : List GetProductsOutput) (extra : List GetProductsResponse) :
    List GetProductsResponse :=
  pages.map (fun result => ⟨result, none⟩) ++ extra

/-- The price dimensions of a product, in the order in which the two `range` statements
visit them: product `j` of page `n`. -/
def productDimensions (ro : RangeOrder) (n j : Nat) (price : Product) : List PriceDimension :=
  (ro.terms n j price.OnDemand).enum.flatMap
    (fun kv => (ro.dims n j kv.1 kv.2.2.priceDimensions).map Prod.snd)

/-- The price dimensions of a page, in the order in which the loops visit them: page
`n`. -/
def pageDimensions (ro : RangeOrder) (n : Nat) (result : GetProductsOutput) :
    List PriceDimension :=
  result.PriceList.enum.flatMap (fun jp => productDimensions ro n jp.1 jp.2)

/-- The price dimensions of a sequence of pages, in the order in which the loops visit
them, the first page being page `n`. -/
def dimensionsFrom (ro : RangeOrder) : Nat → List GetProductsOutput → List PriceDimension
  | _, [] => []
  | n, result :: pages => pageDimensions ro n result ++ dimensionsFrom ro (n + 1) pages

/-- The script of a spot history provider that answers with the pages `pages`, without
error, and then with `extra`. -/
def spotScript (pages : List DescribeSpotPriceHistoryOutput)
    (extra : List DescribeSpotPriceHistoryResponse) : List DescribeSpotPriceHistoryResponse :=
  pages.map (fun result => ⟨result, none⟩) ++ extra

/-- The history records of a sequence of pages, page after page. -/
def spotRecords (pages : List DescribeSpotPriceHistoryOutput) : List Ec2SpotPrice :=
  pages.flatMap (fun result => result.SpotPriceHistory)

/-- The price of a history record parses. -/
def spotParseable {F : Type} (parseFloat : String → Except String F) (price : Ec2SpotPrice) :
    Bool :=
  match parseFloat price.SpotPrice with
  | .ok _ => true
  | .error _ => false

/-- The price of every history record of the pages parses. -/
def allSpotParseable {F : Type} (parseFloat : String → Except String F)
    (pages : List DescribeSpotPriceHistoryOutput) : Bool :=
  pages.all (fun result => result.SpotPriceHistory.all (spotParseable parseFloat))

/-- The records whose availability zone is `z`, in the order of the list. -/
def zoneRecords (records : List Ec2SpotPrice) (z : AvailabilityZone) : List Ec2SpotPrice :=
  records.filter (fun price => price.AvailabilityZone == z)

/-- The parsed prices of a list of records, in the order of the list. -/
def parsedSpotPrices {F : Type} (parseFloat : String → Except String F)
    (records : List Ec2SpotPrice) : List F :=
  records.flatMap (fun price =>
    match parseFloat price.SpotPrice with
    | .ok spotPrice => [spotPrice]
    | .error _ => [])

/-- A provider-reported authorization failure: an error of the SDK error type whose text
contains "AuthFailure:". -/
def isAuthFailure : SdkError → Bool
  | .awserr _ text => stringsContains text "AuthFailure:"
  | .other _ => false

/-- An answer of the spot history provider that comes without error or with an
authorization failure. -/
def spotTolerated (resp : DescribeSpotPriceHistoryResponse) : Bool :=
  match resp.err with
  | none => true
  | some err => isAuthFailure err

/-- The answer with its authorization failure, if it has one, taken away. -/
def eraseAuthFailure (resp : DescribeSpotPriceHistoryResponse) :
    DescribeSpotPriceHistoryResponse :=
  if spotTolerated resp then { resp with err := none } else resp

/-- The five codes that the `switch` of `GetPricesOnDemand` names. -/
def recognisedCodes : List String :=
  [ErrCodeInternalErrorException, ErrCodeInvalidParameterException, ErrCodeNotFoundException,
    ErrCodeInvalidNextTokenException, ErrCodeExpiredNextTokenException]

/-- The reading of a sequence of pages of products, page after page, from the prices `p`,
the first page being page `n`. -/
def readPagesFrom {F : Type} (ro : RangeOrder) (parseFloat : String → Except String F) :
    Nat → List F → List GetProductsOutput → Except String (List F)
  | _, p, [] => .ok p
  | n, p, result :: pages =>
    match readPriceList ro n parseFloat p result.PriceList with
    | .error e => .error e
    | .ok q => readPagesFrom ro parseFloat (n + 1) q pages

/-- The reading of the first pages of a fetch, page after page, from the prices `p`. -/
def readPages {F : Type} (ro : RangeOrder) (parseFloat : String → Except String F)
    (p : List F) (pages : List GetProductsOutput) : Except String (List F) :=
  readPagesFrom ro parseFloat 0 p pages

/-- The reading of a sequence of pages of spot history, page after page, from the map
`p`. -/
def readSpotPages {F : Type} (parseFloat : String → Except String F)
    (p : List (AvailabilityZone × List F)) (pages : List DescribeSpotPriceHistoryOutput) :
    Except String (List (AvailabilityZone × List F)) :=
  pages.foldlM (fun p result => readSpotPriceHistory parseFloat p result.SpotPriceHistory) p

/-- A price string that holds a decimal digit.  A string without one is the numeral of no
number. -/
def hasDigit (s : String) : Bool := s.toList.any Char.isDigit

/-- The error with which the reading stops at a price dimension: the unit error when the
unit is not "Hrs", else the parse error when the USD price does not parse, else none. -/
def dimensionError {F : Type} (parseFloat : String → Except String F) (vv : PriceDimension) :
    Option String :=
  if vv.unit != "Hrs" then some ("price format incorrect:" ++ vv.unit)
  else
    match parseFloat vv.USD with
    | .error err => some ("price is NaN:" ++ err ++ ": '" ++ vv.USD ++ "'")
    | .ok _ => none

/-- The error of the first price dimension, in the order of the visit across the pages,
that has one. -/
def firstDimensionError {F : Type} (ro : RangeOrder) (parseFloat : String → Except String F)
    (pages : List GetProductsOutput) : Option String :=
  (dimensionsFrom ro 0 pages).findSome? (dimensionError parseFloat)

/-- The error with which the reading stops at a history record: the parse error when its
price does not parse, else none. -/
def spotRecordError {F : Type} (parseFloat : String → Except String F) (price : Ec2SpotPrice) :
    Option String :=
  match parseFloat price.SpotPrice with
  | .error err => some ("could not parse float from " ++ price.SpotPrice ++ ": " ++ err)
  | .ok _ => none

/-- The error of the first history record, in the order of the pages, that has one. -/
def firstSpotRecordError {F : Type} (parseFloat : String → Except String F)
    (pages : List DescribeSpotPriceHistoryOutput) : Option String :=
  (spotRecords pages).findSome? (spotRecordError parseFloat)

/-! ## Reachable cache states -/

/-- The values of `cache` that runs of the two public functions can produce, starting
from the initial value. -/
inductive Reachable {F : Type} : priceCacheItems F → Prop where
  | init : Reachable (cache F)
  | onDemand {c : priceCacheItems F} (ro : RangeOrder) (parseFloat : String → Except String F)
      (CacheLifetime : Duration) (now nowW : Time) (instanceType region : String)
      (tenancy : OptionTenancy) (svc : List GetProductsResponse) (run : OnDemandRun F) :
      Reachable c →
      GetPricesOnDemand ro parseFloat c CacheLifetime now nowW instanceType region tenancy svc
        = some run →
      Reachable run.cache
  | spot {c : priceCacheItems F} (parseFloat : String → Except String F)
      (CacheLifetime : Duration) (now endTime nowW : Time) (region instanceType : String)
      (svc : List DescribeSpotPriceHistoryResponse) (run : SpotRun F) :
      Reachable c →
      GetPricesSpot parseFloat c CacheLifetime now endTime nowW region instanceType svc
        = some run →
      Reachable run.cache

/-- The invariant behind the spot lookups: an item under a non-empty tenancy holds no spot
map. -/
def NoSpotUnderTenancy {F : Type} (c : priceCacheItems F) : Prop :=
  ∀ e ∈ c.items, e.tenancy ≠ "" → e.sp = none

/-! ## Example data -/

/-- A stand-in for `strconv.ParseFloat` on the price strings of the scenarios of the
specification, with a price counted in thousandths of a dollar. -/
def exampleParseFloat : String → Except String Nat
  | "0.096" => .ok 96
  | "0.03" => .ok 30
  | "0.031" => .ok 31
  | "0.029" => .ok 29
  | _ => .error "invalid syntax"

/-- A last page with one product of one term whose two dimensions are both priced
"0.096" an hour. -/
def examplePage : GetProductsOutput :=
  { PriceList := [⟨[("JRTCKXETXF", ⟨[("6YS6EN2CT7", ⟨"Hrs", "0.096"⟩),
      ("7NE97W5U4E", ⟨"Hrs", "0.096"⟩)]⟩)]⟩]
    NextToken := none }

/-- A last page with one product of one term whose two dimensions are priced "0.03" and
"0.031" an hour. -/
def twoPricePage : GetProductsOutput :=
  { PriceList := [⟨[("JRTCKXETXF", ⟨[("6YS6EN2CT7", ⟨"Hrs", "0.03"⟩),
      ("7NE97W5U4E", ⟨"Hrs", "0.031"⟩)]⟩)]⟩]
    NextToken := none }

/-- A last page of two products with the same bindings: each has one term whose two
dimensions are priced "0.03" and "0.031" an hour. -/
def twinPage : GetProductsOutput :=
  { PriceList := [⟨[("JRTCKXETXF", ⟨[("6YS6EN2CT7", ⟨"Hrs", "0.03"⟩),
      ("7NE97W5U4E", ⟨"Hrs", "0.031"⟩)]⟩)]⟩,
      ⟨[("JRTCKXETXF", ⟨[("6YS6EN2CT7", ⟨"Hrs", "0.03"⟩),
      ("7NE97W5U4E", ⟨"Hrs", "0.031"⟩)]⟩)]⟩]
    NextToken := none }

/-- A last page without products. -/
def emptyPage : GetProductsOutput := { PriceList := [], NextToken := none }

/-- A last page of spot history with two records in one zone and one in another. -/
def exampleSpotPage : DescribeSpotPriceHistoryOutput :=
  { SpotPriceHistory := [⟨"us-east-1a", "0.03"⟩, ⟨"us-east-1a", "0.031"⟩,
      ⟨"us-east-1b", "0.029"⟩]
    NextToken := none }

/-- A cache with one stale item of on-demand prices. -/
def exampleCache : priceCacheItems Nat :=
  ⟨[{ age := 0, instanceType := "m5.large", region := "us-east-1", tenancy := "Shared",
      p := some (some [96, 96]), sp := none }]⟩

/-- The map of the scenario of the specification for spot prices. -/
def exampleSpotMap : List (AvailabilityZone × List Nat) :=
  [("us-east-1a", [30, 31]), ("us-east-1b", [29])]

/-- The cache after a spot fetch of `exampleSpotMap` for ("m5.large", "us-east-1") that
wrote at time 1, starting from the empty cache. -/
def exampleSpotCache : priceCacheItems Nat :=
  writeCache (cache Nat) 1 "m5.large" "us-east-1" "" none (some (some exampleSpotMap))

/-- A first page of products: one product of one term with one dimension priced "0.03" an
hour, and a continuation token. -/
def firstPage : GetProductsOutput :=
  { PriceList := [⟨[("JRTCKXETXF", ⟨[("6YS6EN2CT7", ⟨"Hrs", "0.03"⟩)]⟩)]⟩]
    NextToken := some "page-2" }

/-- A first page of spot history: one record, and a continuation token. -/
def firstSpotPage : DescribeSpotPriceHistoryOutput :=
  { SpotPriceHistory := [⟨"us-east-1a", "0.03"⟩]
    NextToken := some "page-2" }

/-- A last page of spot history: two records in two zones. -/
def lastSpotPage : DescribeSpotPriceHistoryOutput :=
  { SpotPriceHistory := [⟨"us-east-1a", "0.031"⟩, ⟨"us-east-1b", "0.029"⟩]
    NextToken := none }

/-- A page of spot history without records. -/
def emptySpotPage : DescribeSpotPriceHistoryOutput :=
  { SpotPriceHistory := [], NextToken := none }

/-- A last page of two products: the dimension of the first has a price that does not
parse, the dimension of the second has the unit "Days". -/
def parseThenUnitPage : GetProductsOutput :=
  { PriceList := [⟨[("JRTCKXETXF", ⟨[("6YS6EN2CT7", ⟨"Hrs", "abc"⟩)]⟩)]⟩,
      ⟨[("4NA7Y494T4", ⟨[("7NE97W5U4E", ⟨"Days", "0.096"⟩)]⟩)]⟩]
    NextToken := none }

/-- A last page of two products: the dimension of the first has the unit "Days", the
dimension of the second has a price that does not parse. -/
def unitThenParsePage : GetProductsOutput :=
  { PriceList := [⟨[("4NA7Y494T4", ⟨[("7NE97W5U4E", ⟨"Days", "0.096"⟩)]⟩)]⟩,
      ⟨[("JRTCKXETXF", ⟨[("6YS6EN2CT7", ⟨"Hrs", "abc"⟩)]⟩)]⟩]
    NextToken := none }

/-- A provider-reported authorization failure. -/
def exampleAuthFailure : SdkError :=
  .awserr "AuthFailure" "AuthFailure: not authorized"

/-- A provider-reported error that is not an authorization failure. -/
def exampleThrottling : SdkError :=
  .awserr "RequestLimitExceeded" "RequestLimitExceeded: slow down"

/-- A last page of one product of one term with two dimensions: the first an hourly price,
the second with the unit "Days". -/
def unitPage : GetProductsOutput :=
  { PriceList := [⟨[("JRTCKXETXF", ⟨[("6YS6EN2CT7", ⟨"Hrs", "0.096"⟩),
      ("7NE97W5U4E", ⟨"Days", "0.096"⟩)]⟩)]⟩]
    NextToken := none }

/-- A last page of one product of one term with two dimensions: the first an hourly price,
the second with an hourly price that does not parse. -/
def badPricePage : GetProductsOutput :=
  { PriceList := [⟨[("JRTCKXETXF", ⟨[("6YS6EN2CT7", ⟨"Hrs", "0.096"⟩),
      ("7NE97W5U4E", ⟨"Hrs", "abc"⟩)]⟩)]⟩]
    NextToken := none }

/-- A last page of spot history whose second record has a price that does not parse. -/
def badSpotPage : DescribeSpotPriceHistoryOutput :=
  { SpotPriceHistory := [⟨"us-east-1a", "0.031"⟩, ⟨"us-east-1b", "abc"⟩]
    NextToken := none }

/-- A stand-in for the `float64` values of the scenarios: a price counted in thousandths of
a dollar, or the value NaN. -/
inductive ExampleFloat where
  | price (thousandths : Nat)
  | NaN
  deriving DecidableEq

/-- A stand-in for `strconv.ParseFloat` that, as the Go function does, accepts the string
"NaN" and returns the value NaN with no error; on the other strings it is
`exampleParseFloat`. -/
def exampleParseFloatNaN : String → Except String ExampleFloat
  | "NaN" => .ok .NaN
  | s =>
    match exampleParseFloat s with
    | .ok x => .ok (.price x)
    | .error e => .error e

/-- A last page of one product of one term with one dimension, an hourly price that reads
"NaN". -/
def nanPage : GetProductsOutput :=
  { PriceList := [⟨[("JRTCKXETXF", ⟨[("6YS6EN2CT7", ⟨"Hrs", "NaN"⟩)]⟩)]⟩]
    NextToken := none }

/-- A last page of spot history with one record, whose price reads "NaN". -/
def nanSpotPage : DescribeSpotPriceHistoryOutput :=
  { SpotPriceHistory := [⟨"us-east-1a", "NaN"⟩]
    NextToken := none }

/-! ## Lemmas on the cache store -/

section CacheLemmas

variable {F : Type}

theorem keyMatches_iff (it r : String) (ten : OptionTenancy) (i : priceCacheItem F) :
    keyMatches it r ten i = true ↔
      it = i.instanceType ∧ r = i.region ∧ ten = i.tenancy := by
  simp [keyMatches, and_assoc]

theorem keyMatches_mergeItem (it r : String) (ten : OptionTenancy) (now : Time)
    (p : Option (OnDemandPrices F)) (sp : Option (SpotPrices F)) (i : priceCacheItem F) :
    keyMatches it r ten (mergeItem now p sp i) = keyMatches it r ten i := rfl

theorem keyMatches_new (it r : String) (ten : OptionTenancy) (now : Time)
    (p : Option (OnDemandPrices F)) (sp : Option (SpotPrices F)) :
    keyMatches it r ten
      ({ age := now, instanceType := it, region := r, tenancy := ten, p := p, sp := sp } :
        priceCacheItem F) = true := by
  simp [keyMatches]

/-- Membership in the item list after a write. -/
theorem mem_writeCache_iff (c : priceCacheItems F) (now : Time) (it r : String)
    (ten : OptionTenancy) (p : Option (OnDemandPrices F)) (sp : Option (SpotPrices F))
    (e : priceCacheItem F) :
    e ∈ (writeCache c now it r ten p sp).items ↔
      (∃ i ∈ c.items, keyMatches it r ten i = true ∧ e = mergeItem now p sp i) ∨
      (e ∈ c.items ∧ keyMatches it r ten e = false) ∨
      ((∀ i ∈ c.items, keyMatches it r ten i = false) ∧
        e = { age := now, instanceType := it, region := r, tenancy := ten, p := p, sp := sp }) := by
  unfold writeCache
  by_cases hf : c.items.any (keyMatches it r ten) = true
  · simp only [hf, if_true, List.mem_map]
    have hnot : ¬ ∀ i ∈ c.items, keyMatches it r ten i = false := by
      intro h
      obtain ⟨i, hi, hk⟩ := List.any_eq_true.mp hf
      rw [h i hi] at hk
      exact Bool.noConfusion hk
    constructor
    · rintro ⟨i, hi, rfl⟩
      by_cases hk : keyMatches it r ten i = true
      · exact Or.inl ⟨i, hi, hk, by simp [hk]⟩
      · have hk' : keyMatches it r ten i = false := by simpa using hk
        exact Or.inr (Or.inl (by simp [hk', hi]))
    · rintro (⟨i, hi, hk, rfl⟩ | ⟨he, hk⟩ | ⟨h, _⟩)
      · exact ⟨i, hi, by simp [hk]⟩
      · exact ⟨e, he, by simp [hk]⟩
      · exact absurd h hnot
  · have hall : ∀ i ∈ c.items, keyMatches it r ten i = false := by
      intro i hi
      by_contra hk
      exact hf (List.any_eq_true.mpr ⟨i, hi, by simpa using hk⟩)
    have hmap : c.items.map (fun i =>
        if keyMatches it r ten i = true then mergeItem now p sp i else i) = c.items := by
      conv_rhs => rw [← List.map_id c.items]
      apply List.map_congr_left
      intro i hi
      simp [hall i hi]
    have hf' : c.items.any (keyMatches it r ten) = false := by simpa using hf
    simp only [hf', hmap, Bool.false_eq_true, if_false, List.mem_append, List.mem_singleton]
    constructor
    · rintro (he | rfl)
      · exact Or.inr (Or.inl ⟨he, hall e he⟩)
      · exact Or.inr (Or.inr ⟨hall, rfl⟩)
    · rintro (⟨i, hi, hk, _⟩ | ⟨he, _⟩ | ⟨_, rfl⟩)
      · rw [hall i hi] at hk
        exact Bool.noConfusion hk
      · exact Or.inl he
      · exact Or.inr rfl

/-- After a write, every item under the written key carries the time of the write and
the non-nil arguments of the write. -/
theorem writeCache_item_of_key (c : priceCacheItems F) (now : Time) (it r : String)
    (ten : OptionTenancy) (p : Option (OnDemandPrices F)) (sp : Option (SpotPrices F))
    (e : priceCacheItem F) (he : e ∈ (writeCache c now it r ten p sp).items)
    (hk : keyMatches it r ten e = true) :
    e.age = now ∧ (p.isSome = true → e.p = p) ∧ (sp.isSome = true → e.sp = sp) := by
  rcases (mem_writeCache_iff c now it r ten p sp e).mp he with
    ⟨i, _, _, rfl⟩ | ⟨_, hk'⟩ | ⟨_, rfl⟩
  · refine ⟨rfl, ?_, ?_⟩
    · intro h; simp [mergeItem, h]
    · intro h; simp [mergeItem, h]
  · rw [hk'] at hk
    exact Bool.noConfusion hk
  · exact ⟨rfl, fun _ => rfl, fun _ => rfl⟩

/-- After a write, some item stands under the written key. -/
theorem writeCache_has_key (c : priceCacheItems F) (now : Time) (it r : String)
    (ten : OptionTenancy) (p : Option (OnDemandPrices F)) (sp : Option (SpotPrices F)) :
    ∃ e ∈ (writeCache c now it r ten p sp).items, keyMatches it r ten e = true := by
  by_cases hall : ∀ i ∈ c.items, keyMatches it r ten i = false
  · exact ⟨_, (mem_writeCache_iff c now it r ten p sp _).mpr (Or.inr (Or.inr ⟨hall, rfl⟩)),
      keyMatches_new it r ten now p sp⟩
  · push_neg at hall
    obtain ⟨i, hi, hk⟩ := hall
    have hk' : keyMatches it r ten i = true := by simpa using hk
    exact ⟨mergeItem now p sp i,
      (mem_writeCache_iff c now it r ten p sp _).mpr (Or.inl ⟨i, hi, hk', rfl⟩),
      by rw [keyMatches_mergeItem]; exact hk'⟩

theorem checkCache_eq_none_iff (c : priceCacheItems F) (L : Duration) (now : Time)
    (it r : String) (ten : OptionTenancy) (isSpot : Bool) :
    checkCache c L now it r ten isSpot = none ↔
      ∀ e ∈ c.items, ¬ (keyMatches it r ten e = true ∧ now < e.age + L ∧
        hasKind isSpot e = true) := by
  simp only [checkCache, List.find?_eq_none, isFresh, Bool.and_eq_true, decide_eq_true_eq,
    and_assoc]

theorem checkCache_eq_some (c : priceCacheItems F) (L : Duration) (now : Time)
    (it r : String) (ten : OptionTenancy) (isSpot : Bool) (e : priceCacheItem F)
    (h : checkCache c L now it r ten isSpot = some e) :
    e ∈ c.items ∧ keyMatches it r ten e = true ∧ now < e.age + L ∧ hasKind isSpot e = true := by
  refine ⟨List.mem_of_find?_eq_some h, ?_⟩
  have := List.find?_some h
  simpa only [isFresh, Bool.and_eq_true, decide_eq_true_eq, and_assoc] using this

/-- The item at a position of the list after a write. -/
theorem writeCache_getElem? (c : priceCacheItems F) (now : Time) (it r : String)
    (ten : OptionTenancy) (p : Option (OnDemandPrices F)) (sp : Option (SpotPrices F))
    (n : Nat) (e : priceCacheItem F) (he : c.items[n]? = some e) :
    (writeCache c now it r ten p sp).items[n]? =
      some (if keyMatches it r ten e = true then mergeItem now p sp e else e) := by
  have hn : n < c.items.length := (List.getElem?_eq_some.mp he).1
  unfold writeCache
  by_cases hf : c.items.any (keyMatches it r ten) = true
  · simp [hf, List.getElem?_map, he]
  · have hf' : c.items.any (keyMatches it r ten) = false := by simpa using hf
    simp only [hf', Bool.false_eq_true, if_false]
    rw [List.getElem?_append_left (by simpa using hn)]
    simp [List.getElem?_map, he]

/-- A write keeps the keys of the list pairwise distinct. -/
theorem writeCache_nodup (c : priceCacheItems F) (now : Time) (it r : String)
    (ten : OptionTenancy) (p : Option (OnDemandPrices F)) (sp : Option (SpotPrices F))
    (h : (c.items.map itemKey).Nodup) :
    ((writeCache c now it r ten p sp).items.map itemKey).Nodup := by
  have hmap : (c.items.map (fun i =>
      if keyMatches it r ten i = true then mergeItem now p sp i else i)).map itemKey
      = c.items.map itemKey := by
    rw [List.map_map]
    apply List.map_congr_left
    intro i _
    by_cases hk : keyMatches it r ten i = true <;> simp [hk, itemKey, mergeItem]
  unfold writeCache
  by_cases hf : c.items.any (keyMatches it r ten) = true
  · simp only [hf, if_true, hmap]
    exact h
  · have hf' : c.items.any (keyMatches it r ten) = false := by simpa using hf
    simp only [hf', Bool.false_eq_true, if_false, List.map_append, hmap, List.map_cons,
      List.map_nil]
    refine List.Nodup.append h (List.nodup_singleton _) ?_
    intro k hk hk'
    rw [List.mem_singleton] at hk'
    subst hk'
    obtain ⟨i, hi, hik⟩ := List.mem_map.mp hk
    have : keyMatches it r ten i = true := by
      rw [keyMatches_iff]
      simp only [itemKey, Prod.mk.injEq] at hik
      exact ⟨hik.1.symm, hik.2.1.symm, hik.2.2.symm⟩
    exact hf (List.any_eq_true.mpr ⟨i, hi, this⟩)

theorem writeAll_nodup (ws : List (WriteCall F)) (c : priceCacheItems F)
    (h : (c.items.map itemKey).Nodup) : ((writeAll c ws).items.map itemKey).Nodup := by
  induction ws generalizing c with
  | nil => exact h
  | cons w ws ih =>
    exact ih _ (writeCache_nodup c w.now w.instanceType w.region w.tenancy w.p w.sp h)

/-- A list with pairwise distinct keys holds at most one item under each key. -/
theorem filter_key_length_le_one (l : List (priceCacheItem F)) (h : (l.map itemKey).Nodup)
    (it r : String) (ten : OptionTenancy) :
    (l.filter (keyMatches it r ten)).length ≤ 1 := by
  induction l with
  | nil => simp
  | cons i l ih =>
    rw [List.map_cons, List.nodup_cons] at h
    by_cases hk : keyMatches it r ten i = true
    · have hnone : l.filter (keyMatches it r ten) = [] := by
        rw [List.filter_eq_nil_iff]
        intro e he hke
        apply h.1
        rw [keyMatches_iff] at hk hke
        refine List.mem_map.mpr ⟨e, he, ?_⟩
        simp only [itemKey, Prod.mk.injEq]
        exact ⟨hke.1.symm.trans hk.1, hke.2.1.symm.trans hk.2.1, hke.2.2.symm.trans hk.2.2⟩
      simp [List.filter_cons, hk, hnone]
    · simp only [List.filter_cons, hk, if_false]
      exact ih h.2

/-- A write under another key neither adds nor removes nor changes an item under the
key looked at. -/
theorem mem_writeCache_other_key (c : priceCacheItems F) (now : Time) (it r : String)
    (ten : OptionTenancy) (it' r' : String) (ten' : OptionTenancy)
    (p : Option (OnDemandPrices F)) (sp : Option (SpotPrices F))
    (hne : ¬ (it' = it ∧ r' = r ∧ ten' = ten)) (e : priceCacheItem F)
    (hk : keyMatches it r ten e = true) :
    e ∈ (writeCache c now it' r' ten' p sp).items ↔ e ∈ c.items := by
  have hk' : keyMatches it' r' ten' e = false := by
    by_contra hcon
    have h1 : keyMatches it' r' ten' e = true := by simpa using hcon
    rw [keyMatches_iff] at hk h1
    exact hne ⟨h1.1.trans hk.1.symm, h1.2.1.trans hk.2.1.symm, h1.2.2.trans hk.2.2.symm⟩
  rw [mem_writeCache_iff]
  constructor
  · rintro (⟨i, _, hki, rfl⟩ | ⟨he, _⟩ | ⟨_, rfl⟩)
    · rw [keyMatches_mergeItem, hki] at hk'
      exact Bool.noConfusion hk'
    · exact he
    · rw [keyMatches_new] at hk'
      exact Bool.noConfusion hk'
  · intro he
    exact Or.inr (Or.inl ⟨he, hk'⟩)

theorem mem_writeAll_other_keys (ws : List (WriteCall F)) (c : priceCacheItems F)
    (it r : String) (ten : OptionTenancy)
    (hws : ∀ w ∈ ws, ¬ (w.instanceType = it ∧ w.region = r ∧ w.tenancy = ten))
    (e : priceCacheItem F) (hk : keyMatches it r ten e = true) :
    e ∈ (writeAll c ws).items ↔ e ∈ c.items := by
  induction ws generalizing c with
  | nil => exact Iff.rfl
  | cons w ws ih =>
    have h1 := ih (writeCache c w.now w.instanceType w.region w.tenancy w.p w.sp)
      (fun w' hw' => hws w' (List.mem_cons_of_mem _ hw'))
    have h2 := mem_writeCache_other_key c w.now it r ten w.instanceType w.region w.tenancy
      w.p w.sp (hws w (List.mem_cons_self _ _)) e hk
    exact h1.trans h2

/-- After a write of on-demand data, a fresh on-demand lookup under the key returns an
item of the written time that holds the written data. -/
theorem checkCache_writeCache_onDemand (c : priceCacheItems F) (L : Duration) (t now : Time)
    (it r : String) (ten : OptionTenancy) (v : OnDemandPrices F) (sp : Option (SpotPrices F))
    (h : now < t + L) :
    ∃ e, checkCache (writeCache c t it r ten (some v) sp) L now it r ten false = some e ∧
      e.age = t ∧ e.p = some v ∧ (sp.isSome = true → e.sp = sp) := by
  cases hc : checkCache (writeCache c t it r ten (some v) sp) L now it r ten false with
  | none =>
    exfalso
    obtain ⟨e, he, hk⟩ := writeCache_has_key c t it r ten (some v) sp
    obtain ⟨ha, hp, _⟩ := writeCache_item_of_key c t it r ten (some v) sp e he hk
    refine (checkCache_eq_none_iff _ L now it r ten false).mp hc e he ⟨hk, ?_, ?_⟩
    · rw [ha]; exact h
    · simp [hasKind, hp rfl]
  | some e =>
    obtain ⟨he, hk, _, _⟩ := checkCache_eq_some _ L now it r ten false e hc
    obtain ⟨ha, hp, hsp⟩ := writeCache_item_of_key c t it r ten (some v) sp e he hk
    exact ⟨e, rfl, ha, hp rfl, hsp⟩

/-- After a write of spot data, a fresh spot lookup under the key returns an item of the
written time that holds the written data. -/
theorem checkCache_writeCache_spot (c : priceCacheItems F) (L : Duration) (t now : Time)
    (it r : String) (ten : OptionTenancy) (p : Option (OnDemandPrices F)) (w : SpotPrices F)
    (h : now < t + L) :
    ∃ e, checkCache (writeCache c t it r ten p (some w)) L now it r ten true = some e ∧
      e.age = t ∧ e.sp = some w ∧ (p.isSome = true → e.p = p) := by
  cases hc : checkCache (writeCache c t it r ten p (some w)) L now it r ten true with
  | none =>
    exfalso
    obtain ⟨e, he, hk⟩ := writeCache_has_key c t it r ten p (some w)
    obtain ⟨ha, _, hsp⟩ := writeCache_item_of_key c t it r ten p (some w) e he hk
    refine (checkCache_eq_none_iff _ L now it r ten true).mp hc e he ⟨hk, ?_, ?_⟩
    · rw [ha]; exact h
    · simp [hasKind, hsp rfl]
  | some e =>
    obtain ⟨he, hk, _, _⟩ := checkCache_eq_some _ L now it r ten true e hc
    obtain ⟨ha, hp, hsp⟩ := writeCache_item_of_key c t it r ten p (some w) e he hk
    exact ⟨e, rfl, ha, hsp rfl, hp⟩

/-- A lookup misses when every item under the key is as old as the lifetime. -/
theorem checkCache_none_of_stale (c : priceCacheItems F) (L : Duration) (now : Time)
    (it r : String) (ten : OptionTenancy) (isSpot : Bool)
    (h : ∀ e ∈ c.items, keyMatches it r ten e = true → e.age + L ≤ now) :
    checkCache c L now it r ten isSpot = none := by
  rw [checkCache_eq_none_iff]
  rintro e he ⟨hk, hlt, _⟩
  exact not_lt.mpr (h e he hk) hlt

end CacheLemmas

/-! ## Lemmas on the on-demand fetcher -/

section OnDemandLemmas

variable {F : Type}

/-- A fold whose every step succeeds and appends to the accumulator. -/
theorem foldlM_ok_append {α β : Type} (f : List β → α → Except String (List β))
    (g : α → List β) (l : List α) (p : List β)
    (h : ∀ a ∈ l, ∀ q, f q a = .ok (q ++ g a)) :
    l.foldlM f p = .ok (p ++ l.flatMap g) := by
  induction l generalizing p with
  | nil => simp [pure, Except.pure]
  | cons a l ih =>
    rw [List.foldlM_cons, h a (List.mem_cons_self _ _) p]
    have := ih (p ++ g a) (fun b hb => h b (List.mem_cons_of_mem _ hb))
    simpa [bind, Except.bind, List.flatMap_cons, List.append_assoc] using this

theorem readDimension_ok (parseFloat : String → Except String F) (p : List F)
    (vv : PriceDimension) (h : hourlyParseable parseFloat vv = true) :
    readDimension parseFloat p vv = .ok (p ++ dimensionPrice parseFloat vv) := by
  unfold hourlyParseable at h
  unfold readDimension dimensionPrice
  cases hp : parseFloat vv.USD with
  | error e => simp [hp] at h
  | ok x =>
    have hu : vv.unit = "Hrs" := by simpa [hp] using h
    simp [hu]

theorem readTerm_ok (ro : RangeOrder) (hro : ro.Valid) (n j k : Nat)
    (parseFloat : String → Except String F) (p : List F) (v : Term)
    (h : v.priceDimensions.all (fun vv => hourlyParseable parseFloat vv.2) = true) :
    readTerm ro n j k parseFloat p v = .ok (p ++ termPrices ro n j k parseFloat v) := by
  unfold readTerm termPrices
  apply foldlM_ok_append
  intro vv hvv q
  apply readDimension_ok
  exact List.all_eq_true.mp h vv ((hro.2 _ _ _ _).mem_iff.mp hvv)

theorem readProduct_ok (ro : RangeOrder) (hro : ro.Valid) (n j : Nat)
    (parseFloat : String → Except String F) (p : List F) (price : Product)
    (h : price.OnDemand.all (fun v =>
      v.2.priceDimensions.all (fun vv => hourlyParseable parseFloat vv.2)) = true) :
    readProduct ro n j parseFloat p price = .ok (p ++ productPrices ro n j parseFloat price) := by
  unfold readProduct productPrices
  apply foldlM_ok_append _
    (fun (kv : Nat × String × Term) => termPrices ro n j kv.1 parseFloat kv.2.2)
  intro kv hkv q
  apply readTerm_ok ro hro
  exact List.all_eq_true.mp h kv.2
    ((hro.1 _ _ _).mem_iff.mp (List.snd_mem_of_mem_enum hkv))

theorem readPriceList_ok (ro : RangeOrder) (hro : ro.Valid) (n : Nat)
    (parseFloat : String → Except String F) (p : List F) (result : GetProductsOutput)
    (h : allHourlyParseable parseFloat [result] = true) :
    readPriceList ro n parseFloat p result.PriceList
      = .ok (p ++ pagePrices ro n parseFloat result) := by
  unfold readPriceList pagePrices
  apply foldlM_ok_append _
    (fun (jp : Nat × Product) => productPrices ro n jp.1 parseFloat jp.2)
  intro jp hjp q
  apply readProduct_ok ro hro
  simp only [allHourlyParseable, List.all_cons, List.all_nil, Bool.and_true] at h
  exact List.all_eq_true.mp h jp.2 (List.snd_mem_of_mem_enum hjp)

theorem allHourlyParseable_cons (parseFloat : String → Except String F)
    (result : GetProductsOutput) (rest : List GetProductsOutput) :
    allHourlyParseable parseFloat (result :: rest) =
      (allHourlyParseable parseFloat [result] && allHourlyParseable parseFloat rest) := by
  simp [allHourlyParseable]

/-- The pagination loop on a page sequence whose prices all parse: it gathers the prices
of the pages in hand and to come, and sends one request for each page to come, each with
the token of the page before. -/
theorem onDemandLoop_ok (ro : RangeOrder) (hro : ro.Valid)
    (parseFloat : String → Except String F) (extra : List GetProductsResponse)
    (rest : List GetProductsOutput) :
    ∀ (n : Nat) (result : GetProductsOutput) (input : GetProductsInput) (p : List F)
      (calls : List GetProductsInput),
      isPageSequence ((result :: rest).map (fun pg => pg.NextToken)) = true →
      allHourlyParseable parseFloat (result :: rest) = true →
      onDemandLoop ro n parseFloat input p result (productsScript rest extra) calls =
        some (.ok (p ++ allPricesFrom ro parseFloat n (result :: rest)),
          calls ++ (result :: rest).dropLast.map
            (fun pg => { input with NextToken := pg.NextToken })) := by
  induction rest with
  | nil =>
    intro n result input p calls hseq hok
    have hend : noNextToken result.NextToken = true := by simpa [isPageSequence] using hseq
    unfold onDemandLoop
    rw [readPriceList_ok ro hro n parseFloat p result hok]
    simp [hend, allPricesFrom]
  | cons next rest ih =>
    intro n result input p calls hseq hok
    have hseq' : noNextToken result.NextToken = false ∧
        isPageSequence ((next :: rest).map (fun pg => pg.NextToken)) = true := by
      simpa [isPageSequence] using hseq
    rw [allHourlyParseable_cons, Bool.and_eq_true] at hok
    unfold onDemandLoop
    rw [readPriceList_ok ro hro n parseFloat p result hok.1]
    simp only [hseq'.1, Bool.false_eq_true, if_false, productsScript, List.map_cons,
      List.cons_append]
    have := ih (n + 1) next { input with NextToken := result.NextToken }
      (p ++ pagePrices ro n parseFloat result)
      (calls ++ [{ input with NextToken := result.NextToken }]) hseq'.2 hok.2
    simp only [productsScript] at this
    rw [this]
    simp [allPricesFrom, List.append_assoc, List.dropLast_cons₂]

/-- A run on a hit: the cached list is returned, the cache is unchanged and no request is
sent. -/
theorem GetPricesOnDemand_hit (ro : RangeOrder) (parseFloat : String → Except String F)
    (c : priceCacheItems F) (L : Duration) (now nowW : Time) (it r : String)
    (ten : OptionTenancy) (svc : List GetProductsResponse) (p : List F)
    (h : checkCacheOnDemand c L now it r ten = some p) :
    GetPricesOnDemand ro parseFloat c L now nowW it r ten svc = some ⟨some p, none, c, []⟩ := by
  unfold GetPricesOnDemand
  rw [h]

/-- A run that returns leaves the cache as it was or writes one list under the key. -/
theorem GetPricesOnDemand_cache (ro : RangeOrder) (parseFloat : String → Except String F)
    (c : priceCacheItems F) (L : Duration) (now nowW : Time) (it r : String)
    (ten : OptionTenancy) (svc : List GetProductsResponse) (run : OnDemandRun F)
    (h : GetPricesOnDemand ro parseFloat c L now nowW it r ten svc = some run) :
    (run.cache = c ∧ (run.err = none → run.calls = [])) ∨
      (∃ p, run.p = some p ∧ run.err = none ∧
        run.cache = writeCache c nowW it r ten (some (some p)) none) := by
  unfold GetPricesOnDemand at h
  split at h
  · cases h; exact Or.inl ⟨rfl, fun _ => rfl⟩
  · split at h
    · cases h
    · split at h
      · cases h; exact Or.inl ⟨rfl, fun hn => by cases hn⟩
      · dsimp only at h
        split at h
        · cases h
        · cases h; exact Or.inl ⟨rfl, fun hn => by cases hn⟩
        · cases h; exact Or.inr ⟨_, rfl, rfl, rfl⟩

/-- A run that misses the cache and returns no error has written its result. -/
theorem GetPricesOnDemand_miss_ok (ro : RangeOrder) (parseFloat : String → Except String F)
    (c : priceCacheItems F) (L : Duration) (now nowW : Time) (it r : String)
    (ten : OptionTenancy) (svc : List GetProductsResponse) (run : OnDemandRun F)
    (hmiss : checkCacheOnDemand c L now it r ten = none)
    (h : GetPricesOnDemand ro parseFloat c L now nowW it r ten svc = some run)
    (herr : run.err = none) :
    ∃ p, run.p = some p ∧
      run.cache = writeCache c nowW it r ten (some (some p)) none := by
  unfold GetPricesOnDemand at h
  rw [hmiss] at h
  dsimp only at h
  split at h
  · cases h
  · split at h
    · cases h; cases herr
    · split at h
      · cases h
      · cases h; cases herr
      · cases h
        exact ⟨_, rfl, rfl⟩

theorem checkCacheOnDemand_writeCache (c : priceCacheItems F) (L : Duration) (t now : Time)
    (it r : String) (ten : OptionTenancy) (p : List F) (sp : Option (SpotPrices F))
    (h : now < t + L) :
    checkCacheOnDemand (writeCache c t it r ten (some (some p)) sp) L now it r ten = some p := by
  obtain ⟨e, he, _, hp, _⟩ := checkCache_writeCache_onDemand c L t now it r ten (some p) sp h
  unfold checkCacheOnDemand
  rw [he]
  simp [hp]

end OnDemandLemmas

/-! ## Lemmas on the spot fetcher -/

section SpotLemmas

variable {F : Type}

/-- A run on a hit: the cached map is returned, the cache is unchanged and no request is
sent. -/
theorem GetPricesSpot_hit (parseFloat : String → Except String F) (c : priceCacheItems F)
    (L : Duration) (now endTime nowW : Time) (r it : String)
    (svc : List DescribeSpotPriceHistoryResponse) (m : List (AvailabilityZone × List F))
    (h : checkCacheSpot c L now it r "" = some m) :
    GetPricesSpot parseFloat c L now endTime nowW r it svc = some ⟨some m, none, c, []⟩ := by
  unfold GetPricesSpot
  rw [h]

/-- A run that returns leaves the cache as it was or writes one map under the empty
tenancy. -/
theorem GetPricesSpot_cache (parseFloat : String → Except String F) (c : priceCacheItems F)
    (L : Duration) (now endTime nowW : Time) (r it : String)
    (svc : List DescribeSpotPriceHistoryResponse) (run : SpotRun F)
    (h : GetPricesSpot parseFloat c L now endTime nowW r it svc = some run) :
    run.cache = c ∨
      (∃ m, run.p = some m ∧ run.err = none ∧
        run.cache = writeCache c nowW it r "" none (some (some m))) := by
  unfold GetPricesSpot at h
  split at h
  · cases h; exact Or.inl rfl
  · split at h
    · cases h
    · split at h
      · cases h; exact Or.inl rfl
      · dsimp only at h
        split at h
        · cases h
        · cases h; exact Or.inl rfl
        · cases h; exact Or.inr ⟨_, rfl, rfl, rfl⟩

/-- A run that misses the cache and returns no error has written its result. -/
theorem GetPricesSpot_miss_ok (parseFloat : String → Except String F) (c : priceCacheItems F)
    (L : Duration) (now endTime nowW : Time) (r it : String)
    (svc : List DescribeSpotPriceHistoryResponse) (run : SpotRun F)
    (hmiss : checkCacheSpot c L now it r "" = none)
    (h : GetPricesSpot parseFloat c L now endTime nowW r it svc = some run)
    (herr : run.err = none) :
    ∃ m, run.p = some m ∧ run.cache = writeCache c nowW it r "" none (some (some m)) := by
  unfold GetPricesSpot at h
  rw [hmiss] at h
  dsimp only at h
  split at h
  · cases h
  · split at h
    · cases h; cases herr
    · split at h
      · cases h
      · cases h; cases herr
      · cases h
        exact ⟨_, rfl, rfl⟩

theorem checkCacheSpot_writeCache (c : priceCacheItems F) (L : Duration) (t now : Time)
    (it r : String) (ten : OptionTenancy) (p : Option (OnDemandPrices F))
    (m : List (AvailabilityZone × List F)) (h : now < t + L) :
    checkCacheSpot (writeCache c t it r ten p (some (some m))) L now it r ten = some m := by
  obtain ⟨e, he, _, hsp, _⟩ := checkCache_writeCache_spot c L t now it r ten p (some m) h
  unfold checkCacheSpot
  rw [he]
  simp [hsp]

theorem NoSpotUnderTenancy_writeCache (c : priceCacheItems F) (now : Time) (it r : String)
    (ten : OptionTenancy) (p : Option (OnDemandPrices F)) (sp : Option (SpotPrices F))
    (hc : NoSpotUnderTenancy c) (h : ten = "" ∨ sp = none) :
    NoSpotUnderTenancy (writeCache c now it r ten p sp) := by
  intro e he hten
  rcases (mem_writeCache_iff c now it r ten p sp e).mp he with
    ⟨i, hi, hk, rfl⟩ | ⟨he', _⟩ | ⟨_, rfl⟩
  · have hit : i.tenancy = ten := ((keyMatches_iff it r ten i).mp hk).2.2.symm
    have hten' : i.tenancy ≠ "" := hten
    rcases h with h | h
    · exact absurd (hit.trans h) hten'
    · subst h
      simpa [mergeItem] using hc i hi hten'
  · exact hc e he' hten
  · rcases h with h | h
    · exact absurd h hten
    · exact h

theorem NoSpotUnderTenancy_of_reachable (c : priceCacheItems F) (h : Reachable c) :
    NoSpotUnderTenancy c := by
  induction h with
  | init => intro e he; simp [cache] at he
  | onDemand ro parseFloat L now nowW it r ten svc run _ hrun ih =>
    rcases GetPricesOnDemand_cache ro parseFloat _ L now nowW it r ten svc run hrun with
      ⟨h, _⟩ | ⟨p, _, _, h⟩
    · rw [h]; exact ih
    · rw [h]; exact NoSpotUnderTenancy_writeCache _ nowW it r ten _ none ih (Or.inr rfl)
  | spot parseFloat L now endTime nowW r it svc run _ hrun ih =>
    rcases GetPricesSpot_cache parseFloat _ L now endTime nowW r it svc run hrun with
      h | ⟨m, _, _, h⟩
    · rw [h]; exact ih
    · rw [h]; exact NoSpotUnderTenancy_writeCache _ nowW it r "" none _ ih (Or.inl rfl)

theorem checkCacheSpot_none_of_invariant (c : priceCacheItems F) (hc : NoSpotUnderTenancy c)
    (L : Duration) (now : Time) (it r : String) (T : OptionTenancy) (hT : T ≠ "") :
    checkCacheSpot c L now it r T = none := by
  have hnone : checkCache c L now it r T true = none := by
    rw [checkCache_eq_none_iff]
    rintro e he ⟨hk, _, hkind⟩
    have hten : e.tenancy = T := ((keyMatches_iff it r T e).mp hk).2.2.symm
    have := hc e he (by rw [hten]; exact hT)
    simp [hasKind, this] at hkind
  unfold checkCacheSpot
  rw [hnone]

end SpotLemmas

/-! ## The cache store: lookups after writes -/

section CacheClaims

variable {F : Type}

/-- After two writes under one key, every item under the key is the merge, at the time of
the second write, of an item left by the first. -/
theorem mem_writeCache_twice (c : priceCacheItems F) (t1 t2 : Time) (it r : String)
    (ten : OptionTenancy) (p1 p2 : Option (OnDemandPrices F)) (sp1 sp2 : Option (SpotPrices F))
    (e : priceCacheItem F)
    (he : e ∈ (writeCache (writeCache c t1 it r ten p1 sp1) t2 it r ten p2 sp2).items)
    (hk : keyMatches it r ten e = true) :
    ∃ i ∈ (writeCache c t1 it r ten p1 sp1).items,
      keyMatches it r ten i = true ∧ e = mergeItem t2 p2 sp2 i := by
  rcases (mem_writeCache_iff _ t2 it r ten p2 sp2 e).mp he with
    ⟨i, hi, hki, rfl⟩ | ⟨_, hk'⟩ | ⟨hall, _⟩
  · exact ⟨i, hi, hki, rfl⟩
  · rw [hk'] at hk
    exact Bool.noConfusion hk
  · obtain ⟨i, hi, hki⟩ := writeCache_has_key c t1 it r ten p1 sp1
    rw [hall i hi] at hki
    exact Bool.noConfusion hki

/-- C2. For every cache state, key and non-nil value of a price kind, after `writeCache`
stores the value under the key at time `t`, `checkCache` for that key and kind at every
time `now` with `now - t < CacheLifetime` returns an item whose field of that kind is
the value, the key absent before or present with any older value. -/
theorem checkCache_after_writeCache_returns_written (c : priceCacheItems F) (L : Duration)
    (t now : Time) (it r : String) (ten : OptionTenancy)
    (v : OnDemandPrices F) (w : SpotPrices F)
    (p : Option (OnDemandPrices F)) (sp : Option (SpotPrices F)) (h : now - t < L) :
    (∃ e, checkCache (writeCache c t it r ten (some v) sp) L now it r ten false = some e ∧
        e.p = some v) ∧
    (∃ e, checkCache (writeCache c t it r ten p (some w)) L now it r ten true = some e ∧
        e.sp = some w) := by
  have h' : now < t + L := sub_lt_iff_lt_add'.mp h
  obtain ⟨e1, h1, _, hp, _⟩ := checkCache_writeCache_onDemand c L t now it r ten v sp h'
  obtain ⟨e2, h2, _, hsp, _⟩ := checkCache_writeCache_spot c L t now it r ten p w h'
  exact ⟨⟨e1, h1, hp⟩, ⟨e2, h2, hsp⟩⟩

/-- Witness of C2: a key present with older on-demand prices, written again at time 5 and
looked up within the hour. -/
theorem checkCache_after_writeCache_returns_written_witness :
    ((7 : Time) - 5 < Hour) ∧
    (∃ e, checkCache (writeCache exampleCache 5 "m5.large" "us-east-1" "Shared"
        (some (some [30])) none) Hour 7 "m5.large" "us-east-1" "Shared" false = some e ∧
        e.p = some (some [30])) ∧
    (∃ e, checkCache (writeCache exampleCache 5 "m5.large" "us-east-1" "Shared"
        none (some (some [("us-east-1a", [30])]))) Hour 7 "m5.large" "us-east-1" "Shared" true
        = some e ∧ e.sp = some (some [("us-east-1a", [30])])) :=
  ⟨by decide,
    checkCache_after_writeCache_returns_written exampleCache Hour 5 7 "m5.large" "us-east-1"
      "Shared" (some [30]) (some [("us-east-1a", [30])]) none none (by decide)⟩

/-- C3. Writing one price kind never erases the other: for an item of the cache under the
key of the write, a nil on-demand argument leaves the on-demand field as it was and a nil
spot argument leaves the spot field as it was, and a non-nil argument becomes the field
of its kind. -/
theorem writeCache_merges_only_non_nil (c : priceCacheItems F) (t : Time) (it r : String)
    (ten : OptionTenancy) (p : Option (OnDemandPrices F)) (sp : Option (SpotPrices F))
    (n : Nat) (e : priceCacheItem F) (he : c.items[n]? = some e)
    (hk : e.instanceType = it ∧ e.region = r ∧ e.tenancy = ten) :
    ∃ e', (writeCache c t it r ten p sp).items[n]? = some e' ∧
      (p = none → e'.p = e.p) ∧ (sp = none → e'.sp = e.sp) ∧
      (p ≠ none → e'.p = p) ∧ (sp ≠ none → e'.sp = sp) := by
  have hkm : keyMatches it r ten e = true :=
    (keyMatches_iff it r ten e).mpr ⟨hk.1.symm, hk.2.1.symm, hk.2.2.symm⟩
  refine ⟨mergeItem t p sp e, ?_, ?_, ?_, ?_, ?_⟩
  · rw [writeCache_getElem? c t it r ten p sp n e he, if_pos hkm]
  · rintro rfl; simp [mergeItem]
  · rintro rfl; simp [mergeItem]
  · intro hp
    cases p with
    | none => exact absurd rfl hp
    | some v => simp [mergeItem]
  · intro hsp
    cases sp with
    | none => exact absurd rfl hsp
    | some w => simp [mergeItem]

/-- Witness of C3: a spot write under the key of an item that holds on-demand prices. -/
theorem writeCache_merges_only_non_nil_witness :
    ∃ e', (writeCache exampleCache 5 "m5.large" "us-east-1" "Shared" none
        (some (some [("us-east-1a", [30])]))).items[0]? = some e' ∧
      e'.p = some (some [96, 96]) ∧ e'.sp = some (some [("us-east-1a", [30])]) := by
  obtain ⟨e', h, hp, _, _, hsp⟩ :=
    writeCache_merges_only_non_nil exampleCache 5 "m5.large" "us-east-1" "Shared" none
      (some (some [("us-east-1a", [30])])) 0
      { age := 0, instanceType := "m5.large", region := "us-east-1", tenancy := "Shared",
        p := some (some [96, 96]), sp := none } rfl ⟨rfl, rfl, rfl⟩
  exact ⟨e', h, hp rfl, hsp (by simp)⟩

/-- C4. Once `CacheLifetime` has elapsed since the last `writeCache` under a key (writes
under other keys may have followed it), `checkCache` for that key returns nothing for
either price kind, while an item under the key is still in the list, with the time and
the data of that write. -/
theorem checkCache_misses_after_lifetime (c : priceCacheItems F) (L : Duration) (t now : Time)
    (it r : String) (ten : OptionTenancy) (p : Option (OnDemandPrices F))
    (sp : Option (SpotPrices F)) (ws : List (WriteCall F))
    (hws : ∀ w ∈ ws, ¬ (w.instanceType = it ∧ w.region = r ∧ w.tenancy = ten))
    (h : L ≤ now - t) (isSpot : Bool) :
    checkCache (writeAll (writeCache c t it r ten p sp) ws) L now it r ten isSpot = none ∧
    ∃ e ∈ (writeAll (writeCache c t it r ten p sp) ws).items,
      e.instanceType = it ∧ e.region = r ∧ e.tenancy = ten ∧ e.age = t ∧
      (p ≠ none → e.p = p) ∧ (sp ≠ none → e.sp = sp) := by
  have h' : t + L ≤ now := by
    have := add_le_add_right h t
    simpa [add_comm] using this
  constructor
  · apply checkCache_none_of_stale
    intro e he hk
    have he' := (mem_writeAll_other_keys ws _ it r ten hws e hk).mp he
    rw [(writeCache_item_of_key c t it r ten p sp e he' hk).1]
    exact h'
  · obtain ⟨e, he, hk⟩ := writeCache_has_key c t it r ten p sp
    obtain ⟨ha, hp, hsp⟩ := writeCache_item_of_key c t it r ten p sp e he hk
    have hk' := (keyMatches_iff it r ten e).mp hk
    refine ⟨e, (mem_writeAll_other_keys ws _ it r ten hws e hk).mpr he,
      hk'.1.symm, hk'.2.1.symm, hk'.2.2.symm, ha, ?_, ?_⟩
    · intro hne
      exact hp (Option.isSome_iff_ne_none.mpr hne)
    · intro hne
      exact hsp (Option.isSome_iff_ne_none.mpr hne)

/-- Witness of C4: on-demand prices written at time 5, a write under another key after
it, and lookups of both kinds one hour after the write. -/
theorem checkCache_misses_after_lifetime_witness :
    checkCache (writeAll (writeCache (cache Nat) 5 "m5.large" "us-east-1" "Shared"
        (some (some [96, 96])) none)
        [⟨6, "m5.large", "us-east-1", "", none, some (some [("us-east-1a", [30])])⟩])
      Hour (5 + Hour) "m5.large" "us-east-1" "Shared" false = none ∧
    ∃ e ∈ (writeAll (writeCache (cache Nat) 5 "m5.large" "us-east-1" "Shared"
        (some (some [96, 96])) none)
        [⟨6, "m5.large", "us-east-1", "", none, some (some [("us-east-1a", [30])])⟩]).items,
      e.instanceType = "m5.large" ∧ e.region = "us-east-1" ∧ e.tenancy = "Shared" ∧ e.age = 5 ∧
      ((some (some [96, 96]) : Option (OnDemandPrices Nat)) ≠ none → e.p = some (some [96, 96])) ∧
      ((none : Option (SpotPrices Nat)) ≠ none → e.sp = none) :=
  checkCache_misses_after_lifetime (cache Nat) Hour 5 (5 + Hour) "m5.large" "us-east-1" "Shared"
    (some (some [96, 96])) none
    [⟨6, "m5.large", "us-east-1", "", none, some (some [("us-east-1a", [30])])⟩]
    (by simp) (by decide) false

/-- Counterexample to C5 as stated: on-demand prices written at time 0 under the default
lifetime are held by an item with `now <= lastWritten + CacheLifetime` at the instant
`now = 0 + CacheLifetime`, and the lookup at that instant misses. -/
theorem checkCache_at_lifetime_counterexample :
    (∃ e ∈ (writeCache (cache Nat) 0 "m5.large" "us-east-1" "Shared"
          (some (some [96, 96])) none).items,
        e.instanceType = "m5.large" ∧ e.region = "us-east-1" ∧ e.tenancy = "Shared" ∧
        0 + Hour ≤ e.age + Hour ∧ e.p ≠ none) ∧
    checkCache (writeCache (cache Nat) 0 "m5.large" "us-east-1" "Shared"
        (some (some [96, 96])) none) Hour (0 + Hour) "m5.large" "us-east-1" "Shared" false
      = none := by
  decide

/-- C5, amended. An item is valid for a price kind iff `now < lastWritten + CacheLifetime`
and the field of that kind is present: `checkCache` returns an item exactly when the list
holds an item under the key with both conditions, the item returned is such an item, and
an item written at time `t` is a miss at the instant `now = t + CacheLifetime`. -/
theorem checkCache_hit_iff_strictly_fresh (c : priceCacheItems F) (L : Duration) (now : Time)
    (it r : String) (ten : OptionTenancy) (isSpot : Bool) :
    ((checkCache c L now it r ten isSpot).isSome = true ↔
      ∃ e ∈ c.items, e.instanceType = it ∧ e.region = r ∧ e.tenancy = ten ∧
        now < e.age + L ∧ (if isSpot = true then e.sp ≠ none else e.p ≠ none)) ∧
    (∀ e, checkCache c L now it r ten isSpot = some e →
      e ∈ c.items ∧ e.instanceType = it ∧ e.region = r ∧ e.tenancy = ten ∧
        now < e.age + L ∧ (if isSpot = true then e.sp ≠ none else e.p ≠ none)) ∧
    (∀ (t : Time) (p : Option (OnDemandPrices F)) (sp : Option (SpotPrices F)),
      checkCache (writeCache c t it r ten p sp) L (t + L) it r ten isSpot = none) := by
  have hkind : ∀ e : priceCacheItem F,
      hasKind isSpot e = true ↔ (if isSpot = true then e.sp ≠ none else e.p ≠ none) := by
    intro e
    cases isSpot <;> simp [hasKind, Option.isSome_iff_ne_none]
  have hsome : ∀ e, checkCache c L now it r ten isSpot = some e →
      e ∈ c.items ∧ e.instanceType = it ∧ e.region = r ∧ e.tenancy = ten ∧
        now < e.age + L ∧ (if isSpot = true then e.sp ≠ none else e.p ≠ none) := by
    intro e he
    obtain ⟨hm, hk, hf, hh⟩ := checkCache_eq_some c L now it r ten isSpot e he
    have hk' := (keyMatches_iff it r ten e).mp hk
    exact ⟨hm, hk'.1.symm, hk'.2.1.symm, hk'.2.2.symm, hf, (hkind e).mp hh⟩
  refine ⟨⟨?_, ?_⟩, hsome, ?_⟩
  · intro h
    obtain ⟨e, he⟩ := Option.isSome_iff_exists.mp h
    obtain ⟨hm, rest⟩ := hsome e he
    exact ⟨e, hm, rest⟩
  · rintro ⟨e, hm, h1, h2, h3, hf, hh⟩
    cases hc : checkCache c L now it r ten isSpot with
    | some e' => rfl
    | none =>
      exfalso
      exact (checkCache_eq_none_iff c L now it r ten isSpot).mp hc e hm
        ⟨(keyMatches_iff it r ten e).mpr ⟨h1.symm, h2.symm, h3.symm⟩, hf, (hkind e).mpr hh⟩
  · intro t p sp
    apply checkCache_none_of_stale
    intro e he hk
    rw [(writeCache_item_of_key c t it r ten p sp e he hk).1]

/-- C6. Starting from the empty cache, after any finite sequence of `writeCache` calls the
item list holds at most one item under each (instanceType, region, tenancy) key. -/
theorem writeAll_at_most_one_item_per_key (ws : List (WriteCall F)) (it r : String)
    (ten : OptionTenancy) :
    ((writeAll (cache F) ws).items.filter
      (fun e => e.instanceType == it && e.region == r && e.tenancy == ten)).length ≤ 1 := by
  have hn : ((writeAll (cache F) ws).items.map itemKey).Nodup :=
    writeAll_nodup ws (cache F) (by simp [cache])
  have := filter_key_length_le_one _ hn it r ten
  have hfun : (fun e : priceCacheItem F =>
      e.instanceType == it && e.region == r && e.tenancy == ten) = keyMatches it r ten := by
    funext e
    simp only [keyMatches]
    rw [Bool.eq_iff_iff]
    simp only [Bool.and_eq_true, beq_iff_eq]
    constructor
    · rintro ⟨⟨h1, h2⟩, h3⟩; exact ⟨⟨h1.symm, h2.symm⟩, h3.symm⟩
    · rintro ⟨⟨h1, h2⟩, h3⟩; exact ⟨⟨h1.symm, h2.symm⟩, h3.symm⟩
  rw [hfun]
  exact this

/-- C7. The timestamp is shared by both price kinds: after on-demand data is written under
a key at time `t1` and spot data under the same key at time `t2`, an on-demand lookup for
the key at every time `now` with `now - t2 < CacheLifetime` returns the item with
timestamp `t2` and both data, and symmetrically with the kinds swapped; without the second
write the lookup misses as soon as `now - t1 >= CacheLifetime`. -/
theorem writeCache_other_kind_refreshes_timestamp (c : priceCacheItems F) (L : Duration)
    (t1 t2 now : Time) (it r : String) (ten : OptionTenancy)
    (v : OnDemandPrices F) (w : SpotPrices F) (h : now - t2 < L) :
    checkCache (writeCache (writeCache c t1 it r ten (some v) none) t2 it r ten none (some w))
        L now it r ten false
      = some { age := t2, instanceType := it, region := r, tenancy := ten,
               p := some v, sp := some w } ∧
    checkCache (writeCache (writeCache c t1 it r ten none (some w)) t2 it r ten (some v) none)
        L now it r ten true
      = some { age := t2, instanceType := it, region := r, tenancy := ten,
               p := some v, sp := some w } ∧
    (L ≤ now - t1 →
      checkCache (writeCache c t1 it r ten (some v) none) L now it r ten false = none ∧
      checkCache (writeCache c t1 it r ten none (some w)) L now it r ten true = none) := by
  have h' : now < t2 + L := sub_lt_iff_lt_add'.mp h
  have hitem : ∀ (p1 p2 : Option (OnDemandPrices F)) (sp1 sp2 : Option (SpotPrices F))
      (e : priceCacheItem F),
      e ∈ (writeCache (writeCache c t1 it r ten p1 sp1) t2 it r ten p2 sp2).items →
      keyMatches it r ten e = true →
      (if p2.isSome then p2 else p1) = some v → (if sp2.isSome then sp2 else sp1) = some w →
      (p2 = none → p1.isSome = true) → (sp2 = none → sp1.isSome = true) →
      e = { age := t2, instanceType := it, region := r, tenancy := ten,
            p := some v, sp := some w } := by
    intro p1 p2 sp1 sp2 e he hk hp hsp hp1 hsp1
    obtain ⟨i, hi, hki, rfl⟩ := mem_writeCache_twice c t1 t2 it r ten p1 p2 sp1 sp2 e he hk
    obtain ⟨_, hip, hisp⟩ := writeCache_item_of_key c t1 it r ten p1 sp1 i hi hki
    have hk' := (keyMatches_iff it r ten i).mp hki
    cases i with
    | mk age it' r' ten' ip isp =>
      simp only at hk' hip hisp
      obtain ⟨rfl, rfl, rfl⟩ := hk'
      simp only [mergeItem, priceCacheItem.mk.injEq, true_and]
      constructor
      · cases p2 with
        | none => rw [hip (hp1 rfl)]; simpa using hp
        | some x => simpa using hp
      · cases sp2 with
        | none => rw [hisp (hsp1 rfl)]; simpa using hsp
        | some x => simpa using hsp
  refine ⟨?_, ?_, ?_⟩
  · obtain ⟨e, he, _⟩ := checkCache_writeCache_spot
      (writeCache c t1 it r ten (some v) none) L t2 now it r ten none w h'
    have hcase : checkCache (writeCache (writeCache c t1 it r ten (some v) none) t2 it r ten
        none (some w)) L now it r ten false ≠ none := by
      intro hnone
      obtain ⟨hm, hk, _, _⟩ := checkCache_eq_some _ L now it r ten true e he
      have heq := hitem (some v) none none (some w) e hm hk (by simp) (by simp) (by simp)
        (by simp)
      refine (checkCache_eq_none_iff _ L now it r ten false).mp hnone e hm ⟨hk, ?_, ?_⟩
      · rw [heq]; exact h'
      · rw [heq]; simp [hasKind]
    obtain ⟨e', he'⟩ := Option.ne_none_iff_exists'.mp hcase
    obtain ⟨hm, hk, _, _⟩ := checkCache_eq_some _ L now it r ten false e' he'
    rw [he', hitem (some v) none none (some w) e' hm hk (by simp) (by simp) (by simp) (by simp)]
  · obtain ⟨e, he, _⟩ := checkCache_writeCache_onDemand
      (writeCache c t1 it r ten none (some w)) L t2 now it r ten v none h'
    have hcase : checkCache (writeCache (writeCache c t1 it r ten none (some w)) t2 it r ten
        (some v) none) L now it r ten true ≠ none := by
      intro hnone
      obtain ⟨hm, hk, _, _⟩ := checkCache_eq_some _ L now it r ten false e he
      have heq := hitem none (some v) (some w) none e hm hk (by simp) (by simp) (by simp)
        (by simp)
      refine (checkCache_eq_none_iff _ L now it r ten true).mp hnone e hm ⟨hk, ?_, ?_⟩
      · rw [heq]; exact h'
      · rw [heq]; simp [hasKind]
    obtain ⟨e', he'⟩ := Option.ne_none_iff_exists'.mp hcase
    obtain ⟨hm, hk, _, _⟩ := checkCache_eq_some _ L now it r ten true e' he'
    rw [he', hitem none (some v) (some w) none e' hm hk (by simp) (by simp) (by simp) (by simp)]
  · intro hold
    have hold' : t1 + L ≤ now := by
      have := add_le_add_right hold t1
      simpa [add_comm] using this
    constructor
    · apply checkCache_none_of_stale
      intro e he hk
      rw [(writeCache_item_of_key c t1 it r ten _ _ e he hk).1]
      exact hold'
    · apply checkCache_none_of_stale
      intro e he hk
      rw [(writeCache_item_of_key c t1 it r ten _ _ e he hk).1]
      exact hold'

/-- Witness of C7: on-demand prices written at time 0, spot prices at time `Hour`, and an
on-demand lookup at `Hour + 1`, more than the lifetime after the first write. -/
theorem writeCache_other_kind_refreshes_timestamp_witness :
    ((Hour + 1 : Time) - Hour < Hour) ∧ (Hour ≤ (Hour + 1 : Time) - 0) ∧
    checkCache (writeCache (writeCache (cache Nat) 0 "m5.large" "us-east-1" ""
        (some (some [96, 96])) none) Hour "m5.large" "us-east-1" "" none
        (some (some [("us-east-1a", [30])]))) Hour (Hour + 1) "m5.large" "us-east-1" "" false
      = some { age := Hour, instanceType := "m5.large", region := "us-east-1", tenancy := "",
               p := some (some [96, 96]), sp := some (some [("us-east-1a", [30])]) } :=
  ⟨by decide, by decide,
    (writeCache_other_kind_refreshes_timestamp (cache Nat) Hour 0 Hour (Hour + 1) "m5.large"
      "us-east-1" "" (some [96, 96]) (some [("us-east-1a", [30])]) (by decide)).1⟩

end CacheClaims

/-! ## The fetchers and the cache -/

section FetcherClaims

variable {F : Type}

theorem reversed_valid : RangeOrder.reversed.Valid :=
  ⟨fun _ _ l => List.reverse_perm l, fun _ _ _ l => List.reverse_perm l⟩

theorem document_valid : RangeOrder.document.Valid :=
  ⟨fun _ _ l => List.Perm.refl l, fun _ _ _ l => List.Perm.refl l⟩

theorem alternating_valid : RangeOrder.alternating.Valid := by
  refine ⟨fun _ _ l => List.Perm.refl l, fun _ j _ l => ?_⟩
  unfold RangeOrder.alternating
  dsimp only
  split
  · exact List.Perm.refl l
  · exact List.reverse_perm l

/-- A map over the numbered elements of a list that does not read the numbers. -/
theorem enumFrom_flatMap_snd {α β : Type} (g : α → List β) (l : List α) (i : Nat) :
    (l.enumFrom i).flatMap (fun kv => g kv.2) = l.flatMap g := by
  induction l generalizing i with
  | nil => rfl
  | cons a l ih => simp [List.enumFrom_cons, List.flatMap_cons, ih]

theorem enum_flatMap_snd {α β : Type} (g : α → List β) (l : List α) :
    l.enum.flatMap (fun kv => g kv.2) = l.flatMap g :=
  enumFrom_flatMap_snd g l 0

/-- The prices of a product under a valid range order are a rearrangement of its prices in
the order of the document. -/
theorem productPrices_perm (ro : RangeOrder) (hro : ro.Valid) (n j : Nat)
    (parseFloat : String → Except String F) (price : Product) :
    (productPrices ro n j parseFloat price).Perm
      (price.OnDemand.flatMap (fun v =>
        v.2.priceDimensions.flatMap (fun vv => dimensionPrice parseFloat vv.2))) := by
  unfold productPrices
  refine (List.Perm.flatMap_left _ (g := fun kv =>
    kv.2.2.priceDimensions.flatMap (fun vv => dimensionPrice parseFloat vv.2))
    (fun kv _ => ?_)).trans ?_
  · exact List.Perm.flatMap_right _ (hro.2 _ _ _ _)
  · rw [enum_flatMap_snd (fun (v : String × Term) =>
      v.2.priceDimensions.flatMap (fun vv => dimensionPrice parseFloat vv.2))]
    exact List.Perm.flatMap_right _ (hro.1 _ _ _)

/-- The prices of a page under a valid range order are a rearrangement of its prices in
the order of the document. -/
theorem pagePrices_perm (ro : RangeOrder) (hro : ro.Valid) (n : Nat)
    (parseFloat : String → Except String F) (result : GetProductsOutput) :
    (pagePrices ro n parseFloat result).Perm
      (result.PriceList.flatMap (fun price => price.OnDemand.flatMap (fun v =>
        v.2.priceDimensions.flatMap (fun vv => dimensionPrice parseFloat vv.2)))) := by
  unfold pagePrices
  refine (List.Perm.flatMap_left _ (g := fun jp =>
    jp.2.OnDemand.flatMap (fun v =>
      v.2.priceDimensions.flatMap (fun vv => dimensionPrice parseFloat vv.2)))
    (fun jp _ => productPrices_perm ro hro n jp.1 parseFloat jp.2)).trans ?_
  rw [enum_flatMap_snd (fun (price : Product) => price.OnDemand.flatMap (fun v =>
    v.2.priceDimensions.flatMap (fun vv => dimensionPrice parseFloat vv.2)))]

theorem allPricesFrom_perm (ro ro2 : RangeOrder) (hro : ro.Valid) (hro2 : ro2.Valid)
    (parseFloat : String → Except String F) (pages : List GetProductsOutput) (n m : Nat) :
    (allPricesFrom ro parseFloat n pages).Perm (allPricesFrom ro2 parseFloat m pages) := by
  induction pages generalizing n m with
  | nil => exact List.Perm.refl _
  | cons result pages ih =>
    simp only [allPricesFrom]
    exact List.Perm.append
      ((pagePrices_perm ro hro n parseFloat result).trans
        (pagePrices_perm ro2 hro2 m parseFloat result).symm)
      (ih (n + 1) (m + 1))

/-- The prices gathered under a valid range order are a rearrangement of the prices in
the order of the document, page by page and product by product. -/
theorem allPrices_perm (ro : RangeOrder) (hro : ro.Valid)
    (parseFloat : String → Except String F) (pages : List GetProductsOutput) :
    (allPrices ro parseFloat pages).Perm (allPrices RangeOrder.document parseFloat pages) :=
  allPricesFrom_perm ro RangeOrder.document hro document_valid parseFloat pages 0 0

/-- A fetch on a miss from a provider that answers with a page sequence whose prices all
parse. -/
theorem GetPricesOnDemand_fetch (ro : RangeOrder) (hro : ro.Valid)
    (parseFloat : String → Except String F) (c : priceCacheItems F) (L : Duration)
    (now nowW : Time) (it r : String) (ten : OptionTenancy)
    (pages : List GetProductsOutput) (extra : List GetProductsResponse)
    (hmiss : checkCacheOnDemand c L now it r ten = none)
    (hseq : isPageSequence (pages.map (fun pg => pg.NextToken)) = true)
    (hok : allHourlyParseable parseFloat pages = true) :
    GetPricesOnDemand ro parseFloat c L now nowW it r ten (productsScript pages extra) =
      some { p := some (allPrices ro parseFloat pages)
             err := none
             cache := writeCache c nowW it r ten (some (some (allPrices ro parseFloat pages))) none
             calls := onDemandInput it r ten :: pages.dropLast.map
               (fun pg => { onDemandInput it r ten with NextToken := pg.NextToken }) } := by
  cases pages with
  | nil => simp [isPageSequence] at hseq
  | cons first rest =>
    unfold GetPricesOnDemand
    rw [hmiss]
    simp only [productsScript, List.map_cons, List.cons_append]
    have := onDemandLoop_ok ro hro parseFloat extra rest 0 first (onDemandInput it r ten) []
      [onDemandInput it r ten] hseq hok
    simp only [productsScript] at this
    rw [this]
    simp [allPrices]

/-- C1. For every key and provider script on which `GetPricesOnDemand` misses the cache
and succeeds with a price list (the empty list included), a second call for the same key
made while less than `CacheLifetime` has elapsed since the cache write of the first, with
no write in between, returns that list, leaves the cache as it is and sends no request to
the provider, whatever the provider would answer. -/
theorem GetPricesOnDemand_repeat_within_lifetime (ro : RangeOrder)
    (parseFloat : String → Except String F) (c : priceCacheItems F) (L : Duration)
    (now nowW : Time) (it r : String) (ten : OptionTenancy) (svc : List GetProductsResponse)
    (run : OnDemandRun F)
    (hmiss : checkCacheOnDemand c L now it r ten = none)
    (hrun : GetPricesOnDemand ro parseFloat c L now nowW it r ten svc = some run)
    (herr : run.err = none) (now2 : Time) (hfresh : now2 - nowW < L) :
    run.p ≠ none ∧
    ∀ (ro2 : RangeOrder) (parseFloat2 : String → Except String F) (nowW2 : Time)
      (svc2 : List GetProductsResponse),
      GetPricesOnDemand ro2 parseFloat2 run.cache L now2 nowW2 it r ten svc2 =
        some { p := run.p, err := none, cache := run.cache, calls := [] } := by
  obtain ⟨p, hp, hcache⟩ :=
    GetPricesOnDemand_miss_ok ro parseFloat c L now nowW it r ten svc run hmiss hrun herr
  refine ⟨by rw [hp]; simp, ?_⟩
  intro ro2 parseFloat2 nowW2 svc2
  rw [hp]
  apply GetPricesOnDemand_hit
  rw [hcache]
  exact checkCacheOnDemand_writeCache c L nowW now2 it r ten p none (sub_lt_iff_lt_add'.mp hfresh)

/-- Witness of C1: a first call that fetches one page without products and so succeeds
with the empty list, and a second call two ticks later with a provider that has no
answer to give. -/
theorem GetPricesOnDemand_repeat_within_lifetime_witness :
    GetPricesOnDemand RangeOrder.document exampleParseFloat (cache Nat) Hour 0 1
        "m5.large" "us-east-1" "Shared" [⟨emptyPage, none⟩]
      = some { p := some [], err := none,
               cache := writeCache (cache Nat) 1 "m5.large" "us-east-1" "Shared"
                 (some (some [])) none,
               calls := [onDemandInput "m5.large" "us-east-1" "Shared"] } ∧
    GetPricesOnDemand RangeOrder.document exampleParseFloat
        (writeCache (cache Nat) 1 "m5.large" "us-east-1" "Shared" (some (some [])) none)
        Hour 3 4 "m5.large" "us-east-1" "Shared" []
      = some { p := some [], err := none,
               cache := writeCache (cache Nat) 1 "m5.large" "us-east-1" "Shared"
                 (some (some [])) none,
               calls := [] } :=
  ⟨by decide,
    (GetPricesOnDemand_repeat_within_lifetime RangeOrder.document exampleParseFloat (cache Nat)
      Hour 0 1 "m5.large" "us-east-1" "Shared" [⟨emptyPage, none⟩]
      { p := some [], err := none,
        cache := writeCache (cache Nat) 1 "m5.large" "us-east-1" "Shared" (some (some [])) none,
        calls := [onDemandInput "m5.large" "us-east-1" "Shared"] }
      (by decide) (by decide) rfl 3 (by decide)).2 RangeOrder.document exampleParseFloat 4 []⟩

/-- C8. For every instance type and region, after a `GetPricesSpot` call misses the cache
and succeeds with a map, a second call for the same instance type and region made while
less than `CacheLifetime` has elapsed since the cache write of the first returns that map
from the cache, leaves the cache as it is and sends no request to the provider. -/
theorem GetPricesSpot_repeat_within_lifetime (parseFloat : String → Except String F)
    (c : priceCacheItems F) (L : Duration) (now endTime nowW : Time) (r it : String)
    (svc : List DescribeSpotPriceHistoryResponse) (run : SpotRun F)
    (hmiss : checkCacheSpot c L now it r "" = none)
    (hrun : GetPricesSpot parseFloat c L now endTime nowW r it svc = some run)
    (herr : run.err = none) (now2 : Time) (hfresh : now2 - nowW < L) :
    run.p ≠ none ∧
    ∀ (parseFloat2 : String → Except String F) (endTime2 nowW2 : Time)
      (svc2 : List DescribeSpotPriceHistoryResponse),
      GetPricesSpot parseFloat2 run.cache L now2 endTime2 nowW2 r it svc2 =
        some { p := run.p, err := none, cache := run.cache, calls := [] } := by
  obtain ⟨m, hp, hcache⟩ :=
    GetPricesSpot_miss_ok parseFloat c L now endTime nowW r it svc run hmiss hrun herr
  refine ⟨by rw [hp]; simp, ?_⟩
  intro parseFloat2 endTime2 nowW2 svc2
  rw [hp]
  apply GetPricesSpot_hit
  rw [hcache]
  exact checkCacheSpot_writeCache c L nowW now2 it r "" none m (sub_lt_iff_lt_add'.mp hfresh)

/-- Witness of C8: a first call that fetches the page of the scenario, and a second call
two ticks later with a provider that has no answer to give. -/
theorem GetPricesSpot_repeat_within_lifetime_witness :
    GetPricesSpot exampleParseFloat (cache Nat) Hour 0 0 1 "us-east-1" "m5.large"
        [⟨exampleSpotPage, none⟩]
      = some { p := some [("us-east-1a", [30, 31]), ("us-east-1b", [29])], err := none,
               cache := writeCache (cache Nat) 1 "m5.large" "us-east-1" "" none
                 (some (some [("us-east-1a", [30, 31]), ("us-east-1b", [29])])),
               calls := [spotInput "m5.large" 0] } ∧
    GetPricesSpot exampleParseFloat
        (writeCache (cache Nat) 1 "m5.large" "us-east-1" "" none
          (some (some [("us-east-1a", [30, 31]), ("us-east-1b", [29])])))
        Hour 3 3 4 "us-east-1" "m5.large" []
      = some { p := some [("us-east-1a", [30, 31]), ("us-east-1b", [29])], err := none,
               cache := writeCache (cache Nat) 1 "m5.large" "us-east-1" "" none
                 (some (some [("us-east-1a", [30, 31]), ("us-east-1b", [29])])),
               calls := [] } :=
  ⟨by decide,
    (GetPricesSpot_repeat_within_lifetime exampleParseFloat (cache Nat) Hour 0 0 1
      "us-east-1" "m5.large" [⟨exampleSpotPage, none⟩]
      { p := some [("us-east-1a", [30, 31]), ("us-east-1b", [29])], err := none,
        cache := writeCache (cache Nat) 1 "m5.large" "us-east-1" "" none
          (some (some [("us-east-1a", [30, 31]), ("us-east-1b", [29])])),
        calls := [spotInput "m5.large" 0] }
      (by decide) (by decide) rfl 3 (by decide)).2 exampleParseFloat 3 4 []⟩

/-- Counterexample to C9 as stated: after a successful spot fetch for ("m5.large",
"us-east-1"), a lookup under each of the tenancies Shared, Host and Dedicated misses, and
yet the lookup that `GetPricesSpot` makes hits the item the fetch wrote: the call returns
the cached map and sends no request.  The lookup of the fetcher is made under the empty
tenancy, not under a tenancy of the caller. -/
theorem GetPricesSpot_lookup_tenancy_counterexample :
    GetPricesSpot exampleParseFloat (cache Nat) Hour 0 0 1 "us-east-1" "m5.large"
        [⟨exampleSpotPage, none⟩]
      = some { p := some exampleSpotMap, err := none, cache := exampleSpotCache,
               calls := [spotInput "m5.large" 0] } ∧
    checkCacheSpot exampleSpotCache Hour 3 "m5.large" "us-east-1" OptionTenancyShared = none ∧
    checkCacheSpot exampleSpotCache Hour 3 "m5.large" "us-east-1" OptionTenancyHost = none ∧
    checkCacheSpot exampleSpotCache Hour 3 "m5.large" "us-east-1" OptionTenancyDedicated = none ∧
    GetPricesSpot exampleParseFloat exampleSpotCache Hour 3 3 4 "us-east-1" "m5.large" []
      = some { p := some exampleSpotMap, err := none, cache := exampleSpotCache, calls := [] } := by
  decide

/-- C9, amended. The spot fetcher writes its result under the empty tenancy and makes its
lookup under the empty tenancy too: in every cache state reachable through
`GetPricesOnDemand` and `GetPricesSpot`, `checkCacheSpot` under a non-empty tenancy
returns nothing; a map that `checkCacheSpot` returns under the empty tenancy is what
`GetPricesSpot` returns, with no request sent; a run of `GetPricesSpot` leaves the cache
as it was or writes a map under the empty tenancy; and after such a write the lookup
under the empty tenancy returns the map while less than `CacheLifetime` has elapsed. -/
theorem checkCacheSpot_hits_only_under_empty_tenancy (c : priceCacheItems F)
    (hc : Reachable c) (L : Duration) (now : Time) (it r : String) :
    (∀ T : OptionTenancy, T ≠ "" → checkCacheSpot c L now it r T = none) ∧
    (∀ (parseFloat : String → Except String F) (endTime nowW : Time)
      (svc : List DescribeSpotPriceHistoryResponse) (m : List (AvailabilityZone × List F)),
      checkCacheSpot c L now it r "" = some m →
      GetPricesSpot parseFloat c L now endTime nowW r it svc
        = some { p := some m, err := none, cache := c, calls := [] }) ∧
    (∀ (parseFloat : String → Except String F) (endTime nowW : Time)
      (svc : List DescribeSpotPriceHistoryResponse) (run : SpotRun F),
      GetPricesSpot parseFloat c L now endTime nowW r it svc = some run →
      run.cache = c ∨
        ∃ m, run.p = some m ∧ run.cache = writeCache c nowW it r "" none (some (some m))) ∧
    (∀ (nowW now2 : Time) (m : List (AvailabilityZone × List F)), now2 - nowW < L →
      checkCacheSpot (writeCache c nowW it r "" none (some (some m))) L now2 it r "" = some m) := by
  refine ⟨?_, ?_, ?_, ?_⟩
  · intro T hT
    exact checkCacheSpot_none_of_invariant c (NoSpotUnderTenancy_of_reachable c hc) L now it r T hT
  · intro parseFloat endTime nowW svc m hm
    exact GetPricesSpot_hit parseFloat c L now endTime nowW r it svc m hm
  · intro parseFloat endTime nowW svc run hrun
    rcases GetPricesSpot_cache parseFloat c L now endTime nowW r it svc run hrun with
      h | ⟨m, hp, _, h⟩
    · exact Or.inl h
    · exact Or.inr ⟨m, hp, h⟩
  · intro nowW now2 m h
    exact checkCacheSpot_writeCache c L nowW now2 it r "" none m (sub_lt_iff_lt_add'.mp h)

/-- Witness of C9, amended: the cache after one spot fetch is reachable, and a spot lookup
under the tenancy Shared misses in it. -/
theorem checkCacheSpot_hits_only_under_empty_tenancy_witness :
    Reachable exampleSpotCache ∧
    checkCacheSpot exampleSpotCache Hour 3 "m5.large" "us-east-1" OptionTenancyShared = none :=
  have hreach : Reachable exampleSpotCache :=
    Reachable.spot exampleParseFloat Hour 0 0 1 "us-east-1" "m5.large"
      [⟨exampleSpotPage, none⟩]
      { p := some exampleSpotMap, err := none, cache := exampleSpotCache,
        calls := [spotInput "m5.large" 0] }
      Reachable.init (by decide)
  ⟨hreach,
    (checkCacheSpot_hits_only_under_empty_tenancy exampleSpotCache hreach Hour 3 "m5.large"
      "us-east-1").1 OptionTenancyShared (by decide)⟩

/-- Counterexample to C10 as stated: a page whose one product has one term with the
dimensions "0.03" and "0.031", in this order in the document, and a run in which the
`range` over the dimensions visits them in the other order: the result is
`[0.031, 0.03]`, not the concatenation in the order of the document. -/
theorem GetPricesOnDemand_order_counterexample :
    RangeOrder.reversed.Valid ∧
    allHourlyParseable exampleParseFloat [twoPricePage] = true ∧
    isPageSequence ([twoPricePage].map (fun pg => pg.NextToken)) = true ∧
    checkCacheOnDemand (cache Nat) Hour 0 "m5.large" "us-east-1" "Shared" = none ∧
    allPrices RangeOrder.document exampleParseFloat [twoPricePage] = [30, 31] ∧
    (GetPricesOnDemand RangeOrder.reversed exampleParseFloat (cache Nat) Hour 0 1
        "m5.large" "us-east-1" "Shared" [⟨twoPricePage, none⟩]).map (fun run => run.p)
      = some (some [31, 30]) :=
  ⟨reversed_valid, by decide, by decide, by decide, by decide, by decide⟩

/-- C10, amended. For every provider page sequence whose price dimensions all have the
unit "Hrs" and a USD price that parses, `GetPricesOnDemand` on a cache miss returns the
concatenation, page by page and within a page product by product in the order of the
provider, of the parsed prices of the dimensions of the terms of each product, in the
order in which each execution of the `range` statements visits the terms and the
dimensions, an order chosen anew at each execution; the result is a rearrangement of the
concatenation in the order of the document, it is written to the cache under the
requested key, and a lookup under that key returns it while less than `CacheLifetime` has
elapsed. -/
theorem GetPricesOnDemand_miss_returns_page_prices (ro : RangeOrder) (hro : ro.Valid)
    (parseFloat : String → Except String F) (c : priceCacheItems F) (L : Duration)
    (now nowW : Time) (it r : String) (ten : OptionTenancy)
    (pages : List GetProductsOutput) (extra : List GetProductsResponse)
    (hmiss : checkCacheOnDemand c L now it r ten = none)
    (hseq : isPageSequence (pages.map (fun pg => pg.NextToken)) = true)
    (hok : allHourlyParseable parseFloat pages = true) :
    (∃ calls, GetPricesOnDemand ro parseFloat c L now nowW it r ten (productsScript pages extra)
      = some { p := some (allPrices ro parseFloat pages)
               err := none
               cache := writeCache c nowW it r ten
                 (some (some (allPrices ro parseFloat pages))) none
               calls := calls }) ∧
    (allPrices ro parseFloat pages).Perm (allPrices RangeOrder.document parseFloat pages) ∧
    (∀ now2 : Time, now2 - nowW < L →
      checkCacheOnDemand
        (writeCache c nowW it r ten (some (some (allPrices ro parseFloat pages))) none)
        L now2 it r ten = some (allPrices ro parseFloat pages)) := by
  refine ⟨⟨_, GetPricesOnDemand_fetch ro hro parseFloat c L now nowW it r ten pages extra
    hmiss hseq hok⟩, allPrices_perm ro hro parseFloat pages, ?_⟩
  intro now2 h
  exact checkCacheOnDemand_writeCache c L nowW now2 it r ten _ none (sub_lt_iff_lt_add'.mp h)

/-- Witness of C10, amended: a page of two products with the same bindings, dimensions
priced "0.03" and "0.031", in a run that visits the dimensions of the first product in the
order of the document and those of the second in the reverse order: the result is
`[0.03, 0.031, 0.031, 0.03]`. -/
theorem GetPricesOnDemand_miss_returns_page_prices_witness :
    allPrices RangeOrder.alternating exampleParseFloat [twinPage] = [30, 31, 31, 30] ∧
    ∃ calls, GetPricesOnDemand RangeOrder.alternating exampleParseFloat (cache Nat) Hour 0 1
        "m5.large" "us-east-1" "Shared" (productsScript [twinPage] [])
      = some { p := some (allPrices RangeOrder.alternating exampleParseFloat [twinPage])
               err := none
               cache := writeCache (cache Nat) 1 "m5.large" "us-east-1" "Shared"
                 (some (some (allPrices RangeOrder.alternating exampleParseFloat [twinPage])))
                 none
               calls := calls } :=
  ⟨by decide,
    (GetPricesOnDemand_miss_returns_page_prices RangeOrder.alternating alternating_valid
      exampleParseFloat (cache Nat) Hour 0 1 "m5.large" "us-east-1" "Shared" [twinPage] []
      (by decide) (by decide) (by decide)).1⟩

/-- The scenario of the specification under every range order: both dimensions carry the
same price, so the result is `[0.096, 0.096]` whatever the order of the visit. -/
theorem GetPricesOnDemand_scenario_any_order (ro : RangeOrder) (hro : ro.Valid)
    (nowW : Time) :
    ∃ calls, GetPricesOnDemand ro exampleParseFloat (cache Nat) Hour 0 nowW
        "m5.large" "us-east-1" "Shared" (productsScript [examplePage] [])
      = some { p := some [96, 96]
               err := none
               cache := writeCache (cache Nat) nowW "m5.large" "us-east-1" "Shared"
                 (some (some [96, 96])) none
               calls := calls } := by
  have hperm := allPrices_perm ro hro exampleParseFloat [examplePage]
  have hdoc : allPrices RangeOrder.document exampleParseFloat [examplePage]
      = List.replicate 2 96 := by decide
  rw [hdoc] at hperm
  have heq : allPrices ro exampleParseFloat [examplePage] = [96, 96] :=
    List.perm_replicate.mp hperm
  have := GetPricesOnDemand_fetch ro hro exampleParseFloat (cache Nat) Hour 0 nowW
    "m5.large" "us-east-1" "Shared" [examplePage] [] (by decide) (by decide) (by decide)
  rw [heq] at this
  exact ⟨_, this⟩

end FetcherClaims

/-! ## The cache store: what a write leaves alone -/

section FrameClaims

variable {F : Type}

theorem find?_map_of_fixed {α : Type} (l : List α) (f : α → α) (q : α → Bool)
    (h1 : ∀ i, q (f i) = q i) (h2 : ∀ i, q i = true → f i = i) :
    (l.map f).find? q = l.find? q := by
  induction l with
  | nil => rfl
  | cons a l ih =>
    rw [List.map_cons, List.find?_cons, List.find?_cons, h1 a]
    cases hq : q a with
    | true => simp [h2 a hq]
    | false => simpa using ih

theorem find?_append_singleton_of_false {α : Type} (l : List α) (x : α) (q : α → Bool)
    (h : q x = false) : (l ++ [x]).find? q = l.find? q := by
  induction l with
  | nil => simp [List.find?_cons, h]
  | cons a l ih =>
    rw [List.cons_append, List.find?_cons, List.find?_cons, ih]

/-- A write under one key does not change what a lookup under another key returns. -/
theorem checkCache_writeCache_other_key (c : priceCacheItems F) (t : Time) (it r : String)
    (ten : OptionTenancy) (it' r' : String) (ten' : OptionTenancy)
    (p : Option (OnDemandPrices F)) (sp : Option (SpotPrices F))
    (hne : ¬ (it' = it ∧ r' = r ∧ ten' = ten)) (L : Duration) (now : Time) (isSpot : Bool) :
    checkCache (writeCache c t it' r' ten' p sp) L now it r ten isSpot
      = checkCache c L now it r ten isSpot := by
  have hkey : ∀ i : priceCacheItem F, keyMatches it' r' ten' i = true →
      keyMatches it r ten i = false := by
    intro i h1
    by_contra hcon
    have h2 : keyMatches it r ten i = true := by simpa using hcon
    rw [keyMatches_iff] at h1 h2
    exact hne ⟨h1.1.trans h2.1.symm, h1.2.1.trans h2.2.1.symm, h1.2.2.trans h2.2.2.symm⟩
  have hmap : (c.items.map (fun i =>
      if keyMatches it' r' ten' i = true then mergeItem t p sp i else i)).find?
        (fun i => keyMatches it r ten i && isFresh L now i && hasKind isSpot i)
      = c.items.find?
        (fun i => keyMatches it r ten i && isFresh L now i && hasKind isSpot i) := by
    apply find?_map_of_fixed
    · intro i
      by_cases hk : keyMatches it' r' ten' i = true
      · simp only [hk, if_true, keyMatches_mergeItem, hkey i hk, Bool.false_and]
      · rw [if_neg hk]
    · intro i hq
      by_cases hk : keyMatches it' r' ten' i = true
      · rw [hkey i hk] at hq
        simp at hq
      · rw [if_neg hk]
  unfold checkCache writeCache
  by_cases hf : c.items.any (keyMatches it' r' ten') = true
  · simp only [hf, if_true]
    exact hmap
  · have hf' : c.items.any (keyMatches it' r' ten') = false := by simpa using hf
    simp only [hf', Bool.false_eq_true, if_false]
    rw [find?_append_singleton_of_false, hmap]
    rw [hkey _ (keyMatches_new it' r' ten' t p sp)]
    rfl

/-- The length of the item list after a write. -/
theorem writeCache_length (c : priceCacheItems F) (t : Time) (it r : String)
    (ten : OptionTenancy) (p : Option (OnDemandPrices F)) (sp : Option (SpotPrices F)) :
    (writeCache c t it r ten p sp).items.length =
      if c.items.any (keyMatches it r ten) = true then c.items.length
      else c.items.length + 1 := by
  unfold writeCache
  by_cases hf : c.items.any (keyMatches it r ten) = true
  · simp [hf]
  · have hf' : c.items.any (keyMatches it r ten) = false := by simpa using hf
    simp [hf']

/-- C18. `writeCache` never deletes and never touches other keys: for every cache state
and every call, an item whose key differs from the key of the call is unchanged and stays
at its position, every position still holds an item with the key it held, and the number
of items is unchanged when an item under the key exists and grows by one otherwise. -/
theorem writeCache_leaves_other_keys (c : priceCacheItems F) (t : Time) (it r : String)
    (ten : OptionTenancy) (p : Option (OnDemandPrices F)) (sp : Option (SpotPrices F)) :
    (∀ (n : Nat) (e : priceCacheItem F), c.items[n]? = some e →
      ¬ (e.instanceType = it ∧ e.region = r ∧ e.tenancy = ten) →
      (writeCache c t it r ten p sp).items[n]? = some e) ∧
    (∀ (n : Nat) (e : priceCacheItem F), c.items[n]? = some e →
      ∃ e', (writeCache c t it r ten p sp).items[n]? = some e' ∧
        e'.instanceType = e.instanceType ∧ e'.region = e.region ∧ e'.tenancy = e.tenancy) ∧
    ((∃ e ∈ c.items, e.instanceType = it ∧ e.region = r ∧ e.tenancy = ten) →
      (writeCache c t it r ten p sp).items.length = c.items.length) ∧
    ((¬ ∃ e ∈ c.items, e.instanceType = it ∧ e.region = r ∧ e.tenancy = ten) →
      (writeCache c t it r ten p sp).items.length = c.items.length + 1) := by
  have hany : c.items.any (keyMatches it r ten) = true ↔
      ∃ e ∈ c.items, e.instanceType = it ∧ e.region = r ∧ e.tenancy = ten := by
    rw [List.any_eq_true]
    constructor
    · rintro ⟨e, he, hk⟩
      have := (keyMatches_iff it r ten e).mp hk
      exact ⟨e, he, this.1.symm, this.2.1.symm, this.2.2.symm⟩
    · rintro ⟨e, he, h1, h2, h3⟩
      exact ⟨e, he, (keyMatches_iff it r ten e).mpr ⟨h1.symm, h2.symm, h3.symm⟩⟩
  refine ⟨?_, ?_, ?_, ?_⟩
  · intro n e he hne
    have hk : ¬ keyMatches it r ten e = true := by
      intro hk
      have := (keyMatches_iff it r ten e).mp hk
      exact hne ⟨this.1.symm, this.2.1.symm, this.2.2.symm⟩
    rw [writeCache_getElem? c t it r ten p sp n e he, if_neg hk]
  · intro n e he
    refine ⟨_, writeCache_getElem? c t it r ten p sp n e he, ?_⟩
    by_cases hk : keyMatches it r ten e = true
    · simp [hk, mergeItem]
    · simp [hk]
  · intro h
    rw [writeCache_length, if_pos (hany.mpr h)]
  · intro h
    rw [writeCache_length, if_neg (fun hf => h (hany.mp hf))]

/-- C19. Through the public operations the two price kinds share an item only under the
empty tenancy: a run of `GetPricesSpot` leaves every item under a non-empty tenancy `T`
as it was, timestamp included, at its position; lookups of either kind under a key with
tenancy `T`, the on-demand lookup among them, give the same result before and after the
run at every time and lifetime; and in a cache reachable through the public operations
an item that holds both kinds has the empty tenancy. -/
theorem GetPricesSpot_leaves_other_tenancies (parseFloat : String → Except String F)
    (c : priceCacheItems F) (L : Duration) (now endTime nowW : Time) (r it : String)
    (svc : List DescribeSpotPriceHistoryResponse) (run : SpotRun F)
    (hrun : GetPricesSpot parseFloat c L now endTime nowW r it svc = some run)
    (T : OptionTenancy) (hT : T ≠ "") :
    (∀ (n : Nat) (e : priceCacheItem F), c.items[n]? = some e → e.tenancy = T →
      run.cache.items[n]? = some e) ∧
    (∀ e : priceCacheItem F, e.tenancy = T → (e ∈ run.cache.items ↔ e ∈ c.items)) ∧
    (∀ (L2 : Duration) (now2 : Time) (it2 r2 : String) (isSpot : Bool),
      checkCache run.cache L2 now2 it2 r2 T isSpot = checkCache c L2 now2 it2 r2 T isSpot) ∧
    (∀ (L2 : Duration) (now2 : Time) (it2 r2 : String),
      checkCacheOnDemand run.cache L2 now2 it2 r2 T = checkCacheOnDemand c L2 now2 it2 r2 T) ∧
    (Reachable c → ∀ e ∈ run.cache.items, e.p ≠ none → e.sp ≠ none → e.tenancy = "") := by
  have hne : ∀ it2 r2 : String, ¬ (it = it2 ∧ r = r2 ∧ ("" : OptionTenancy) = T) :=
    fun _ _ h => hT h.2.2.symm
  have hlast : Reachable c → ∀ e ∈ run.cache.items, e.p ≠ none → e.sp ≠ none →
      e.tenancy = "" := by
    intro hc e he _ hsp
    by_contra hten
    exact hsp (NoSpotUnderTenancy_of_reachable run.cache
      (Reachable.spot parseFloat L now endTime nowW r it svc run hc hrun) e he hten)
  rcases GetPricesSpot_cache parseFloat c L now endTime nowW r it svc run hrun with
    h | ⟨m, _, _, h⟩
  · rw [h] at hlast ⊢
    exact ⟨fun n e he _ => he, fun e _ => Iff.rfl, fun _ _ _ _ _ => rfl, fun _ _ _ _ => rfl,
      hlast⟩
  · rw [h] at hlast ⊢
    refine ⟨?_, ?_, ?_, ?_, hlast⟩
    · intro n e he hten
      have hk : ¬ keyMatches it r "" e = true := by
        intro hk
        exact hT (hten.symm.trans ((keyMatches_iff it r "" e).mp hk).2.2.symm)
      rw [writeCache_getElem? c nowW it r "" none _ n e he, if_neg hk]
    · intro e hten
      exact mem_writeCache_other_key c nowW e.instanceType e.region T it r "" none _
        (hne _ _) e ((keyMatches_iff _ _ _ e).mpr ⟨rfl, rfl, hten.symm⟩)
    · intro L2 now2 it2 r2 isSpot
      exact checkCache_writeCache_other_key c nowW it2 r2 T it r "" none _ (hne _ _) L2 now2
        isSpot
    · intro L2 now2 it2 r2
      unfold checkCacheOnDemand
      rw [checkCache_writeCache_other_key c nowW it2 r2 T it r "" none _ (hne _ _) L2 now2
        false]

/-- Witness of C19: on-demand prices cached under the tenancy Shared at time 0, and a spot
fetch for the same instance type and region that writes at time 6; the item under Shared
is still the first of the list, with timestamp 0, and at time `Hour` the on-demand lookup
under Shared misses after the spot fetch as it does before. -/
theorem GetPricesSpot_leaves_other_tenancies_witness :
    GetPricesSpot exampleParseFloat exampleCache Hour 5 5 6 "us-east-1" "m5.large"
        [⟨exampleSpotPage, none⟩]
      = some { p := some exampleSpotMap, err := none,
               cache := writeCache exampleCache 6 "m5.large" "us-east-1" "" none
                 (some (some exampleSpotMap)),
               calls := [spotInput "m5.large" 5] } ∧
    (writeCache exampleCache 6 "m5.large" "us-east-1" "" none
        (some (some exampleSpotMap))).items[0]?
      = some { age := 0, instanceType := "m5.large", region := "us-east-1",
               tenancy := "Shared", p := some (some [96, 96]), sp := none } ∧
    checkCacheOnDemand (writeCache exampleCache 6 "m5.large" "us-east-1" "" none
        (some (some exampleSpotMap))) Hour Hour "m5.large" "us-east-1" "Shared"
      = checkCacheOnDemand exampleCache Hour Hour "m5.large" "us-east-1" "Shared" :=
  have h := GetPricesSpot_leaves_other_tenancies exampleParseFloat exampleCache Hour 5 5 6
    "us-east-1" "m5.large" [⟨exampleSpotPage, none⟩]
    { p := some exampleSpotMap, err := none,
      cache := writeCache exampleCache 6 "m5.large" "us-east-1" "" none
        (some (some exampleSpotMap)),
      calls := [spotInput "m5.large" 5] }
    (by decide) "Shared" (by decide)
  ⟨by decide,
    h.1 0 { age := 0, instanceType := "m5.large", region := "us-east-1",
            tenancy := "Shared", p := some (some [96, 96]), sp := none } rfl rfl,
    h.2.2.2.1 Hour Hour "m5.large" "us-east-1"⟩

end FrameClaims

/-! ## The error classification of the on-demand fetcher -/

section ClassificationClaims

variable {F : Type}

theorem onDemandNextCallError_eq (err : SdkError) :
    onDemandNextCallError err = onDemandFirstCallError err := by
  cases err <;> rfl

/-- The first call of a run on a miss fails: the run returns the classified error. -/
theorem GetPricesOnDemand_first_call_fails (ro : RangeOrder)
    (parseFloat : String → Except String F) (c : priceCacheItems F) (L : Duration)
    (now nowW : Time) (it r : String) (ten : OptionTenancy) (result : GetProductsOutput)
    (err : SdkError) (svc : List GetProductsResponse)
    (hmiss : checkCacheOnDemand c L now it r ten = none) :
    GetPricesOnDemand ro parseFloat c L now nowW it r ten (⟨result, some err⟩ :: svc)
      = some { p := none, err := some (onDemandFirstCallError err), cache := c,
               calls := [onDemandInput it r ten] } := by
  unfold GetPricesOnDemand
  rw [hmiss]

/-- A later call fails: the loop returns the classified error. -/
theorem onDemandLoop_next_call_fails (ro : RangeOrder) (n : Nat)
    (parseFloat : String → Except String F)
    (input : GetProductsInput) (p q : List F) (result result2 : GetProductsOutput)
    (err : SdkError) (svc : List GetProductsResponse) (calls : List GetProductsInput)
    (hread : readPriceList ro n parseFloat p result.PriceList = .ok q)
    (htok : noNextToken result.NextToken = false) :
    onDemandLoop ro n parseFloat input p result (⟨result2, some err⟩ :: svc) calls
      = some (.error (onDemandNextCallError err),
          calls ++ [{ input with NextToken := result.NextToken }]) := by
  unfold onDemandLoop
  rw [hread]
  simp [htok]

/-- C17. The error classification of the on-demand fetcher is a function of the provider
error that embeds the text of the error: for each of the five recognised codes the
message is the code, then ": ", then the text; for any other code of a provider error it
is the text alone; for an error that is not a provider error it is the text alone; the
message always ends with the text; the classification of a continuation call is that of
the first call; and these are the messages that the fetcher returns when its first call
or a continuation call fails. -/
theorem onDemand_error_classification :
    (∀ code text : String, code ∈ recognisedCodes →
      onDemandFirstCallError (.awserr code text) = code ++ ": " ++ text) ∧
    (∀ code text : String, code ∉ recognisedCodes →
      onDemandFirstCallError (.awserr code text) = text) ∧
    (∀ text : String, onDemandFirstCallError (.other text) = text) ∧
    (∀ err : SdkError, ∃ pre : String, onDemandFirstCallError err = pre ++ err.Error) ∧
    (∀ err : SdkError, onDemandNextCallError err = onDemandFirstCallError err) ∧
    (∀ (ro : RangeOrder) (parseFloat : String → Except String F) (c : priceCacheItems F)
      (L : Duration) (now nowW : Time) (it r : String) (ten : OptionTenancy)
      (result : GetProductsOutput) (err : SdkError) (svc : List GetProductsResponse),
      checkCacheOnDemand c L now it r ten = none →
      GetPricesOnDemand ro parseFloat c L now nowW it r ten (⟨result, some err⟩ :: svc)
        = some { p := none, err := some (onDemandFirstCallError err), cache := c,
                 calls := [onDemandInput it r ten] }) ∧
    (∀ (ro : RangeOrder) (n : Nat) (parseFloat : String → Except String F)
      (input : GetProductsInput)
      (p q : List F) (result result2 : GetProductsOutput) (err : SdkError)
      (svc : List GetProductsResponse) (calls : List GetProductsInput),
      readPriceList ro n parseFloat p result.PriceList = .ok q →
      noNextToken result.NextToken = false →
      onDemandLoop ro n parseFloat input p result (⟨result2, some err⟩ :: svc) calls
        = some (.error (onDemandNextCallError err),
            calls ++ [{ input with NextToken := result.NextToken }])) := by
  have h1 : ∀ code text : String, code ∈ recognisedCodes →
      onDemandFirstCallError (.awserr code text) = code ++ ": " ++ text := by
    intro code text h
    simp only [recognisedCodes, List.mem_cons, List.mem_singleton, List.not_mem_nil,
      or_false] at h
    rcases h with h | h | h | h | h <;> subst h <;>
      simp [onDemandFirstCallError, ErrCodeInternalErrorException,
        ErrCodeInvalidParameterException, ErrCodeNotFoundException,
        ErrCodeInvalidNextTokenException, ErrCodeExpiredNextTokenException]
  have h2 : ∀ code text : String, code ∉ recognisedCodes →
      onDemandFirstCallError (.awserr code text) = text := by
    intro code text h
    simp only [recognisedCodes, List.mem_cons, List.mem_singleton, List.not_mem_nil,
      or_false, not_or] at h
    obtain ⟨n1, n2, n3, n4, n5⟩ := h
    simp [onDemandFirstCallError, n1, n2, n3, n4, n5]
  refine ⟨h1, h2, fun _ => rfl, ?_, onDemandNextCallError_eq, ?_, ?_⟩
  · intro err
    cases err with
    | other text => exact ⟨"", by simp [onDemandFirstCallError, SdkError.Error]⟩
    | awserr code text =>
      by_cases h : code ∈ recognisedCodes
      · exact ⟨code ++ ": ", by rw [h1 code text h]; rfl⟩
      · exact ⟨"", by rw [h2 code text h]; simp [SdkError.Error]⟩
  · intro ro parseFloat c L now nowW it r ten result err svc hmiss
    exact GetPricesOnDemand_first_call_fails ro parseFloat c L now nowW it r ten result err svc
      hmiss
  · intro ro n parseFloat input p q result result2 err svc calls hread htok
    exact onDemandLoop_next_call_fails ro n parseFloat input p q result result2 err svc calls
      hread htok

end ClassificationClaims

/-! ## Pagination -/

section PaginationLemmas

variable {F : Type}

theorem isPageSequence_append_singleton (pre : List (Option String)) (last : Option String) :
    isPageSequence (pre ++ [last]) = true ↔
      (∀ tok ∈ pre, noNextToken tok = false) ∧ noNextToken last = true := by
  induction pre with
  | nil => simp [isPageSequence]
  | cons tok pre ih =>
    cases pre with
    | nil => simp [isPageSequence]
    | cons tok2 pre =>
      have : isPageSequence (tok :: tok2 :: pre ++ [last])
          = (!noNextToken tok && isPageSequence (tok2 :: pre ++ [last])) := rfl
      rw [this, Bool.and_eq_true, ih]
      simp only [List.mem_cons, forall_eq_or_imp, Bool.not_eq_true', and_assoc]

theorem readPagesFrom_cons (ro : RangeOrder) (parseFloat : String → Except String F)
    (n : Nat) (p q : List F) (result : GetProductsOutput) (more : List GetProductsOutput)
    (h : readPagesFrom ro parseFloat n p (result :: more) = .ok q) :
    ∃ q1, readPriceList ro n parseFloat p result.PriceList = .ok q1 ∧
      readPagesFrom ro parseFloat (n + 1) q1 more = .ok q := by
  unfold readPagesFrom at h
  cases h1 : readPriceList ro n parseFloat p result.PriceList with
  | error e => rw [h1] at h; cases h
  | ok q1 => rw [h1] at h; exact ⟨q1, rfl, h⟩

/-- The loop reads its `input` only to set the token of the next request. -/
theorem onDemandLoop_input (ro : RangeOrder) (n : Nat) (parseFloat : String → Except String F)
    (input : GetProductsInput) (tok : Option String) (p : List F) (result : GetProductsOutput)
    (svc : List GetProductsResponse) (calls : List GetProductsInput) :
    onDemandLoop ro n parseFloat { input with NextToken := tok } p result svc calls
      = onDemandLoop ro n parseFloat input p result svc calls := by
  unfold onDemandLoop
  rfl

/-- The loop on pages that carry a token and are read without error: it sends one request
for each of them and comes to the answer that follows. -/
theorem onDemandLoop_advance (ro : RangeOrder) (parseFloat : String → Except String F)
    (input : GetProductsInput) (resp : GetProductsResponse) (rest : List GetProductsResponse)
    (q : List F) (more : List GetProductsOutput) :
    ∀ (n : Nat) (result : GetProductsOutput) (p : List F) (calls : List GetProductsInput),
      (∀ pg ∈ result :: more, noNextToken pg.NextToken = false) →
      readPagesFrom ro parseFloat n p (result :: more) = .ok q →
      onDemandLoop ro n parseFloat input p result
          (more.map (fun pg => ⟨pg, none⟩) ++ resp :: rest) calls =
        match resp.err with
        | some err => some (.error (onDemandNextCallError err),
            calls ++ (result :: more).map (fun pg => { input with NextToken := pg.NextToken }))
        | none => onDemandLoop ro (n + (more.length + 1)) parseFloat input q resp.result rest
            (calls ++ (result :: more).map (fun pg => { input with NextToken := pg.NextToken })) := by
  induction more with
  | nil =>
    intro n result p calls htok hread
    obtain ⟨q1, h1, h2⟩ := readPagesFrom_cons ro parseFloat n p q result [] hread
    have hq : q1 = q := by
      simp only [readPagesFrom, Except.ok.injEq] at h2
      exact h2
    subst hq
    have ht := htok result (List.mem_cons_self _ _)
    rw [onDemandLoop, h1]
    simp only [ht, Bool.false_eq_true, if_false, List.map_nil, List.nil_append, List.map_cons,
      List.length_nil, Nat.zero_add]
    cases resp.err with
    | some err => rfl
    | none => exact onDemandLoop_input ro (n + 1) parseFloat input _ q1 resp.result rest _
  | cons next more ih =>
    intro n result p calls htok hread
    obtain ⟨q1, h1, h2⟩ := readPagesFrom_cons ro parseFloat n p q result (next :: more) hread
    have ht := htok result (List.mem_cons_self _ _)
    rw [onDemandLoop, h1]
    simp only [ht, Bool.false_eq_true, if_false, List.map_cons, List.cons_append]
    rw [onDemandLoop_input,
      ih (n + 1) next q1 _ (fun pg hpg => htok pg (List.mem_cons_of_mem _ hpg)) h2]
    have hn : n + 1 + (more.length + 1) = n + ((next :: more).length + 1) := by
      simp only [List.length_cons]; omega
    rw [hn]
    simp only [List.map_cons, List.append_assoc, List.singleton_append]

/-- The loop on a page without token: it reads the page and returns. -/
theorem onDemandLoop_last (ro : RangeOrder) (n : Nat) (parseFloat : String → Except String F)
    (input : GetProductsInput) (p : List F) (result : GetProductsOutput)
    (svc : List GetProductsResponse) (calls : List GetProductsInput)
    (htok : noNextToken result.NextToken = true) :
    onDemandLoop ro n parseFloat input p result svc calls =
      match readPriceList ro n parseFloat p result.PriceList with
      | .error e => some (.error e, calls)
      | .ok q => some (.ok q, calls) := by
  rw [onDemandLoop]
  cases readPriceList ro n parseFloat p result.PriceList with
  | error e => rfl
  | ok q => simp [htok]

/-- The loop on a page that is read with an error: it returns the error. -/
theorem onDemandLoop_read_error (ro : RangeOrder) (n : Nat)
    (parseFloat : String → Except String F)
    (input : GetProductsInput) (p : List F) (result : GetProductsOutput)
    (svc : List GetProductsResponse) (calls : List GetProductsInput) (e : String)
    (hread : readPriceList ro n parseFloat p result.PriceList = .error e) :
    onDemandLoop ro n parseFloat input p result svc calls = some (.error e, calls) := by
  rw [onDemandLoop, hread]

/-- The loop on a page sequence returns, and when it returns prices it has sent one
request for each page but the last. -/
theorem onDemandLoop_terminates (ro : RangeOrder) (parseFloat : String → Except String F)
    (input : GetProductsInput) (extra : List GetProductsResponse)
    (rest : List GetProductsOutput) :
    ∀ (n : Nat) (result : GetProductsOutput) (p : List F) (calls : List GetProductsInput),
      isPageSequence ((result :: rest).map (fun pg => pg.NextToken)) = true →
      ∃ res calls', onDemandLoop ro n parseFloat input p result (productsScript rest extra) calls
          = some (res, calls') ∧
        (∀ q, res = .ok q → calls' = calls ++ (result :: rest).dropLast.map
          (fun pg => { input with NextToken := pg.NextToken })) := by
  induction rest with
  | nil =>
    intro n result p calls hseq
    have hend : noNextToken result.NextToken = true := by simpa [isPageSequence] using hseq
    rw [onDemandLoop_last ro n parseFloat input p result _ calls hend]
    cases readPriceList ro n parseFloat p result.PriceList with
    | error e => exact ⟨_, _, rfl, fun q hq => by cases hq⟩
    | ok q => exact ⟨_, _, rfl, fun _ _ => by simp⟩
  | cons next rest ih =>
    intro n result p calls hseq
    have hseq' : noNextToken result.NextToken = false ∧
        isPageSequence ((next :: rest).map (fun pg => pg.NextToken)) = true := by
      simpa [isPageSequence] using hseq
    cases hread : readPriceList ro n parseFloat p result.PriceList with
    | error e =>
      rw [onDemandLoop_read_error ro n parseFloat input p result _ calls e hread]
      exact ⟨_, _, rfl, fun q hq => by cases hq⟩
    | ok q1 =>
      have hadv := onDemandLoop_advance ro parseFloat input ⟨next, none⟩
        (productsScript rest extra) q1 [] n result p calls
        (by intro pg hpg; simp only [List.mem_singleton] at hpg; rw [hpg]; exact hseq'.1)
        (by simp [readPagesFrom, hread])
      simp only [List.map_nil, List.nil_append, List.map_cons, List.length_nil,
        Nat.zero_add] at hadv
      have hscript : productsScript (next :: rest) extra
          = ⟨next, none⟩ :: productsScript rest extra := rfl
      rw [hscript, hadv]
      obtain ⟨res, calls', h1, h2⟩ := ih (n + 1) next q1
        (calls ++ [{ input with NextToken := result.NextToken }]) hseq'.2
      refine ⟨res, calls', h1, ?_⟩
      intro q hq
      rw [h2 q hq, List.dropLast_cons₂]
      simp

theorem spotNextCallError_eq (region : String) (err : SdkError) :
    spotNextCallError region err = spotFirstCallError region err := by
  cases err <;> rfl

theorem spotFirstCallError_of_tolerated (region : String)
    (resp : DescribeSpotPriceHistoryResponse) (h : spotTolerated resp = true) :
    resp.err.bind (spotFirstCallError region) = none := by
  unfold spotTolerated at h
  cases herr : resp.err with
  | none => rfl
  | some err =>
    rw [herr] at h
    cases err with
    | other text => simp [isAuthFailure] at h
    | awserr code text =>
      simp only [isAuthFailure] at h
      simp [spotFirstCallError, h]

theorem spotNextCallError_of_tolerated (region : String)
    (resp : DescribeSpotPriceHistoryResponse) (h : spotTolerated resp = true) :
    resp.err.bind (spotNextCallError region) = none := by
  have := spotFirstCallError_of_tolerated region resp h
  cases herr : resp.err with
  | none => rfl
  | some err =>
    rw [herr] at this
    simpa [spotNextCallError_eq] using this

/-- An error that is not an authorization failure is returned, with the region. -/
theorem spotFirstCallError_of_not_authFailure (region : String) (err : SdkError)
    (h : isAuthFailure err = false) :
    spotFirstCallError region err =
      some (match err with
        | .awserr _ text => "error 1: region: " ++ region ++ ", " ++ text
        | .other text => "error 2: region: " ++ region ++ ", " ++ text) := by
  cases err with
  | other text => rfl
  | awserr code text =>
    simp only [isAuthFailure] at h
    simp [spotFirstCallError, h]

theorem readSpotPages_cons (parseFloat : String → Except String F)
    (p q : List (AvailabilityZone × List F)) (result : DescribeSpotPriceHistoryOutput)
    (more : List DescribeSpotPriceHistoryOutput)
    (h : readSpotPages parseFloat p (result :: more) = .ok q) :
    ∃ q1, readSpotPriceHistory parseFloat p result.SpotPriceHistory = .ok q1 ∧
      readSpotPages parseFloat q1 more = .ok q := by
  unfold readSpotPages at h
  rw [List.foldlM_cons] at h
  cases h1 : readSpotPriceHistory parseFloat p result.SpotPriceHistory with
  | error e => rw [h1] at h; cases h
  | ok q1 => rw [h1] at h; exact ⟨q1, rfl, h⟩

/-- The loop reads its `input` only to set the token of the next request. -/
theorem spotLoop_input (parseFloat : String → Except String F) (region : String)
    (input : DescribeSpotPriceHistoryInput) (tok : Option String)
    (p : List (AvailabilityZone × List F)) (result : DescribeSpotPriceHistoryOutput)
    (svc : List DescribeSpotPriceHistoryResponse) (calls : List DescribeSpotPriceHistoryInput) :
    spotLoop parseFloat region { input with NextToken := tok } p result svc calls
      = spotLoop parseFloat region input p result svc calls := by
  unfold spotLoop
  rfl

/-- The loop on a page without token: it reads the page and returns. -/
theorem spotLoop_last (parseFloat : String → Except String F) (region : String)
    (input : DescribeSpotPriceHistoryInput) (p : List (AvailabilityZone × List F))
    (result : DescribeSpotPriceHistoryOutput) (svc : List DescribeSpotPriceHistoryResponse)
    (calls : List DescribeSpotPriceHistoryInput)
    (htok : noNextToken result.NextToken = true) :
    spotLoop parseFloat region input p result svc calls =
      match readSpotPriceHistory parseFloat p result.SpotPriceHistory with
      | .error e => some (.error e, calls)
      | .ok q => some (.ok q, calls) := by
  rw [spotLoop]
  cases readSpotPriceHistory parseFloat p result.SpotPriceHistory with
  | error e => rfl
  | ok q => simp [htok]

/-- The loop on a page that is read with an error: it returns the error. -/
theorem spotLoop_read_error (parseFloat : String → Except String F) (region : String)
    (input : DescribeSpotPriceHistoryInput) (p : List (AvailabilityZone × List F))
    (result : DescribeSpotPriceHistoryOutput) (svc : List DescribeSpotPriceHistoryResponse)
    (calls : List DescribeSpotPriceHistoryInput) (e : String)
    (hread : readSpotPriceHistory parseFloat p result.SpotPriceHistory = .error e) :
    spotLoop parseFloat region input p result svc calls = some (.error e, calls) := by
  rw [spotLoop, hread]

/-- The loop on a page that carries a token and is read without error: it sends the next
request and looks at the answer. -/
theorem spotLoop_step (parseFloat : String → Except String F) (region : String)
    (input : DescribeSpotPriceHistoryInput) (p q : List (AvailabilityZone × List F))
    (result : DescribeSpotPriceHistoryOutput) (resp : DescribeSpotPriceHistoryResponse)
    (rest : List DescribeSpotPriceHistoryResponse) (calls : List DescribeSpotPriceHistoryInput)
    (hread : readSpotPriceHistory parseFloat p result.SpotPriceHistory = .ok q)
    (htok : noNextToken result.NextToken = false) :
    spotLoop parseFloat region input p result (resp :: rest) calls =
      match resp.err.bind (spotNextCallError region) with
      | some e => some (.error e, calls ++ [{ input with NextToken := result.NextToken }])
      | none => spotLoop parseFloat region input q resp.result rest
          (calls ++ [{ input with NextToken := result.NextToken }]) := by
  rw [spotLoop, hread]
  simp only [htok, Bool.false_eq_true, if_false]
  cases resp.err.bind (spotNextCallError region) with
  | some e => rfl
  | none => exact spotLoop_input parseFloat region input _ q resp.result rest _

/-- The loop on answers that are tolerated, carry a token and are read without error: it
sends one request for each of them and comes to the answer that follows. -/
theorem spotLoop_advance (parseFloat : String → Except String F) (region : String)
    (input : DescribeSpotPriceHistoryInput) (resp : DescribeSpotPriceHistoryResponse)
    (rest : List DescribeSpotPriceHistoryResponse) (q : List (AvailabilityZone × List F))
    (more : List DescribeSpotPriceHistoryResponse) :
    ∀ (result : DescribeSpotPriceHistoryOutput) (p : List (AvailabilityZone × List F))
      (calls : List DescribeSpotPriceHistoryInput),
      (∀ r ∈ more, spotTolerated r = true) →
      (∀ pg ∈ result :: more.map (fun r => r.result), noNextToken pg.NextToken = false) →
      readSpotPages parseFloat p (result :: more.map (fun r => r.result)) = .ok q →
      spotLoop parseFloat region input p result (more ++ resp :: rest) calls =
        match resp.err.bind (spotNextCallError region) with
        | some e => some (.error e,
            calls ++ (result :: more.map (fun r => r.result)).map
              (fun pg => { input with NextToken := pg.NextToken }))
        | none => spotLoop parseFloat region input q resp.result rest
            (calls ++ (result :: more.map (fun r => r.result)).map
              (fun pg => { input with NextToken := pg.NextToken })) := by
  induction more with
  | nil =>
    intro result p calls _ htok hread
    obtain ⟨q1, h1, h2⟩ := readSpotPages_cons parseFloat p q result [] hread
    have hq : q1 = q := by
      simp only [readSpotPages, List.foldlM_nil, pure, Except.pure, Except.ok.injEq] at h2
      exact h2
    subst hq
    have ht := htok result (List.mem_cons_self _ _)
    rw [List.nil_append, spotLoop_step parseFloat region input p q1 result resp rest calls h1 ht]
    rfl
  | cons next more ih =>
    intro result p calls htol htok hread
    obtain ⟨q1, h1, h2⟩ := readSpotPages_cons parseFloat p q result _ hread
    have ht := htok result (List.mem_cons_self _ _)
    rw [List.cons_append,
      spotLoop_step parseFloat region input p q1 result next _ calls h1 ht,
      spotNextCallError_of_tolerated region next (htol next (List.mem_cons_self _ _))]
    simp only
    rw [ih next.result q1 _ (fun r hr => htol r (List.mem_cons_of_mem _ hr))
      (fun pg hpg => htok pg (List.mem_cons_of_mem _ hpg)) h2]
    simp only [List.map_cons, List.append_assoc, List.singleton_append]

/-- The loop on a page sequence of tolerated answers that is read without error: it
returns the map read and has sent one request for each page but the last. -/
theorem spotLoop_ok (parseFloat : String → Except String F) (region : String)
    (input : DescribeSpotPriceHistoryInput) (extra : List DescribeSpotPriceHistoryResponse)
    (m : List (AvailabilityZone × List F)) (rest : List DescribeSpotPriceHistoryResponse) :
    ∀ (result : DescribeSpotPriceHistoryOutput) (p : List (AvailabilityZone × List F))
      (calls : List DescribeSpotPriceHistoryInput),
      (∀ r ∈ rest, spotTolerated r = true) →
      isPageSequence ((result :: rest.map (fun r => r.result)).map (fun pg => pg.NextToken))
        = true →
      readSpotPages parseFloat p (result :: rest.map (fun r => r.result)) = .ok m →
      spotLoop parseFloat region input p result (rest ++ extra) calls =
        some (.ok m, calls ++ (result :: rest.map (fun r => r.result)).dropLast.map
          (fun pg => { input with NextToken := pg.NextToken })) := by
  induction rest with
  | nil =>
    intro result p calls _ hseq hread
    have hend : noNextToken result.NextToken = true := by simpa [isPageSequence] using hseq
    obtain ⟨q1, h1, h2⟩ := readSpotPages_cons parseFloat p m result [] hread
    have hq : q1 = m := by
      simp only [readSpotPages, List.foldlM_nil, pure, Except.pure, Except.ok.injEq] at h2
      exact h2
    subst hq
    rw [spotLoop_last parseFloat region input p result _ calls hend, h1]
    simp
  | cons next rest ih =>
    intro result p calls htol hseq hread
    have hseq' : noNextToken result.NextToken = false ∧
        isPageSequence ((next.result :: rest.map (fun r => r.result)).map
          (fun pg => pg.NextToken)) = true := by
      simpa [isPageSequence] using hseq
    obtain ⟨q1, h1, h2⟩ := readSpotPages_cons parseFloat p m result _ hread
    rw [List.cons_append,
      spotLoop_step parseFloat region input p q1 result next _ calls h1 hseq'.1,
      spotNextCallError_of_tolerated region next (htol next (List.mem_cons_self _ _))]
    simp only
    rw [ih next.result q1 _ (fun r hr => htol r (List.mem_cons_of_mem _ hr)) hseq'.2 h2]
    simp [List.dropLast_cons₂]

/-- The loop on a page sequence returns, and when it returns a map it has sent one request
for each page but the last. -/
theorem spotLoop_terminates (parseFloat : String → Except String F) (region : String)
    (input : DescribeSpotPriceHistoryInput) (extra : List DescribeSpotPriceHistoryResponse)
    (rest : List DescribeSpotPriceHistoryOutput) :
    ∀ (result : DescribeSpotPriceHistoryOutput) (p : List (AvailabilityZone × List F))
      (calls : List DescribeSpotPriceHistoryInput),
      isPageSequence ((result :: rest).map (fun pg => pg.NextToken)) = true →
      ∃ res calls', spotLoop parseFloat region input p result (spotScript rest extra) calls
          = some (res, calls') ∧
        (∀ q, res = .ok q → calls' = calls ++ (result :: rest).dropLast.map
          (fun pg => { input with NextToken := pg.NextToken })) := by
  induction rest with
  | nil =>
    intro result p calls hseq
    have hend : noNextToken result.NextToken = true := by simpa [isPageSequence] using hseq
    rw [spotLoop_last parseFloat region input p result _ calls hend]
    cases readSpotPriceHistory parseFloat p result.SpotPriceHistory with
    | error e => exact ⟨_, _, rfl, fun q hq => by cases hq⟩
    | ok q => exact ⟨_, _, rfl, fun _ _ => by simp⟩
  | cons next rest ih =>
    intro result p calls hseq
    have hseq' : noNextToken result.NextToken = false ∧
        isPageSequence ((next :: rest).map (fun pg => pg.NextToken)) = true := by
      simpa [isPageSequence] using hseq
    cases hread : readSpotPriceHistory parseFloat p result.SpotPriceHistory with
    | error e =>
      rw [spotLoop_read_error parseFloat region input p result _ calls e hread]
      exact ⟨_, _, rfl, fun q hq => by cases hq⟩
    | ok q1 =>
      have hscript : spotScript (next :: rest) extra
          = ⟨next, none⟩ :: spotScript rest extra := rfl
      rw [hscript, spotLoop_step parseFloat region input p q1 result _ _ calls hread hseq'.1]
      simp only [Option.bind]
      obtain ⟨res, calls', h1, h2⟩ := ih next q1
        (calls ++ [{ input with NextToken := result.NextToken }]) hseq'.2
      refine ⟨res, calls', h1, ?_⟩
      intro q hq
      rw [h2 q hq, List.dropLast_cons₂]
      simp

end PaginationLemmas

/-! ## Lemmas on the reading of pages -/

section ReadingLemmas

variable {F : Type}

/-- A fold over a concatenation of lists is the fold of the folds. -/
theorem foldlM_flatMap {α β γ : Type} (f : γ → β → Except String γ) (g : α → List β)
    (l : List α) (p : γ) :
    (l.flatMap g).foldlM f p = l.foldlM (fun p a => (g a).foldlM f p) p := by
  induction l generalizing p with
  | nil => rfl
  | cons a l ih =>
    rw [List.flatMap_cons, List.foldlM_append, List.foldlM_cons]
    cases (g a).foldlM f p with
    | error e => rfl
    | ok q => exact ih q

theorem mapSet_map_lookup {V : Type} (m : List (AvailabilityZone × V)) (k z : AvailabilityZone)
    (v : V) :
    (m.map (fun kv => if kv.1 == k then (k, v) else kv)).lookup z =
      if z = k then (if m.any (fun kv => kv.1 == k) = true then some v else none)
      else m.lookup z := by
  induction m with
  | nil => simp
  | cons a m ih =>
    obtain ⟨a1, a2⟩ := a
    by_cases ha : a1 = k
    · subst ha
      by_cases hz : z = a1
      · subst hz
        simp [List.lookup_cons]
      · have hz' : (z == a1) = false := by simpa using hz
        simp only [List.map_cons, beq_self_eq_true, if_true, List.lookup_cons, hz', ih, hz,
          if_false]
    · have ha' : (a1 == k) = false := by simpa using ha
      by_cases hz : z = a1
      · subst hz
        simp [List.lookup_cons, ha, ha']
      · have hz' : (z == a1) = false := by simpa using hz
        simp only [List.map_cons, ha', Bool.false_eq_true, if_false, List.lookup_cons, hz', ih,
          List.any_cons, Bool.false_or]

theorem lookup_append_singleton {V : Type} (m : List (AvailabilityZone × V))
    (k z : AvailabilityZone) (v : V) (h : m.any (fun kv => kv.1 == k) = false) :
    (m ++ [(k, v)]).lookup z = if z = k then some v else m.lookup z := by
  induction m with
  | nil =>
    by_cases hz : z = k
    · subst hz; simp [List.lookup_cons]
    · have hz' : (z == k) = false := by simpa using hz
      simp [List.lookup_cons, hz', hz]
  | cons a m ih =>
    obtain ⟨a1, a2⟩ := a
    simp only [List.any_cons, Bool.or_eq_false_iff, beq_eq_false_iff_ne, ne_eq] at h
    simp only [List.cons_append, List.lookup_cons]
    by_cases hz : z = a1
    · subst hz; simp [h.1]
    · have hz' : (z == a1) = false := by simpa using hz
      simp only [hz']
      exact ih h.2

/-- The map after `m[k] = v`: `v` under `k`, and what was there under another key. -/
theorem mapSet_lookup {V : Type} (m : List (AvailabilityZone × V)) (k z : AvailabilityZone)
    (v : V) :
    (mapSet m k v).lookup z = if z = k then some v else m.lookup z := by
  unfold mapSet
  by_cases hany : m.any (fun kv => kv.1 == k) = true
  · rw [if_pos hany, mapSet_map_lookup, if_pos hany]
  · have hany' : m.any (fun kv => kv.1 == k) = false := Bool.eq_false_iff.mpr hany
    rw [if_neg hany, lookup_append_singleton m k z v hany']

/-- The assignment `m[k] = v` keeps the keys of the map pairwise distinct. -/
theorem mapSet_nodup {V : Type} (m : List (AvailabilityZone × V)) (k : AvailabilityZone)
    (v : V) (h : (m.map Prod.fst).Nodup) : ((mapSet m k v).map Prod.fst).Nodup := by
  unfold mapSet
  by_cases hany : m.any (fun kv => kv.1 == k) = true
  · rw [if_pos hany]
    have : (m.map (fun kv => if kv.1 == k then (k, v) else kv)).map Prod.fst
        = m.map Prod.fst := by
      rw [List.map_map]
      apply List.map_congr_left
      intro kv _
      by_cases hk : kv.1 = k
      · simp [hk]
      · simp [hk]
    rw [this]
    exact h
  · rw [if_neg hany, List.map_append]
    refine List.Nodup.append h (List.nodup_singleton _) ?_
    intro a ha ha'
    simp only [List.map_cons, List.map_nil, List.mem_singleton] at ha'
    subst ha'
    obtain ⟨kv, hkv, hk⟩ := List.mem_map.mp ha
    exact hany (List.any_eq_true.mpr ⟨kv, hkv, by simp [hk]⟩)

/-- The body of the spot loop on a record whose price parses. -/
theorem readSpotPrice_ok (parseFloat : String → Except String F)
    (p : List (AvailabilityZone × List F)) (price : Ec2SpotPrice) (x : F)
    (h : parseFloat price.SpotPrice = .ok x) :
    readSpotPrice parseFloat p price =
      .ok (mapSet p price.AvailabilityZone
        ((p.lookup price.AvailabilityZone).getD [] ++ [x])) := by
  unfold readSpotPrice
  rw [h]
  cases p.lookup price.AvailabilityZone with
  | none => rfl
  | some l => rfl

/-- The reading of a list of records whose prices all parse: under each zone the map
holds what it held, followed by the parsed prices of the records of the zone. -/
theorem readSpotPriceHistory_ok (parseFloat : String → Except String F)
    (records : List Ec2SpotPrice) :
    ∀ p : List (AvailabilityZone × List F),
      (∀ price ∈ records, spotParseable parseFloat price = true) →
      ∃ m, readSpotPriceHistory parseFloat p records = .ok m ∧
        ((p.map Prod.fst).Nodup → (m.map Prod.fst).Nodup) ∧
        ∀ z : AvailabilityZone, m.lookup z =
          if zoneRecords records z = [] then p.lookup z
          else some ((p.lookup z).getD [] ++
            parsedSpotPrices parseFloat (zoneRecords records z)) := by
  induction records with
  | nil =>
    intro p _
    exact ⟨p, rfl, id, fun z => by simp [zoneRecords]⟩
  | cons price records ih =>
    intro p hall
    have hp := hall price (List.mem_cons_self _ _)
    unfold spotParseable at hp
    cases hx : parseFloat price.SpotPrice with
    | error e => simp [hx] at hp
    | ok x =>
      obtain ⟨m, hm, hnodup, hlook⟩ := ih
        (mapSet p price.AvailabilityZone ((p.lookup price.AvailabilityZone).getD [] ++ [x]))
        (fun q hq => hall q (List.mem_cons_of_mem _ hq))
      refine ⟨m, ?_, fun h => hnodup (mapSet_nodup p _ _ h), ?_⟩
      · unfold readSpotPriceHistory at hm ⊢
        rw [List.foldlM_cons, readSpotPrice_ok parseFloat p price x hx]
        exact hm
      · intro z
        rw [hlook z, mapSet_lookup]
        by_cases hz : z = price.AvailabilityZone
        · subst hz
          have hzr : zoneRecords (price :: records) price.AvailabilityZone
              = price :: zoneRecords records price.AvailabilityZone := by
            simp [zoneRecords, List.filter_cons]
          rw [hzr, if_pos rfl]
          by_cases hnil : zoneRecords records price.AvailabilityZone = []
          · simp [hnil, parsedSpotPrices, hx]
          · simp [hnil, parsedSpotPrices, hx]
        · have hz' : (price.AvailabilityZone == z) = false := by
            simpa using fun h => hz h.symm
          have hzr : zoneRecords (price :: records) z = zoneRecords records z := by
            simp [zoneRecords, List.filter_cons, hz']
          rw [hzr, if_neg hz]

theorem readSpotPages_eq (parseFloat : String → Except String F)
    (p : List (AvailabilityZone × List F)) (pages : List DescribeSpotPriceHistoryOutput) :
    readSpotPages parseFloat p pages = readSpotPriceHistory parseFloat p (spotRecords pages) := by
  unfold readSpotPages readSpotPriceHistory spotRecords
  rw [foldlM_flatMap]

theorem allSpotParseable_iff (parseFloat : String → Except String F)
    (pages : List DescribeSpotPriceHistoryOutput) :
    allSpotParseable parseFloat pages = true ↔
      ∀ price ∈ spotRecords pages, spotParseable parseFloat price = true := by
  simp only [allSpotParseable, spotRecords, List.all_eq_true, List.mem_flatMap]
  constructor
  · rintro h price ⟨pg, hpg, hprice⟩
    exact h pg hpg price hprice
  · intro h pg hpg price hprice
    exact h price ⟨pg, hpg, hprice⟩

end ReadingLemmas

/-! ## The fetchers: results, pagination and failures -/

section FetchClaims

variable {F : Type}

/-- A spot fetch on a miss from answers that are tolerated, form a page sequence and are
read without error. -/
theorem GetPricesSpot_fetch (parseFloat : String → Except String F) (c : priceCacheItems F)
    (L : Duration) (now endTime nowW : Time) (r it : String)
    (first : DescribeSpotPriceHistoryResponse) (rest extra : List DescribeSpotPriceHistoryResponse)
    (m : List (AvailabilityZone × List F))
    (hmiss : checkCacheSpot c L now it r "" = none)
    (htol : ∀ resp ∈ first :: rest, spotTolerated resp = true)
    (hseq : isPageSequence ((first.result :: rest.map (fun resp => resp.result)).map
      (fun pg => pg.NextToken)) = true)
    (hread : readSpotPages parseFloat [] (first.result :: rest.map (fun resp => resp.result))
      = .ok m) :
    GetPricesSpot parseFloat c L now endTime nowW r it (first :: rest ++ extra) =
      some { p := some m
             err := none
             cache := writeCache c nowW it r "" none (some (some m))
             calls := spotInput it endTime ::
               (first.result :: rest.map (fun resp => resp.result)).dropLast.map
                 (fun pg => { spotInput it endTime with NextToken := pg.NextToken }) } := by
  unfold GetPricesSpot
  rw [hmiss]
  simp only [List.cons_append]
  rw [spotFirstCallError_of_tolerated r first (htol first (List.mem_cons_self _ _))]
  simp only
  rw [spotLoop_ok parseFloat r (spotInput it endTime) extra m rest first.result []
    [spotInput it endTime] (fun resp h => htol resp (List.mem_cons_of_mem _ h)) hseq hread]
  simp

/-- C11. For every provider page sequence of spot history records whose prices parse,
`GetPricesSpot` on a cache miss returns a map, with one binding for a zone at most, in
which the list under a zone is the parsed prices of the records of that zone, in the
order in which they appear across the pages, and a zone without record is absent; the
map is written to the cache under the empty tenancy. -/
theorem GetPricesSpot_miss_groups_by_zone (parseFloat : String → Except String F)
    (c : priceCacheItems F) (L : Duration) (now endTime nowW : Time) (r it : String)
    (pages : List DescribeSpotPriceHistoryOutput) (extra : List DescribeSpotPriceHistoryResponse)
    (hmiss : checkCacheSpot c L now it r "" = none)
    (hseq : isPageSequence (pages.map (fun pg => pg.NextToken)) = true)
    (hok : allSpotParseable parseFloat pages = true) :
    ∃ m calls, GetPricesSpot parseFloat c L now endTime nowW r it (spotScript pages extra)
        = some { p := some m, err := none,
                 cache := writeCache c nowW it r "" none (some (some m)), calls := calls } ∧
      (m.map Prod.fst).Nodup ∧
      ∀ z : AvailabilityZone, m.lookup z =
        if zoneRecords (spotRecords pages) z = [] then none
        else some (parsedSpotPrices parseFloat (zoneRecords (spotRecords pages) z)) := by
  obtain ⟨m, hm, hnodup, hlook⟩ := readSpotPriceHistory_ok parseFloat (spotRecords pages) []
    ((allSpotParseable_iff parseFloat pages).mp hok)
  cases pages with
  | nil => simp [isPageSequence] at hseq
  | cons first rest =>
    have hres : (rest.map (fun pg => (⟨pg, none⟩ : DescribeSpotPriceHistoryResponse))).map
        (fun resp => resp.result) = rest := by
      rw [List.map_map]
      exact List.map_id _
    have hfetch := GetPricesSpot_fetch parseFloat c L now endTime nowW r it ⟨first, none⟩
      (rest.map (fun pg => ⟨pg, none⟩)) extra m hmiss
      (by
        intro resp hresp
        rcases List.mem_cons.mp hresp with h | h
        · rw [h]; rfl
        · obtain ⟨pg, _, rfl⟩ := List.mem_map.mp h
          rfl)
      (by rw [hres]; exact hseq)
      (by rw [hres, readSpotPages_eq]; exact hm)
    refine ⟨m, _, hfetch, hnodup (by simp), ?_⟩
    intro z
    rw [hlook z]
    simp

/-- Witness of C11: the scenario of the specification, two records in zone "us-east-1a"
and one in zone "us-east-1b" on one page. -/
theorem GetPricesSpot_miss_groups_by_zone_witness :
    GetPricesSpot exampleParseFloat (cache Nat) Hour 0 0 1 "us-east-1" "m5.large"
        (spotScript [exampleSpotPage] [])
      = some { p := some [("us-east-1a", [30, 31]), ("us-east-1b", [29])], err := none,
               cache := writeCache (cache Nat) 1 "m5.large" "us-east-1" "" none
                 (some (some [("us-east-1a", [30, 31]), ("us-east-1b", [29])])),
               calls := [spotInput "m5.large" 0] } ∧
    ∃ m calls, GetPricesSpot exampleParseFloat (cache Nat) Hour 0 0 1 "us-east-1" "m5.large"
        (spotScript [exampleSpotPage] [])
        = some { p := some m, err := none,
                 cache := writeCache (cache Nat) 1 "m5.large" "us-east-1" "" none
                   (some (some m)), calls := calls } ∧
      (m.map Prod.fst).Nodup ∧
      ∀ z : AvailabilityZone, m.lookup z =
        if zoneRecords (spotRecords [exampleSpotPage]) z = [] then none
        else some (parsedSpotPrices exampleParseFloat
          (zoneRecords (spotRecords [exampleSpotPage]) z)) :=
  ⟨by decide,
    GetPricesSpot_miss_groups_by_zone exampleParseFloat (cache Nat) Hour 0 0 1 "us-east-1"
      "m5.large" [exampleSpotPage] [] (by decide) (by decide) (by decide)⟩

/-- An on-demand run on a miss from a page sequence returns, and when it returns prices it
has sent one request for each page. -/
theorem GetPricesOnDemand_terminates (ro : RangeOrder) (parseFloat : String → Except String F)
    (c : priceCacheItems F) (L : Duration) (now nowW : Time) (it r : String)
    (ten : OptionTenancy) (pages : List GetProductsOutput) (extra : List GetProductsResponse)
    (hmiss : checkCacheOnDemand c L now it r ten = none)
    (hseq : isPageSequence (pages.map (fun pg => pg.NextToken)) = true) :
    ∃ run, GetPricesOnDemand ro parseFloat c L now nowW it r ten (productsScript pages extra)
        = some run ∧
      (run.err = none → run.calls = onDemandInput it r ten :: pages.dropLast.map
        (fun pg => { onDemandInput it r ten with NextToken := pg.NextToken })) := by
  cases pages with
  | nil => simp [isPageSequence] at hseq
  | cons first rest =>
    obtain ⟨res, calls', h, hc⟩ := onDemandLoop_terminates ro parseFloat
      (onDemandInput it r ten) extra rest 0 first [] [onDemandInput it r ten] hseq
    have hscript : productsScript (first :: rest) extra
        = ⟨first, none⟩ :: productsScript rest extra := rfl
    unfold GetPricesOnDemand
    rw [hmiss, hscript]
    simp only
    rw [h]
    cases res with
    | error e => exact ⟨_, rfl, fun hn => by cases hn⟩
    | ok q => exact ⟨_, rfl, fun _ => by simpa using hc q rfl⟩

/-- A spot run on a miss from a page sequence returns, and when it returns a map it has
sent one request for each page. -/
theorem GetPricesSpot_terminates (parseFloat : String → Except String F)
    (c : priceCacheItems F) (L : Duration) (now endTime nowW : Time) (r it : String)
    (pages : List DescribeSpotPriceHistoryOutput) (extra : List DescribeSpotPriceHistoryResponse)
    (hmiss : checkCacheSpot c L now it r "" = none)
    (hseq : isPageSequence (pages.map (fun pg => pg.NextToken)) = true) :
    ∃ run, GetPricesSpot parseFloat c L now endTime nowW r it (spotScript pages extra)
        = some run ∧
      (run.err = none → run.calls = spotInput it endTime :: pages.dropLast.map
        (fun pg => { spotInput it endTime with NextToken := pg.NextToken })) := by
  cases pages with
  | nil => simp [isPageSequence] at hseq
  | cons first rest =>
    obtain ⟨res, calls', h, hc⟩ := spotLoop_terminates parseFloat r
      (spotInput it endTime) extra rest first [] [spotInput it endTime] hseq
    have hscript : spotScript (first :: rest) extra
        = ⟨first, none⟩ :: spotScript rest extra := rfl
    unfold GetPricesSpot
    rw [hmiss, hscript]
    simp only [Option.bind]
    rw [h]
    cases res with
    | error e => exact ⟨_, rfl, fun hn => by cases hn⟩
    | ok q => exact ⟨_, rfl, fun _ => by simpa using hc q rfl⟩

/-- C12. For a provider that answers with pages carrying non-empty continuation tokens
followed by one page carrying no token or an empty one, a fetch on a cache miss returns,
for `GetPricesOnDemand` and, separately, for `GetPricesSpot`; when it succeeds it has sent
one request for each page, as many as the pages with a token plus one: the first without
token and each later one with the token of the page before; it sends none after the page
without token, whatever answers the provider has left. -/
theorem fetch_sends_one_request_per_page (parseFloat : String → Except String F)
    (c : priceCacheItems F) (L : Duration) (now nowW : Time) (it r : String) :
    (∀ (ro : RangeOrder) (ten : OptionTenancy) (pre : List GetProductsOutput)
      (last : GetProductsOutput) (extra : List GetProductsResponse),
      checkCacheOnDemand c L now it r ten = none →
      (∀ pg ∈ pre, noNextToken pg.NextToken = false) →
      noNextToken last.NextToken = true →
      ∃ run, GetPricesOnDemand ro parseFloat c L now nowW it r ten
          (productsScript (pre ++ [last]) extra) = some run ∧
        (run.err = none →
          run.calls = onDemandInput it r ten :: pre.map
            (fun pg => { onDemandInput it r ten with NextToken := pg.NextToken }) ∧
          run.calls.length = pre.length + 1)) ∧
    (∀ (endTime : Time) (spre : List DescribeSpotPriceHistoryOutput)
      (slast : DescribeSpotPriceHistoryOutput)
      (sextra : List DescribeSpotPriceHistoryResponse),
      checkCacheSpot c L now it r "" = none →
      (∀ pg ∈ spre, noNextToken pg.NextToken = false) →
      noNextToken slast.NextToken = true →
      ∃ run, GetPricesSpot parseFloat c L now endTime nowW r it
          (spotScript (spre ++ [slast]) sextra) = some run ∧
        (run.err = none →
          run.calls = spotInput it endTime :: spre.map
            (fun pg => { spotInput it endTime with NextToken := pg.NextToken }) ∧
          run.calls.length = spre.length + 1)) := by
  constructor
  · intro ro ten pre last extra hmiss hpre hlast
    have hseq : isPageSequence ((pre ++ [last]).map (fun pg => pg.NextToken)) = true := by
      rw [List.map_append, List.map_cons, List.map_nil, isPageSequence_append_singleton]
      refine ⟨?_, hlast⟩
      intro tok htok
      obtain ⟨pg, hpg, rfl⟩ := List.mem_map.mp htok
      exact hpre pg hpg
    obtain ⟨run, hrun, hcalls⟩ := GetPricesOnDemand_terminates ro parseFloat c L now nowW it r
      ten (pre ++ [last]) extra hmiss hseq
    refine ⟨run, hrun, fun herr => ?_⟩
    have := hcalls herr
    rw [List.dropLast_concat] at this
    exact ⟨this, by rw [this]; simp⟩
  · intro endTime spre slast sextra hsmiss hspre hslast
    have hseq : isPageSequence ((spre ++ [slast]).map (fun pg => pg.NextToken)) = true := by
      rw [List.map_append, List.map_cons, List.map_nil, isPageSequence_append_singleton]
      refine ⟨?_, hslast⟩
      intro tok htok
      obtain ⟨pg, hpg, rfl⟩ := List.mem_map.mp htok
      exact hspre pg hpg
    obtain ⟨run, hrun, hcalls⟩ := GetPricesSpot_terminates parseFloat c L now endTime nowW r it
      (spre ++ [slast]) sextra hsmiss hseq
    refine ⟨run, hrun, fun herr => ?_⟩
    have := hcalls herr
    rw [List.dropLast_concat] at this
    exact ⟨this, by rw [this]; simp⟩

/-- Witness of C12: two pages for each fetcher, the first with the token "page-2", and a
further answer that the provider is never asked for; both fetches succeed with two
requests, the second carrying "page-2". -/
theorem fetch_sends_one_request_per_page_witness :
    (GetPricesOnDemand RangeOrder.document exampleParseFloat (cache Nat) Hour 0 1
        "m5.large" "us-east-1" "Shared"
        (productsScript ([firstPage] ++ [examplePage]) [⟨emptyPage, none⟩])).map
      (fun run => (run.p, run.err, run.calls))
      = some (some [30, 96, 96], none,
          [onDemandInput "m5.large" "us-east-1" "Shared",
            { onDemandInput "m5.large" "us-east-1" "Shared" with NextToken := some "page-2" }]) ∧
    (GetPricesSpot exampleParseFloat (cache Nat) Hour 0 0 1 "us-east-1" "m5.large"
        (spotScript ([firstSpotPage] ++ [lastSpotPage]) [⟨emptySpotPage, none⟩])).map
      (fun run => (run.p, run.err, run.calls))
      = some (some [("us-east-1a", [30, 31]), ("us-east-1b", [29])], none,
          [spotInput "m5.large" 0,
            { spotInput "m5.large" 0 with NextToken := some "page-2" }]) ∧
    (∃ run, GetPricesOnDemand RangeOrder.document exampleParseFloat (cache Nat) Hour 0 1
        "m5.large" "us-east-1" "Shared"
        (productsScript ([firstPage] ++ [examplePage]) [⟨emptyPage, none⟩]) = some run ∧
      (run.err = none →
        run.calls = onDemandInput "m5.large" "us-east-1" "Shared" :: [firstPage].map
          (fun pg => { onDemandInput "m5.large" "us-east-1" "Shared" with
            NextToken := pg.NextToken }) ∧
        run.calls.length = [firstPage].length + 1)) ∧
    (∃ run, GetPricesSpot exampleParseFloat (cache Nat) Hour 0 0 1 "us-east-1" "m5.large"
        (spotScript ([firstSpotPage] ++ [lastSpotPage]) [⟨emptySpotPage, none⟩]) = some run ∧
      (run.err = none →
        run.calls = spotInput "m5.large" 0 :: [firstSpotPage].map
          (fun pg => { spotInput "m5.large" 0 with NextToken := pg.NextToken }) ∧
        run.calls.length = [firstSpotPage].length + 1)) :=
  ⟨by decide, by decide,
    (fetch_sends_one_request_per_page exampleParseFloat (cache Nat) Hour 0 1 "m5.large"
      "us-east-1").1 RangeOrder.document "Shared" [firstPage] examplePage [⟨emptyPage, none⟩]
      (by decide) (by decide) (by decide),
    (fetch_sends_one_request_per_page exampleParseFloat (cache Nat) Hour 0 1 "m5.large"
      "us-east-1").2 0 [firstSpotPage] lastSpotPage [⟨emptySpotPage, none⟩]
      (by decide) (by decide) (by decide)⟩

/-- An on-demand run whose call after the pages `pre` fails: the error is returned after
that call, and the cache is left as it was. -/
theorem GetPricesOnDemand_call_fails (ro : RangeOrder) (parseFloat : String → Except String F)
    (c : priceCacheItems F) (L : Duration) (now nowW : Time) (it r : String)
    (ten : OptionTenancy) (pre : List GetProductsOutput) (q : List F)
    (result : GetProductsOutput) (err : SdkError) (extra : List GetProductsResponse)
    (hmiss : checkCacheOnDemand c L now it r ten = none)
    (hpre : ∀ pg ∈ pre, noNextToken pg.NextToken = false)
    (hread : readPages ro parseFloat [] pre = .ok q) :
    GetPricesOnDemand ro parseFloat c L now nowW it r ten
        (productsScript pre (⟨result, some err⟩ :: extra))
      = some { p := none, err := some (onDemandFirstCallError err), cache := c,
               calls := onDemandInput it r ten :: pre.map
                 (fun pg => { onDemandInput it r ten with NextToken := pg.NextToken }) } := by
  cases pre with
  | nil =>
    exact GetPricesOnDemand_first_call_fails ro parseFloat c L now nowW it r ten result err
      extra hmiss
  | cons first more =>
    have hadv := onDemandLoop_advance ro parseFloat (onDemandInput it r ten)
      ⟨result, some err⟩ extra q more 0 first [] [onDemandInput it r ten] hpre hread
    simp only at hadv
    unfold GetPricesOnDemand
    rw [hmiss]
    simp only [productsScript, List.map_cons, List.cons_append]
    rw [hadv, onDemandNextCallError_eq]
    simp

/-- A spot run whose call after the answers `pre` fails with an error that is not an
authorization failure: the error is returned after that call, and the cache is left as it
was. -/
theorem GetPricesSpot_call_fails (parseFloat : String → Except String F)
    (c : priceCacheItems F) (L : Duration) (now endTime nowW : Time) (r it : String)
    (pre : List DescribeSpotPriceHistoryResponse) (q : List (AvailabilityZone × List F))
    (result : DescribeSpotPriceHistoryOutput) (err : SdkError)
    (extra : List DescribeSpotPriceHistoryResponse)
    (hmiss : checkCacheSpot c L now it r "" = none)
    (htol : ∀ resp ∈ pre, spotTolerated resp = true)
    (hpre : ∀ resp ∈ pre, noNextToken resp.result.NextToken = false)
    (hread : readSpotPages parseFloat [] (pre.map (fun resp => resp.result)) = .ok q)
    (herr : isAuthFailure err = false) :
    GetPricesSpot parseFloat c L now endTime nowW r it (pre ++ ⟨result, some err⟩ :: extra)
      = some { p := none
               err := some (match err with
                 | .awserr _ text => "error 1: region: " ++ r ++ ", " ++ text
                 | .other text => "error 2: region: " ++ r ++ ", " ++ text)
               cache := c
               calls := spotInput it endTime :: pre.map
                 (fun resp => { spotInput it endTime with NextToken := resp.result.NextToken }) } := by
  have hmsg := spotFirstCallError_of_not_authFailure r err herr
  cases pre with
  | nil =>
    unfold GetPricesSpot
    rw [hmiss]
    simp only [List.nil_append, Option.bind, hmsg, List.map_nil]
  | cons first more =>
    have hadv := spotLoop_advance parseFloat r (spotInput it endTime)
      ⟨result, some err⟩ extra q more first.result [] [spotInput it endTime]
      (fun resp h => htol resp (List.mem_cons_of_mem _ h))
      (by
        intro pg hpg
        rcases List.mem_cons.mp hpg with h | h
        · rw [h]; exact hpre first (List.mem_cons_self _ _)
        · obtain ⟨resp, hresp, rfl⟩ := List.mem_map.mp h
          exact hpre resp (List.mem_cons_of_mem _ hresp))
      hread
    simp only [Option.bind, spotNextCallError_eq, hmsg] at hadv
    unfold GetPricesSpot
    rw [hmiss]
    simp only [List.cons_append]
    rw [spotFirstCallError_of_tolerated r first (htol first (List.mem_cons_self _ _))]
    simp only
    rw [hadv]
    simp

/-- C13. If a provider call of a fetcher fails, on the first page or after pages that
carried a token and were read without error (for the spot fetcher: with an error that is
not an authorization failure), the fetch aborts at once: it returns the error and no
result, the failing call is the last request it sends, and the cache is as it was before
the fetch, the prices gathered from the earlier pages being dropped.  The two fetchers are
taken separately. -/
theorem fetch_aborts_when_provider_call_fails (parseFloat : String → Except String F)
    (c : priceCacheItems F) (L : Duration) (now nowW : Time) (it r : String) :
    (∀ (ro : RangeOrder) (ten : OptionTenancy) (pre : List GetProductsOutput) (q : List F)
      (result : GetProductsOutput) (err : SdkError) (extra : List GetProductsResponse),
      checkCacheOnDemand c L now it r ten = none →
      (∀ pg ∈ pre, noNextToken pg.NextToken = false) →
      readPages ro parseFloat [] pre = .ok q →
      GetPricesOnDemand ro parseFloat c L now nowW it r ten
          (productsScript pre (⟨result, some err⟩ :: extra))
        = some { p := none, err := some (onDemandFirstCallError err), cache := c,
                 calls := onDemandInput it r ten :: pre.map
                   (fun pg => { onDemandInput it r ten with NextToken := pg.NextToken }) }) ∧
    (∀ (endTime : Time) (spre : List DescribeSpotPriceHistoryOutput)
      (sq : List (AvailabilityZone × List F)) (sresult : DescribeSpotPriceHistoryOutput)
      (serr : SdkError) (sextra : List DescribeSpotPriceHistoryResponse),
      checkCacheSpot c L now it r "" = none →
      (∀ pg ∈ spre, noNextToken pg.NextToken = false) →
      readSpotPages parseFloat [] spre = .ok sq →
      isAuthFailure serr = false →
      GetPricesSpot parseFloat c L now endTime nowW r it
          (spotScript spre (⟨sresult, some serr⟩ :: sextra))
        = some { p := none
                 err := some (match serr with
                   | .awserr _ text => "error 1: region: " ++ r ++ ", " ++ text
                   | .other text => "error 2: region: " ++ r ++ ", " ++ text)
                 cache := c
                 calls := spotInput it endTime :: spre.map
                   (fun pg => { spotInput it endTime with NextToken := pg.NextToken }) }) := by
  constructor
  · intro ro ten pre q result err extra hmiss hpre hread
    exact GetPricesOnDemand_call_fails ro parseFloat c L now nowW it r ten pre q result err
      extra hmiss hpre hread
  · intro endTime spre sq sresult serr sextra hsmiss hspre hsread hserr
    have hres : (spre.map (fun pg => (⟨pg, none⟩ : DescribeSpotPriceHistoryResponse))).map
        (fun resp => resp.result) = spre := by
      rw [List.map_map]
      exact List.map_id _
    have := GetPricesSpot_call_fails parseFloat c L now endTime nowW r it
      (spre.map (fun pg => ⟨pg, none⟩)) sq sresult serr sextra hsmiss
      (by
        intro resp hresp
        obtain ⟨pg, _, rfl⟩ := List.mem_map.mp hresp
        rfl)
      (by
        intro resp hresp
        obtain ⟨pg, hpg, rfl⟩ := List.mem_map.mp hresp
        exact hspre pg hpg)
      (by rw [hres]; exact hsread) hserr
    rw [List.map_map] at this
    cases serr with
    | awserr code text => exact this
    | other text => exact this

/-- Witness of C13: for each fetcher a first page with the token "page-2" that is read
without error, and a second call that fails with a throttling error. -/
theorem fetch_aborts_when_provider_call_fails_witness :
    GetPricesOnDemand RangeOrder.document exampleParseFloat exampleCache Hour Hour (Hour + 1)
        "m5.large" "us-east-1" "Shared"
        (productsScript [firstPage] (⟨emptyPage, some exampleThrottling⟩ :: []))
      = some { p := none
               err := some (onDemandFirstCallError exampleThrottling)
               cache := exampleCache
               calls := onDemandInput "m5.large" "us-east-1" "Shared" :: [firstPage].map
                 (fun pg => { onDemandInput "m5.large" "us-east-1" "Shared" with
                   NextToken := pg.NextToken }) } ∧
    GetPricesSpot exampleParseFloat exampleCache Hour Hour Hour (Hour + 1)
        "us-east-1" "m5.large"
        (spotScript [firstSpotPage] (⟨emptySpotPage, some exampleThrottling⟩ :: []))
      = some { p := none
               err := some (match exampleThrottling with
                 | .awserr _ text => "error 1: region: " ++ "us-east-1" ++ ", " ++ text
                 | .other text => "error 2: region: " ++ "us-east-1" ++ ", " ++ text)
               cache := exampleCache
               calls := spotInput "m5.large" Hour :: [firstSpotPage].map
                 (fun pg => { spotInput "m5.large" Hour with NextToken := pg.NextToken }) } :=
  ⟨(fetch_aborts_when_provider_call_fails exampleParseFloat exampleCache Hour Hour (Hour + 1)
      "m5.large" "us-east-1").1 RangeOrder.document "Shared" [firstPage] [30] emptyPage
      exampleThrottling [] (by decide) (by decide) rfl,
    (fetch_aborts_when_provider_call_fails exampleParseFloat exampleCache Hour Hour (Hour + 1)
      "m5.large" "us-east-1").2 Hour [firstSpotPage] [("us-east-1a", [30])] emptySpotPage
      exampleThrottling [] (by decide) (by decide) rfl (by decide)⟩

theorem eraseAuthFailure_result (resp : DescribeSpotPriceHistoryResponse) :
    (eraseAuthFailure resp).result = resp.result := by
  unfold eraseAuthFailure
  split <;> rfl

theorem eraseAuthFailure_first (region : String) (resp : DescribeSpotPriceHistoryResponse) :
    (eraseAuthFailure resp).err.bind (spotFirstCallError region)
      = resp.err.bind (spotFirstCallError region) := by
  unfold eraseAuthFailure
  by_cases h : spotTolerated resp = true
  · rw [if_pos h, spotFirstCallError_of_tolerated region resp h]
    rfl
  · rw [if_neg h]

theorem eraseAuthFailure_next (region : String) (resp : DescribeSpotPriceHistoryResponse) :
    (eraseAuthFailure resp).err.bind (spotNextCallError region)
      = resp.err.bind (spotNextCallError region) := by
  unfold eraseAuthFailure
  by_cases h : spotTolerated resp = true
  · rw [if_pos h, spotNextCallError_of_tolerated region resp h]
    rfl
  · rw [if_neg h]

/-- The loop does the same on a script and on the script without its authorization
failures. -/
theorem spotLoop_eraseAuthFailure (parseFloat : String → Except String F) (region : String)
    (input : DescribeSpotPriceHistoryInput) (svc : List DescribeSpotPriceHistoryResponse) :
    ∀ (p : List (AvailabilityZone × List F)) (result : DescribeSpotPriceHistoryOutput)
      (calls : List DescribeSpotPriceHistoryInput),
      spotLoop parseFloat region input p result (svc.map eraseAuthFailure) calls
        = spotLoop parseFloat region input p result svc calls := by
  induction svc with
  | nil => intro p result calls; rfl
  | cons resp svc ih =>
    intro p result calls
    cases hread : readSpotPriceHistory parseFloat p result.SpotPriceHistory with
    | error e =>
      rw [spotLoop_read_error parseFloat region input p result _ calls e hread,
        spotLoop_read_error parseFloat region input p result _ calls e hread]
    | ok q =>
      cases htok : noNextToken result.NextToken with
      | true =>
        rw [spotLoop_last parseFloat region input p result _ calls htok,
          spotLoop_last parseFloat region input p result _ calls htok]
      | false =>
        rw [List.map_cons,
          spotLoop_step parseFloat region input p q result _ _ calls hread htok,
          spotLoop_step parseFloat region input p q result _ _ calls hread htok,
          eraseAuthFailure_next, eraseAuthFailure_result]
        cases resp.err.bind (spotNextCallError region) with
        | some e => rfl
        | none => exact ih q resp.result _

/-- A spot run does the same on a script and on the script without its authorization
failures. -/
theorem GetPricesSpot_eraseAuthFailure (parseFloat : String → Except String F)
    (c : priceCacheItems F) (L : Duration) (now endTime nowW : Time) (r it : String)
    (svc : List DescribeSpotPriceHistoryResponse) :
    GetPricesSpot parseFloat c L now endTime nowW r it (svc.map eraseAuthFailure)
      = GetPricesSpot parseFloat c L now endTime nowW r it svc := by
  cases svc with
  | nil => rfl
  | cons resp svc =>
    unfold GetPricesSpot
    simp only [List.map_cons]
    rw [eraseAuthFailure_first, eraseAuthFailure_result, spotLoop_eraseAuthFailure]

/-- C16. A provider-reported authorization failure does not abort a spot fetch: a run of
`GetPricesSpot` does on every script what it does on the script with the authorization
failures taken away, on the first and on later calls, so it reads the result set that
came with the failure as a page; on answers that are error-free or authorization
failures, form a page sequence and have prices that parse, it returns the map gathered
with no error and writes it to the cache: while less than `CacheLifetime` has elapsed
since the write, a lookup under the instance type, the region and the empty tenancy finds
that map, and a second call returns it from the cache without a request to the provider;
every other provider error aborts the fetch with an error, on the first call and on a
later one, and so does an error that is not of the provider error type, whatever its
text. -/
theorem GetPricesSpot_tolerates_authFailure (parseFloat : String → Except String F)
    (c : priceCacheItems F) (L : Duration) (now endTime nowW : Time) (r it : String)
    (hmiss : checkCacheSpot c L now it r "" = none) :
    (∀ svc : List DescribeSpotPriceHistoryResponse,
      GetPricesSpot parseFloat c L now endTime nowW r it svc
        = GetPricesSpot parseFloat c L now endTime nowW r it (svc.map eraseAuthFailure)) ∧
    (∀ (first : DescribeSpotPriceHistoryResponse)
      (rest extra : List DescribeSpotPriceHistoryResponse),
      (∀ resp ∈ first :: rest, spotTolerated resp = true) →
      isPageSequence ((first :: rest).map (fun resp => resp.result.NextToken)) = true →
      allSpotParseable parseFloat ((first :: rest).map (fun resp => resp.result)) = true →
      ∃ m run, GetPricesSpot parseFloat c L now endTime nowW r it (first :: rest ++ extra)
          = some run ∧
        run.p = some m ∧ run.err = none ∧
        run.cache = writeCache c nowW it r "" none (some (some m)) ∧
        (∀ z : AvailabilityZone, m.lookup z =
          if zoneRecords (spotRecords ((first :: rest).map (fun resp => resp.result))) z = []
          then none
          else some (parsedSpotPrices parseFloat
            (zoneRecords (spotRecords ((first :: rest).map (fun resp => resp.result))) z))) ∧
        (∃ e ∈ run.cache.items, e.instanceType = it ∧ e.region = r ∧ e.tenancy = "" ∧
          e.sp = some (some m) ∧ e.age = nowW) ∧
        (∀ now2 : Time, now2 - nowW < L →
          checkCacheSpot run.cache L now2 it r "" = some m ∧
          ∀ (parseFloat2 : String → Except String F) (endTime2 nowW2 : Time)
            (svc2 : List DescribeSpotPriceHistoryResponse),
            GetPricesSpot parseFloat2 run.cache L now2 endTime2 nowW2 r it svc2
              = some { p := some m, err := none, cache := run.cache, calls := [] })) ∧
    (∀ (pre : List DescribeSpotPriceHistoryResponse) (q : List (AvailabilityZone × List F))
      (result : DescribeSpotPriceHistoryOutput) (code text : String)
      (extra : List DescribeSpotPriceHistoryResponse),
      (∀ resp ∈ pre, spotTolerated resp = true) →
      (∀ resp ∈ pre, noNextToken resp.result.NextToken = false) →
      readSpotPages parseFloat [] (pre.map (fun resp => resp.result)) = .ok q →
      stringsContains text "AuthFailure:" = false →
      GetPricesSpot parseFloat c L now endTime nowW r it
          (pre ++ ⟨result, some (.awserr code text)⟩ :: extra)
        = some { p := none
                 err := some ("error 1: region: " ++ r ++ ", " ++ text)
                 cache := c
                 calls := spotInput it endTime :: pre.map (fun resp =>
                   { spotInput it endTime with NextToken := resp.result.NextToken }) }) ∧
    (∀ (pre : List DescribeSpotPriceHistoryResponse) (q : List (AvailabilityZone × List F))
      (result : DescribeSpotPriceHistoryOutput) (text : String)
      (extra : List DescribeSpotPriceHistoryResponse),
      (∀ resp ∈ pre, spotTolerated resp = true) →
      (∀ resp ∈ pre, noNextToken resp.result.NextToken = false) →
      readSpotPages parseFloat [] (pre.map (fun resp => resp.result)) = .ok q →
      GetPricesSpot parseFloat c L now endTime nowW r it
          (pre ++ ⟨result, some (.other text)⟩ :: extra)
        = some { p := none
                 err := some ("error 2: region: " ++ r ++ ", " ++ text)
                 cache := c
                 calls := spotInput it endTime :: pre.map (fun resp =>
                   { spotInput it endTime with NextToken := resp.result.NextToken }) }) := by
  refine ⟨fun svc => (GetPricesSpot_eraseAuthFailure parseFloat c L now endTime nowW r it
    svc).symm, ?_, ?_, ?_⟩
  · intro first rest extra htol hseq hok
    obtain ⟨m, hm, _, hlook⟩ := readSpotPriceHistory_ok parseFloat
      (spotRecords ((first :: rest).map (fun resp => resp.result))) []
      ((allSpotParseable_iff parseFloat _).mp hok)
    have hfetch := GetPricesSpot_fetch parseFloat c L now endTime nowW r it first rest extra m
      hmiss htol (by simpa [List.map_map] using hseq)
      (by rw [readSpotPages_eq]; exact hm)
    refine ⟨m, _, hfetch, rfl, rfl, rfl, ?_, ?_, ?_⟩
    · intro z
      rw [hlook z]
      simp
    · obtain ⟨e, he, hkey⟩ := writeCache_has_key c nowW it r "" none (some (some m))
      have hitem := writeCache_item_of_key c nowW it r "" none (some (some m)) e he hkey
      have hk := (keyMatches_iff it r "" e).mp hkey
      exact ⟨e, he, hk.1.symm, hk.2.1.symm, hk.2.2.symm, hitem.2.2 rfl, hitem.1⟩
    · intro now2 hfresh
      have hlook2 : checkCacheSpot (writeCache c nowW it r "" none (some (some m))) L now2 it r ""
          = some m :=
        checkCacheSpot_writeCache c L nowW now2 it r "" none m (sub_lt_iff_lt_add'.mp hfresh)
      refine ⟨hlook2, ?_⟩
      intro parseFloat2 endTime2 nowW2 svc2
      exact GetPricesSpot_hit parseFloat2 _ L now2 endTime2 nowW2 r it svc2 m hlook2
  · intro pre q result code text extra htol hpre hread htext
    exact GetPricesSpot_call_fails parseFloat c L now endTime nowW r it pre q result
      (.awserr code text) extra hmiss htol hpre hread (by simpa [isAuthFailure] using htext)
  · intro pre q result text extra htol hpre hread
    exact GetPricesSpot_call_fails parseFloat c L now endTime nowW r it pre q result
      (.other text) extra hmiss htol hpre hread rfl

/-- Witness of C16: an authorization failure on the first call, with an empty result set:
the run returns the empty map with no error and writes it to the cache, as it does on the
same answer without the failure; two ticks later a lookup in the cache of the run finds
the empty map, and a second call with a provider that has no answer to give returns it
with no request. -/
theorem GetPricesSpot_tolerates_authFailure_witness :
    GetPricesSpot exampleParseFloat (cache Nat) Hour 0 0 1 "us-east-1" "m5.large"
        [⟨emptySpotPage, some exampleAuthFailure⟩]
      = some { p := some [], err := none,
               cache := writeCache (cache Nat) 1 "m5.large" "us-east-1" "" none (some (some [])),
               calls := [spotInput "m5.large" 0] } ∧
    checkCacheSpot (cache Nat) Hour 3 "m5.large" "us-east-1" "" = none ∧
    checkCacheSpot
        (writeCache (cache Nat) 1 "m5.large" "us-east-1" "" none (some (some ([] : List
          (AvailabilityZone × List Nat))))) Hour 3 "m5.large" "us-east-1" "" = some [] ∧
    GetPricesSpot exampleParseFloat
        (writeCache (cache Nat) 1 "m5.large" "us-east-1" "" none (some (some [])))
        Hour 3 3 4 "us-east-1" "m5.large" []
      = some { p := some [], err := none,
               cache := writeCache (cache Nat) 1 "m5.large" "us-east-1" "" none (some (some [])),
               calls := [] } ∧
    GetPricesSpot exampleParseFloat (cache Nat) Hour 0 0 1 "us-east-1" "m5.large"
        [⟨emptySpotPage, some exampleAuthFailure⟩]
      = GetPricesSpot exampleParseFloat (cache Nat) Hour 0 0 1 "us-east-1" "m5.large"
        ([⟨emptySpotPage, some exampleAuthFailure⟩].map eraseAuthFailure) ∧
    ∃ m run, GetPricesSpot exampleParseFloat (cache Nat) Hour 0 0 1 "us-east-1" "m5.large"
        (⟨emptySpotPage, some exampleAuthFailure⟩ :: [] ++ []) = some run ∧
      run.p = some m ∧ run.err = none ∧
      run.cache = writeCache (cache Nat) 1 "m5.large" "us-east-1" "" none (some (some m)) ∧
      (∀ z : AvailabilityZone, m.lookup z =
        if zoneRecords (spotRecords ((⟨emptySpotPage, some exampleAuthFailure⟩ ::
          ([] : List DescribeSpotPriceHistoryResponse)).map (fun resp => resp.result))) z = []
        then none
        else some (parsedSpotPrices exampleParseFloat
          (zoneRecords (spotRecords ((⟨emptySpotPage, some exampleAuthFailure⟩ ::
            ([] : List DescribeSpotPriceHistoryResponse)).map (fun resp => resp.result))) z))) ∧
      (∃ e ∈ run.cache.items, e.instanceType = "m5.large" ∧ e.region = "us-east-1" ∧
        e.tenancy = "" ∧ e.sp = some (some m) ∧ e.age = 1) ∧
      (∀ now2 : Time, now2 - 1 < Hour →
        checkCacheSpot run.cache Hour now2 "m5.large" "us-east-1" "" = some m ∧
        ∀ (parseFloat2 : String → Except String Nat) (endTime2 nowW2 : Time)
          (svc2 : List DescribeSpotPriceHistoryResponse),
          GetPricesSpot parseFloat2 run.cache Hour now2 endTime2 nowW2 "us-east-1" "m5.large"
              svc2
            = some { p := some m, err := none, cache := run.cache, calls := [] }) :=
  ⟨by decide, by decide, by decide, by decide,
    (GetPricesSpot_tolerates_authFailure exampleParseFloat (cache Nat) Hour 0 0 1 "us-east-1"
      "m5.large" (by decide)).1 [⟨emptySpotPage, some exampleAuthFailure⟩],
    (GetPricesSpot_tolerates_authFailure exampleParseFloat (cache Nat) Hour 0 0 1 "us-east-1"
      "m5.large" (by decide)).2.1 ⟨emptySpotPage, some exampleAuthFailure⟩ [] []
      (by decide) (by decide) (by decide)⟩

end FetchClaims

/-! ## Lemmas on malformed price data -/

section MalformedLemmas

variable {F : Type}

theorem readDimension_eq (parseFloat : String → Except String F) (p : List F)
    (vv : PriceDimension) :
    readDimension parseFloat p vv =
      match dimensionError parseFloat vv with
      | some e => .error e
      | none => .ok (p ++ dimensionPrice parseFloat vv) := by
  unfold readDimension dimensionError dimensionPrice
  by_cases hu : (vv.unit != "Hrs") = true
  · simp only [hu, if_true]
  · simp only [hu, Bool.false_eq_true, if_false]
    cases parseFloat vv.USD <;> rfl

/-- The reading of a list of price dimensions stops with the error of the first that has
one, and else appends their prices. -/
theorem foldlM_readDimension (parseFloat : String → Except String F)
    (l : List PriceDimension) :
    ∀ p : List F, l.foldlM (readDimension parseFloat) p =
      match l.findSome? (dimensionError parseFloat) with
      | some e => .error e
      | none => .ok (p ++ l.flatMap (dimensionPrice parseFloat)) := by
  induction l with
  | nil => intro p; simp [pure, Except.pure]
  | cons vv l ih =>
    intro p
    rw [List.foldlM_cons, readDimension_eq, List.findSome?_cons]
    cases dimensionError parseFloat vv with
    | some e => rfl
    | none =>
      simp only [bind, Except.bind]
      rw [ih]
      cases l.findSome? (dimensionError parseFloat) with
      | some e => rfl
      | none => simp [List.flatMap_cons, List.append_assoc]

theorem readProduct_eq (ro : RangeOrder) (n j : Nat) (parseFloat : String → Except String F)
    (p : List F) (price : Product) :
    readProduct ro n j parseFloat p price
      = (productDimensions ro n j price).foldlM (readDimension parseFloat) p := by
  unfold readProduct productDimensions
  rw [foldlM_flatMap]
  congr 1
  funext q kv
  unfold readTerm
  rw [List.foldlM_map]

/-- The reading of a page is the reading of its price dimensions in the order of the
visit. -/
theorem readPriceList_eq (ro : RangeOrder) (n : Nat) (parseFloat : String → Except String F)
    (p : List F) (result : GetProductsOutput) :
    readPriceList ro n parseFloat p result.PriceList =
      match (pageDimensions ro n result).findSome? (dimensionError parseFloat) with
      | some e => .error e
      | none => .ok (p ++ (pageDimensions ro n result).flatMap (dimensionPrice parseFloat)) := by
  rw [← foldlM_readDimension]
  unfold readPriceList pageDimensions
  rw [foldlM_flatMap]
  congr 1
  funext q jp
  exact readProduct_eq ro n jp.1 parseFloat q jp.2

theorem dimensionsFrom_cons_error (ro : RangeOrder) (parseFloat : String → Except String F)
    (n : Nat) (result : GetProductsOutput) (more : List GetProductsOutput) :
    (dimensionsFrom ro n (result :: more)).findSome? (dimensionError parseFloat) =
      ((pageDimensions ro n result).findSome? (dimensionError parseFloat)).or
        ((dimensionsFrom ro (n + 1) more).findSome? (dimensionError parseFloat)) := by
  rw [dimensionsFrom, List.findSome?_append]

/-- The dimensions of pages read one after the other. -/
theorem dimensionsFrom_append (ro : RangeOrder) (pre post : List GetProductsOutput) :
    ∀ n : Nat, dimensionsFrom ro n (pre ++ post)
      = dimensionsFrom ro n pre ++ dimensionsFrom ro (n + pre.length) post := by
  induction pre with
  | nil => intro n; simp [dimensionsFrom]
  | cons result pre ih =>
    intro n
    have hn : n + 1 + pre.length = n + (result :: pre).length := by
      simp only [List.length_cons]; omega
    rw [List.cons_append, dimensionsFrom, dimensionsFrom, ih (n + 1), hn, List.append_assoc]

/-- The reading of pages without a failing price dimension succeeds. -/
theorem readPagesFrom_of_no_error (ro : RangeOrder) (parseFloat : String → Except String F)
    (pages : List GetProductsOutput) :
    ∀ (n : Nat) (p : List F),
      (dimensionsFrom ro n pages).findSome? (dimensionError parseFloat) = none →
      ∃ q, readPagesFrom ro parseFloat n p pages = .ok q := by
  induction pages with
  | nil => intro n p _; exact ⟨p, rfl⟩
  | cons result more ih =>
    intro n p h
    rw [dimensionsFrom_cons_error] at h
    cases h1 : (pageDimensions ro n result).findSome? (dimensionError parseFloat) with
    | some e => rw [h1] at h; cases h
    | none =>
      rw [h1] at h
      obtain ⟨q, hq⟩ := ih (n + 1)
        (p ++ (pageDimensions ro n result).flatMap (dimensionPrice parseFloat))
        (by simpa using h)
      refine ⟨q, ?_⟩
      rw [readPagesFrom, readPriceList_eq, h1]
      exact hq

/-- The loop on pages of which one has a failing price dimension, each page but the last
carrying a token: it returns the error of the first failing dimension. -/
theorem onDemandLoop_first_error (ro : RangeOrder) (parseFloat : String → Except String F)
    (input : GetProductsInput) (extra : List GetProductsResponse) (e : String)
    (more : List GetProductsOutput) :
    ∀ (n : Nat) (result : GetProductsOutput) (p : List F) (calls : List GetProductsInput),
      (∀ pg ∈ (result :: more).dropLast, noNextToken pg.NextToken = false) →
      (dimensionsFrom ro n (result :: more)).findSome? (dimensionError parseFloat) = some e →
      ∃ calls', onDemandLoop ro n parseFloat input p result (productsScript more extra) calls
        = some (.error e, calls') := by
  induction more with
  | nil =>
    intro n result p calls _ herr
    rw [dimensionsFrom_cons_error] at herr
    have h1 : (pageDimensions ro n result).findSome? (dimensionError parseFloat) = some e := by
      simpa [dimensionsFrom] using herr
    exact ⟨calls, onDemandLoop_read_error ro n parseFloat input p result _ calls e
      (by rw [readPriceList_eq, h1])⟩
  | cons next more ih =>
    intro n result p calls htok herr
    rw [dimensionsFrom_cons_error] at herr
    cases h1 : (pageDimensions ro n result).findSome? (dimensionError parseFloat) with
    | some e1 =>
      rw [h1] at herr
      have : e1 = e := by simpa using herr
      subst this
      exact ⟨calls, onDemandLoop_read_error ro n parseFloat input p result _ calls e1
        (by rw [readPriceList_eq, h1])⟩
    | none =>
      rw [h1] at herr
      have herr' : (dimensionsFrom ro (n + 1) (next :: more)).findSome?
          (dimensionError parseFloat) = some e := by
        simpa using herr
      have ht : noNextToken result.NextToken = false :=
        htok result (by rw [List.dropLast_cons₂]; exact List.mem_cons_self _ _)
      have hread : readPriceList ro n parseFloat p result.PriceList
          = .ok (p ++ (pageDimensions ro n result).flatMap (dimensionPrice parseFloat)) := by
        rw [readPriceList_eq, h1]
      have hadv := onDemandLoop_advance ro parseFloat input ⟨next, none⟩
        (productsScript more extra)
        (p ++ (pageDimensions ro n result).flatMap (dimensionPrice parseFloat)) [] n result p
        calls
        (by intro pg hpg; simp only [List.mem_singleton] at hpg; rw [hpg]; exact ht)
        (by simp [readPagesFrom, hread])
      simp only [List.map_nil, List.nil_append, List.map_cons, List.length_nil,
        Nat.zero_add] at hadv
      have hscript : productsScript (next :: more) extra
          = ⟨next, none⟩ :: productsScript more extra := rfl
      rw [hscript, hadv]
      exact ih (n + 1) next _ _
        (fun pg hpg => htok pg (by rw [List.dropLast_cons₂]; exact List.mem_cons_of_mem _ hpg))
        herr'

/-- An on-demand run on a miss from pages of which one has a failing price dimension,
each page but the last carrying a token: it returns the error of the first failing
dimension and no prices, and leaves the cache as it was. -/
theorem GetPricesOnDemand_first_error (ro : RangeOrder) (parseFloat : String → Except String F)
    (c : priceCacheItems F) (L : Duration) (now nowW : Time) (it r : String)
    (ten : OptionTenancy) (pre : List GetProductsOutput) (bad : GetProductsOutput)
    (extra : List GetProductsResponse) (e : String)
    (hmiss : checkCacheOnDemand c L now it r ten = none)
    (hpre : ∀ pg ∈ pre, noNextToken pg.NextToken = false)
    (herr : firstDimensionError ro parseFloat (pre ++ [bad]) = some e) :
    ∃ calls, GetPricesOnDemand ro parseFloat c L now nowW it r ten
        (productsScript (pre ++ [bad]) extra)
      = some { p := none, err := some e, cache := c, calls := calls } := by
  have hne : pre ++ [bad] ≠ [] := by simp
  unfold firstDimensionError at herr
  cases hpages : pre ++ [bad] with
  | nil => exact absurd hpages hne
  | cons first more =>
    rw [hpages] at herr
    have htok : ∀ pg ∈ (first :: more).dropLast, noNextToken pg.NextToken = false := by
      rw [← hpages, List.dropLast_concat]
      exact hpre
    obtain ⟨calls', h⟩ := onDemandLoop_first_error ro parseFloat (onDemandInput it r ten) extra
      e more 0 first [] [onDemandInput it r ten] htok herr
    have hscript : productsScript (first :: more) extra
        = ⟨first, none⟩ :: productsScript more extra := rfl
    unfold GetPricesOnDemand
    rw [hmiss, hscript]
    simp only
    rw [h]
    exact ⟨calls', rfl⟩

theorem findSome?_first {α β : Type} (f : α → Option β) (good rest : List α) (x : α) (e : β)
    (hgood : ∀ a ∈ good, f a = none) (hx : f x = some e) :
    (good ++ x :: rest).findSome? f = some e := by
  induction good with
  | nil => simp [List.findSome?_cons, hx]
  | cons a good ih =>
    rw [List.cons_append, List.findSome?_cons, hgood a (List.mem_cons_self _ _)]
    exact ih (fun b hb => hgood b (List.mem_cons_of_mem _ hb))

theorem dimensionError_of_hourlyParseable (parseFloat : String → Except String F)
    (vv : PriceDimension) (h : hourlyParseable parseFloat vv = true) :
    dimensionError parseFloat vv = none := by
  unfold hourlyParseable at h
  unfold dimensionError
  cases hp : parseFloat vv.USD with
  | error e => simp [hp] at h
  | ok x =>
    have hu : vv.unit = "Hrs" := by simpa [hp] using h
    simp [hu]

theorem dimensionError_of_unit (parseFloat : String → Except String F) (vv : PriceDimension)
    (h : vv.unit ≠ "Hrs") :
    dimensionError parseFloat vv = some ("price format incorrect:" ++ vv.unit) := by
  unfold dimensionError
  simp [h]

theorem dimensionError_of_parse (parseFloat : String → Except String F) (vv : PriceDimension)
    (err : String) (hu : vv.unit = "Hrs") (hp : parseFloat vv.USD = .error err) :
    dimensionError parseFloat vv
      = some ("price is NaN:" ++ err ++ ": '" ++ vv.USD ++ "'") := by
  unfold dimensionError
  simp [hu, hp]

/-- Every element of a list is one of its numbered elements. -/
theorem exists_mem_enum_of_mem {α : Type} (l : List α) (a : α) (h : a ∈ l) :
    ∃ j, (j, a) ∈ l.enum := by
  obtain ⟨j, hj⟩ := List.mem_iff_getElem?.mp h
  exact ⟨j, List.mk_mem_enum_iff_getElem?.mpr hj⟩

/-- Under a valid range order the loops visit every price dimension of the page. -/
theorem mem_pageDimensions (ro : RangeOrder) (hro : ro.Valid) (n : Nat)
    (result : GetProductsOutput) (d : PriceDimension) :
    d ∈ pageDimensions ro n result ↔
      ∃ price ∈ result.PriceList, ∃ v ∈ price.OnDemand, ∃ vv ∈ v.2.priceDimensions,
        vv.2 = d := by
  unfold pageDimensions productDimensions
  simp only [List.mem_flatMap, List.mem_map]
  constructor
  · rintro ⟨jp, hjp, kv, hkv, vv, hvv, rfl⟩
    exact ⟨jp.2, List.snd_mem_of_mem_enum hjp, kv.2,
      (hro.1 _ _ _).mem_iff.mp (List.snd_mem_of_mem_enum hkv), vv,
      (hro.2 _ _ _ _).mem_iff.mp hvv, rfl⟩
  · rintro ⟨price, hprice, v, hv, vv, hvv, rfl⟩
    obtain ⟨j, hj⟩ := exists_mem_enum_of_mem _ price hprice
    obtain ⟨k, hk⟩ := exists_mem_enum_of_mem _ v ((hro.1 n j _).mem_iff.mpr hv)
    exact ⟨(j, price), hj, (k, v), hk, vv, (hro.2 _ _ _ _).mem_iff.mpr hvv, rfl⟩

/-- Under a valid range order the loops visit every price dimension of the pages. -/
theorem mem_dimensionsFrom (ro : RangeOrder) (hro : ro.Valid) (pages : List GetProductsOutput)
    (d : PriceDimension) :
    ∀ n : Nat, d ∈ dimensionsFrom ro n pages ↔
      ∃ result ∈ pages, ∃ price ∈ result.PriceList, ∃ v ∈ price.OnDemand,
        ∃ vv ∈ v.2.priceDimensions, vv.2 = d := by
  induction pages with
  | nil => intro n; simp [dimensionsFrom]
  | cons result pages ih =>
    intro n
    rw [dimensionsFrom, List.mem_append, mem_pageDimensions ro hro n result d, ih (n + 1)]
    simp only [List.mem_cons, exists_eq_or_imp]

theorem firstDimensionError_of_allHourlyParseable (ro : RangeOrder) (hro : ro.Valid)
    (parseFloat : String → Except String F) (pages : List GetProductsOutput)
    (h : allHourlyParseable parseFloat pages = true) :
    firstDimensionError ro parseFloat pages = none := by
  unfold firstDimensionError
  rw [List.findSome?_eq_none_iff]
  intro d hd
  obtain ⟨result, hresult, price, hprice, v, hv, vv, hvv, rfl⟩ :=
    (mem_dimensionsFrom ro hro pages d 0).mp hd
  apply dimensionError_of_hourlyParseable
  unfold allHourlyParseable at h
  exact List.all_eq_true.mp (List.all_eq_true.mp (List.all_eq_true.mp
    (List.all_eq_true.mp h result hresult) price hprice) v hv) vv hvv

theorem productsScript_concat (pre : List GetProductsOutput) (bad : GetProductsOutput)
    (extra : List GetProductsResponse) :
    productsScript (pre ++ [bad]) extra
      = pre.map (fun pg => ⟨pg, none⟩) ++ ⟨bad, none⟩ :: extra := by
  simp [productsScript]

/-- An on-demand run that reads the pages `pre` without error and stops with an error at
the page that follows: the requests sent are those for these pages. -/
theorem GetPricesOnDemand_read_fails (ro : RangeOrder) (parseFloat : String → Except String F)
    (c : priceCacheItems F) (L : Duration) (now nowW : Time) (it r : String)
    (ten : OptionTenancy) (pre : List GetProductsOutput) (q : List F)
    (bad : GetProductsOutput) (extra : List GetProductsResponse) (e : String)
    (hmiss : checkCacheOnDemand c L now it r ten = none)
    (hpre : ∀ pg ∈ pre, noNextToken pg.NextToken = false)
    (hread : readPages ro parseFloat [] pre = .ok q)
    (hbad : readPriceList ro pre.length parseFloat q bad.PriceList = .error e) :
    GetPricesOnDemand ro parseFloat c L now nowW it r ten (productsScript (pre ++ [bad]) extra)
      = some { p := none, err := some e, cache := c,
               calls := onDemandInput it r ten :: pre.map
                 (fun pg => { onDemandInput it r ten with NextToken := pg.NextToken }) } := by
  rw [productsScript_concat]
  cases pre with
  | nil =>
    have hq : q = [] := by
      simp only [readPages, readPagesFrom, Except.ok.injEq] at hread
      exact hread.symm
    subst hq
    unfold GetPricesOnDemand
    rw [hmiss]
    simp only [List.map_nil, List.nil_append]
    rw [onDemandLoop_read_error ro 0 parseFloat _ [] bad _ _ e hbad]
  | cons first more =>
    have hadv := onDemandLoop_advance ro parseFloat (onDemandInput it r ten)
      ⟨bad, none⟩ extra q more 0 first [] [onDemandInput it r ten] hpre hread
    simp only [Nat.zero_add] at hadv
    unfold GetPricesOnDemand
    rw [hmiss]
    simp only [List.map_cons, List.cons_append]
    rw [hadv, onDemandLoop_read_error ro (more.length + 1) parseFloat _ q bad _ _ e hbad]
    simp

/-- An on-demand run whose first failing price dimension stands on the page after pages
that parse: it returns the error of that dimension after the requests for these pages. -/
theorem GetPricesOnDemand_first_failing (ro : RangeOrder) (hro : ro.Valid)
    (parseFloat : String → Except String F) (c : priceCacheItems F) (L : Duration)
    (now nowW : Time) (it r : String) (ten : OptionTenancy) (pre : List GetProductsOutput)
    (bad : GetProductsOutput) (extra : List GetProductsResponse)
    (good rest : List PriceDimension) (d : PriceDimension) (e : String)
    (hmiss : checkCacheOnDemand c L now it r ten = none)
    (hpre : ∀ pg ∈ pre, noNextToken pg.NextToken = false)
    (hok : allHourlyParseable parseFloat pre = true)
    (hsplit : pageDimensions ro pre.length bad = good ++ d :: rest)
    (hgood : ∀ g ∈ good, hourlyParseable parseFloat g = true)
    (hd : dimensionError parseFloat d = some e) :
    GetPricesOnDemand ro parseFloat c L now nowW it r ten (productsScript (pre ++ [bad]) extra)
      = some { p := none, err := some e, cache := c,
               calls := onDemandInput it r ten :: pre.map
                 (fun pg => { onDemandInput it r ten with NextToken := pg.NextToken }) } := by
  obtain ⟨q, hq⟩ := readPagesFrom_of_no_error ro parseFloat pre 0 []
    (firstDimensionError_of_allHourlyParseable ro hro parseFloat pre hok)
  apply GetPricesOnDemand_read_fails ro parseFloat c L now nowW it r ten pre q bad extra e hmiss
    hpre hq
  rw [readPriceList_eq, hsplit, findSome?_first (dimensionError parseFloat) good rest d e
    (fun g hg => dimensionError_of_hourlyParseable parseFloat g (hgood g hg)) hd]

/-- An on-demand run that fetches a page with a failing price dimension: it returns an
error, the error of the first failing dimension, and leaves the cache as it was. -/
theorem GetPricesOnDemand_any_failing (ro : RangeOrder) (hro : ro.Valid)
    (parseFloat : String → Except String F) (c : priceCacheItems F) (L : Duration)
    (now nowW : Time) (it r : String) (ten : OptionTenancy) (pre : List GetProductsOutput)
    (bad : GetProductsOutput) (extra : List GetProductsResponse)
    (price : Product) (v : String × Term) (vv : String × PriceDimension)
    (hmiss : checkCacheOnDemand c L now it r ten = none)
    (hpre : ∀ pg ∈ pre, noNextToken pg.NextToken = false)
    (hprice : price ∈ bad.PriceList) (hv : v ∈ price.OnDemand)
    (hvv : vv ∈ v.2.priceDimensions) (hfail : dimensionError parseFloat vv.2 ≠ none) :
    ∃ e calls, firstDimensionError ro parseFloat (pre ++ [bad]) = some e ∧
      GetPricesOnDemand ro parseFloat c L now nowW it r ten
          (productsScript (pre ++ [bad]) extra)
        = some { p := none, err := some e, cache := c, calls := calls } := by
  have hsome : firstDimensionError ro parseFloat (pre ++ [bad]) ≠ none := by
    intro hnone
    unfold firstDimensionError at hnone
    rw [List.findSome?_eq_none_iff] at hnone
    apply hfail
    apply hnone
    exact (mem_dimensionsFrom ro hro (pre ++ [bad]) vv.2 0).mpr
      ⟨bad, by simp, price, hprice, v, hv, vv, hvv, rfl⟩
  obtain ⟨e, he⟩ := Option.ne_none_iff_exists'.mp hsome
  obtain ⟨calls, hrun⟩ := GetPricesOnDemand_first_error ro parseFloat c L now nowW it r ten
    pre bad extra e hmiss hpre he
  exact ⟨e, calls, he, hrun⟩

theorem spotRecordError_eq_none_iff (parseFloat : String → Except String F)
    (price : Ec2SpotPrice) :
    spotRecordError parseFloat price = none ↔ spotParseable parseFloat price = true := by
  unfold spotRecordError spotParseable
  cases parseFloat price.SpotPrice <;> simp

theorem spotRecordError_eq_some (parseFloat : String → Except String F)
    (price : Ec2SpotPrice) (e : String) (h : spotRecordError parseFloat price = some e) :
    ∃ err, parseFloat price.SpotPrice = .error err ∧
      e = "could not parse float from " ++ price.SpotPrice ++ ": " ++ err := by
  unfold spotRecordError at h
  cases hp : parseFloat price.SpotPrice with
  | ok x => rw [hp] at h; cases h
  | error err =>
    rw [hp] at h
    exact ⟨err, rfl, by simpa using h.symm⟩

/-- The reading of a list of records stops with the error of the first whose price does
not parse. -/
theorem readSpotPriceHistory_error (parseFloat : String → Except String F) (e : String)
    (records : List Ec2SpotPrice) :
    ∀ p : List (AvailabilityZone × List F),
      records.findSome? (spotRecordError parseFloat) = some e →
      readSpotPriceHistory parseFloat p records = .error e := by
  induction records with
  | nil => intro p h; cases h
  | cons price records ih =>
    intro p h
    rw [List.findSome?_cons] at h
    unfold readSpotPriceHistory
    rw [List.foldlM_cons]
    cases hp : parseFloat price.SpotPrice with
    | error err =>
      have he : spotRecordError parseFloat price
          = some ("could not parse float from " ++ price.SpotPrice ++ ": " ++ err) := by
        simp [spotRecordError, hp]
      rw [he] at h
      have : "could not parse float from " ++ price.SpotPrice ++ ": " ++ err = e := by
        simpa using h
      simp only [readSpotPrice, hp, bind, Except.bind, this]
    | ok x =>
      have he : spotRecordError parseFloat price = none := by simp [spotRecordError, hp]
      rw [he] at h
      rw [readSpotPrice_ok parseFloat p price x hp]
      exact ih _ h

theorem readSpotPriceHistory_of_no_error (parseFloat : String → Except String F)
    (records : List Ec2SpotPrice) (p : List (AvailabilityZone × List F))
    (h : records.findSome? (spotRecordError parseFloat) = none) :
    ∃ q, readSpotPriceHistory parseFloat p records = .ok q := by
  rw [List.findSome?_eq_none_iff] at h
  obtain ⟨q, hq, _⟩ := readSpotPriceHistory_ok parseFloat records p
    (fun price hprice => (spotRecordError_eq_none_iff parseFloat price).mp (h price hprice))
  exact ⟨q, hq⟩

theorem firstSpotRecordError_cons (parseFloat : String → Except String F)
    (result : DescribeSpotPriceHistoryOutput) (more : List DescribeSpotPriceHistoryOutput) :
    firstSpotRecordError parseFloat (result :: more) =
      (result.SpotPriceHistory.findSome? (spotRecordError parseFloat)).or
        (firstSpotRecordError parseFloat more) := by
  unfold firstSpotRecordError spotRecords
  rw [List.flatMap_cons, List.findSome?_append]

theorem firstSpotRecordError_of_allSpotParseable (parseFloat : String → Except String F)
    (pages : List DescribeSpotPriceHistoryOutput)
    (h : allSpotParseable parseFloat pages = true) :
    firstSpotRecordError parseFloat pages = none := by
  unfold firstSpotRecordError
  rw [List.findSome?_eq_none_iff]
  intro price hprice
  exact (spotRecordError_eq_none_iff parseFloat price).mpr
    ((allSpotParseable_iff parseFloat pages).mp h price hprice)

/-- The loop on pages of which one has a record whose price does not parse, each page but
the last carrying a token: it returns the error of the first such record. -/
theorem spotLoop_first_error (parseFloat : String → Except String F) (region : String)
    (input : DescribeSpotPriceHistoryInput) (extra : List DescribeSpotPriceHistoryResponse)
    (e : String) (more : List DescribeSpotPriceHistoryOutput) :
    ∀ (result : DescribeSpotPriceHistoryOutput) (p : List (AvailabilityZone × List F))
      (calls : List DescribeSpotPriceHistoryInput),
      (∀ pg ∈ (result :: more).dropLast, noNextToken pg.NextToken = false) →
      firstSpotRecordError parseFloat (result :: more) = some e →
      ∃ calls', spotLoop parseFloat region input p result (spotScript more extra) calls
        = some (.error e, calls') := by
  induction more with
  | nil =>
    intro result p calls _ herr
    rw [firstSpotRecordError_cons] at herr
    have h1 : result.SpotPriceHistory.findSome? (spotRecordError parseFloat) = some e := by
      simpa [firstSpotRecordError, spotRecords] using herr
    exact ⟨calls, spotLoop_read_error parseFloat region input p result _ calls e
      (readSpotPriceHistory_error parseFloat e _ p h1)⟩
  | cons next more ih =>
    intro result p calls htok herr
    rw [firstSpotRecordError_cons] at herr
    cases h1 : result.SpotPriceHistory.findSome? (spotRecordError parseFloat) with
    | some e1 =>
      rw [h1] at herr
      have : e1 = e := by simpa using herr
      subst this
      exact ⟨calls, spotLoop_read_error parseFloat region input p result _ calls e1
        (readSpotPriceHistory_error parseFloat e1 _ p h1)⟩
    | none =>
      rw [h1] at herr
      have herr' : firstSpotRecordError parseFloat (next :: more) = some e := by
        simpa using herr
      have ht : noNextToken result.NextToken = false :=
        htok result (by rw [List.dropLast_cons₂]; exact List.mem_cons_self _ _)
      obtain ⟨q, hread⟩ := readSpotPriceHistory_of_no_error parseFloat _ p h1
      have hscript : spotScript (next :: more) extra
          = ⟨next, none⟩ :: spotScript more extra := rfl
      rw [hscript, spotLoop_step parseFloat region input p q result _ _ calls hread ht]
      simp only [Option.bind]
      exact ih next _ _
        (fun pg hpg => htok pg (by rw [List.dropLast_cons₂]; exact List.mem_cons_of_mem _ hpg))
        herr'

/-- A spot run on a miss from pages of which one has a record whose price does not parse,
each page but the last carrying a token: it returns the error of the first such record
and no map, and leaves the cache as it was. -/
theorem GetPricesSpot_first_error (parseFloat : String → Except String F)
    (c : priceCacheItems F) (L : Duration) (now endTime nowW : Time) (r it : String)
    (pre : List DescribeSpotPriceHistoryOutput) (bad : DescribeSpotPriceHistoryOutput)
    (extra : List DescribeSpotPriceHistoryResponse) (e : String)
    (hmiss : checkCacheSpot c L now it r "" = none)
    (hpre : ∀ pg ∈ pre, noNextToken pg.NextToken = false)
    (herr : firstSpotRecordError parseFloat (pre ++ [bad]) = some e) :
    ∃ calls, GetPricesSpot parseFloat c L now endTime nowW r it
        (spotScript (pre ++ [bad]) extra)
      = some { p := none, err := some e, cache := c, calls := calls } := by
  have hne : pre ++ [bad] ≠ [] := by simp
  cases hpages : pre ++ [bad] with
  | nil => exact absurd hpages hne
  | cons first more =>
    rw [hpages] at herr
    have htok : ∀ pg ∈ (first :: more).dropLast, noNextToken pg.NextToken = false := by
      rw [← hpages, List.dropLast_concat]
      exact hpre
    obtain ⟨calls', h⟩ := spotLoop_first_error parseFloat r (spotInput it endTime) extra
      e more first [] [spotInput it endTime] htok herr
    have hscript : spotScript (first :: more) extra
        = ⟨first, none⟩ :: spotScript more extra := rfl
    unfold GetPricesSpot
    rw [hmiss, hscript]
    simp only [Option.bind]
    rw [h]
    exact ⟨calls', rfl⟩

theorem spotScript_concat (pre : List DescribeSpotPriceHistoryOutput)
    (bad : DescribeSpotPriceHistoryOutput) (extra : List DescribeSpotPriceHistoryResponse) :
    spotScript (pre ++ [bad]) extra
      = pre.map (fun pg => ⟨pg, none⟩) ++ ⟨bad, none⟩ :: extra := by
  simp [spotScript]

/-- A spot run that reads the pages `pre` without error and stops with an error at the
page that follows: the requests sent are those for these pages. -/
theorem GetPricesSpot_read_fails (parseFloat : String → Except String F)
    (c : priceCacheItems F) (L : Duration) (now endTime nowW : Time) (r it : String)
    (pre : List DescribeSpotPriceHistoryOutput) (q : List (AvailabilityZone × List F))
    (bad : DescribeSpotPriceHistoryOutput) (extra : List DescribeSpotPriceHistoryResponse)
    (e : String)
    (hmiss : checkCacheSpot c L now it r "" = none)
    (hpre : ∀ pg ∈ pre, noNextToken pg.NextToken = false)
    (hread : readSpotPages parseFloat [] pre = .ok q)
    (hbad : readSpotPriceHistory parseFloat q bad.SpotPriceHistory = .error e) :
    GetPricesSpot parseFloat c L now endTime nowW r it (spotScript (pre ++ [bad]) extra)
      = some { p := none, err := some e, cache := c,
               calls := spotInput it endTime :: pre.map
                 (fun pg => { spotInput it endTime with NextToken := pg.NextToken }) } := by
  rw [spotScript_concat]
  cases pre with
  | nil =>
    have hq : q = [] := by
      simp only [readSpotPages, List.foldlM_nil, pure, Except.pure, Except.ok.injEq] at hread
      exact hread.symm
    subst hq
    unfold GetPricesSpot
    rw [hmiss]
    simp only [List.map_nil, List.nil_append, Option.bind]
    rw [spotLoop_read_error parseFloat r _ [] bad _ _ e hbad]
  | cons first more =>
    have hres : (more.map (fun pg => (⟨pg, none⟩ : DescribeSpotPriceHistoryResponse))).map
        (fun resp => resp.result) = more := by
      rw [List.map_map]
      exact List.map_id _
    have hadv := spotLoop_advance parseFloat r (spotInput it endTime)
      ⟨bad, none⟩ extra q (more.map (fun pg => ⟨pg, none⟩)) first [] [spotInput it endTime]
      (by
        intro resp hresp
        obtain ⟨pg, _, rfl⟩ := List.mem_map.mp hresp
        rfl)
      (by rw [hres]; exact hpre)
      (by rw [hres]; exact hread)
    simp only [Option.bind, hres] at hadv
    unfold GetPricesSpot
    rw [hmiss]
    simp only [List.map_cons, List.cons_append, Option.bind]
    rw [hadv, spotLoop_read_error parseFloat r _ q bad _ _ e hbad]
    simp

end MalformedLemmas

/-! ## The fetchers: malformed price data -/

section MalformedClaims

variable {F : Type}

/-- Counterexample to C14 as stated: a page whose second product has a dimension with the
unit "Days" and whose first product has a dimension with a price that does not parse.
Products are read in the order of the list, so under every range order the run returns
the parse error of the first product, not "price format incorrect:Days". -/
theorem unit_defect_after_parse_defect_counterexample :
    (∃ vv ∈ pageDimensions RangeOrder.document 0 parseThenUnitPage, vv.unit ≠ "Hrs") ∧
    GetPricesOnDemand RangeOrder.document exampleParseFloat (cache Nat) Hour 0 1
        "m5.large" "us-east-1" "Shared" [⟨parseThenUnitPage, none⟩]
      = some { p := none, err := some "price is NaN:invalid syntax: 'abc'",
               cache := cache Nat, calls := [onDemandInput "m5.large" "us-east-1" "Shared"] } ∧
    GetPricesOnDemand RangeOrder.reversed exampleParseFloat (cache Nat) Hour 0 1
        "m5.large" "us-east-1" "Shared" [⟨parseThenUnitPage, none⟩]
      = some { p := none, err := some "price is NaN:invalid syntax: 'abc'",
               cache := cache Nat, calls := [onDemandInput "m5.large" "us-east-1" "Shared"] } ∧
    "price is NaN:invalid syntax: 'abc'" ≠ "price format incorrect:Days" := by
  decide

/-- C14, amended. If a price dimension on a page of an on-demand fetch reports a unit
other than "Hrs", `GetPricesOnDemand` returns an error and no prices and leaves the cache
as it was, also when the earlier dimensions and pages parsed; the error is that of the
first dimension visited that fails a check: it is "price format incorrect:" followed by
the unit when the pages before parse, the dimensions visited before on the page have the
unit "Hrs" and a price that parses, and the dimension has another unit. -/
theorem GetPricesOnDemand_unit_error (ro : RangeOrder) (hro : ro.Valid)
    (parseFloat : String → Except String F) (c : priceCacheItems F) (L : Duration)
    (now nowW : Time) (it r : String) (ten : OptionTenancy) (pre : List GetProductsOutput)
    (bad : GetProductsOutput) (extra : List GetProductsResponse)
    (price : Product) (v : String × Term) (vv : String × PriceDimension)
    (hmiss : checkCacheOnDemand c L now it r ten = none)
    (hpre : ∀ pg ∈ pre, noNextToken pg.NextToken = false)
    (hprice : price ∈ bad.PriceList) (hv : v ∈ price.OnDemand)
    (hvv : vv ∈ v.2.priceDimensions) (hunit : vv.2.unit ≠ "Hrs") :
    (∃ e calls, firstDimensionError ro parseFloat (pre ++ [bad]) = some e ∧
      GetPricesOnDemand ro parseFloat c L now nowW it r ten
          (productsScript (pre ++ [bad]) extra)
        = some { p := none, err := some e, cache := c, calls := calls }) ∧
    (∀ (good rest : List PriceDimension) (d : PriceDimension),
      allHourlyParseable parseFloat pre = true →
      pageDimensions ro pre.length bad = good ++ d :: rest →
      (∀ g ∈ good, hourlyParseable parseFloat g = true) →
      d.unit ≠ "Hrs" →
      GetPricesOnDemand ro parseFloat c L now nowW it r ten
          (productsScript (pre ++ [bad]) extra)
        = some { p := none, err := some ("price format incorrect:" ++ d.unit), cache := c,
                 calls := onDemandInput it r ten :: pre.map
                   (fun pg => { onDemandInput it r ten with NextToken := pg.NextToken }) }) := by
  constructor
  · apply GetPricesOnDemand_any_failing ro hro parseFloat c L now nowW it r ten pre bad extra
      price v vv hmiss hpre hprice hv hvv
    rw [dimensionError_of_unit parseFloat vv.2 hunit]
    simp
  · intro good rest d hok hsplit hgood hd
    exact GetPricesOnDemand_first_failing ro hro parseFloat c L now nowW it r ten pre bad extra
      good rest d _ hmiss hpre hok hsplit hgood (dimensionError_of_unit parseFloat d hd)

/-- Witness of C14, amended: a first page that parses, then a page whose second dimension
has the unit "Days", visited in the order of the document. -/
theorem GetPricesOnDemand_unit_error_witness :
    GetPricesOnDemand RangeOrder.document exampleParseFloat exampleCache Hour Hour (Hour + 1)
        "m5.large" "us-east-1" "Shared" (productsScript ([firstPage] ++ [unitPage]) [])
      = some { p := none, err := some ("price format incorrect:" ++ "Days"),
               cache := exampleCache,
               calls := onDemandInput "m5.large" "us-east-1" "Shared" :: [firstPage].map
                 (fun pg => { onDemandInput "m5.large" "us-east-1" "Shared" with
                   NextToken := pg.NextToken }) } :=
  (GetPricesOnDemand_unit_error RangeOrder.document document_valid exampleParseFloat
    exampleCache Hour Hour (Hour + 1) "m5.large" "us-east-1" "Shared" [firstPage] unitPage []
    ⟨[("JRTCKXETXF", ⟨[("6YS6EN2CT7", ⟨"Hrs", "0.096"⟩), ("7NE97W5U4E", ⟨"Days", "0.096"⟩)]⟩)]⟩
    ("JRTCKXETXF", ⟨[("6YS6EN2CT7", ⟨"Hrs", "0.096"⟩), ("7NE97W5U4E", ⟨"Days", "0.096"⟩)]⟩)
    ("7NE97W5U4E", ⟨"Days", "0.096"⟩)
    (by decide) (by decide) (by decide) (by decide) (by decide) (by decide)).2
    [⟨"Hrs", "0.096"⟩] [] ⟨"Days", "0.096"⟩ (by decide) (by decide) (by decide) (by decide)

/-- Counterexample to C15 as stated, in two parts.  First, a page whose second product has
a dimension with the price "abc", which does not parse, and whose first product has a
dimension with the unit "Days": products are read in the order of the list, so the run returns the unit error of
the first product, not a parse error, in the order of the document and in the reverse
order alike.  Second, the price string "NaN", which holds no
digit and is the numeral of no number, but which `strconv.ParseFloat` accepts: either
fetcher returns the value NaN as a price, with no error, and writes it to the cache. -/
theorem parse_defect_after_unit_defect_counterexample :
    ((∃ vv ∈ pageDimensions RangeOrder.document 0 unitThenParsePage,
      vv.USD = "abc" ∧ hourlyParseable exampleParseFloat ⟨"Hrs", vv.USD⟩ = false) ∧
    GetPricesOnDemand RangeOrder.document exampleParseFloat (cache Nat) Hour 0 1
        "m5.large" "us-east-1" "Shared" [⟨unitThenParsePage, none⟩]
      = some { p := none, err := some "price format incorrect:Days",
               cache := cache Nat, calls := [onDemandInput "m5.large" "us-east-1" "Shared"] } ∧
    GetPricesOnDemand RangeOrder.reversed exampleParseFloat (cache Nat) Hour 0 1
        "m5.large" "us-east-1" "Shared" [⟨unitThenParsePage, none⟩]
      = some { p := none, err := some "price format incorrect:Days",
               cache := cache Nat, calls := [onDemandInput "m5.large" "us-east-1" "Shared"] }) ∧
    (hasDigit "NaN" = false ∧
    exampleParseFloatNaN "NaN" = .ok ExampleFloat.NaN ∧
    GetPricesOnDemand RangeOrder.document exampleParseFloatNaN (cache ExampleFloat) Hour 0 1
        "m5.large" "us-east-1" "Shared" [⟨nanPage, none⟩]
      = some { p := some [ExampleFloat.NaN], err := none,
               cache := writeCache (cache ExampleFloat) 1 "m5.large" "us-east-1" "Shared"
                 (some (some [ExampleFloat.NaN])) none,
               calls := [onDemandInput "m5.large" "us-east-1" "Shared"] } ∧
    checkCacheOnDemand
        (writeCache (cache ExampleFloat) 1 "m5.large" "us-east-1" "Shared"
          (some (some [ExampleFloat.NaN])) none)
        Hour 3 "m5.large" "us-east-1" "Shared" = some [ExampleFloat.NaN] ∧
    GetPricesSpot exampleParseFloatNaN (cache ExampleFloat) Hour 0 0 1 "us-east-1" "m5.large"
        [⟨nanSpotPage, none⟩]
      = some { p := some [("us-east-1a", [ExampleFloat.NaN])], err := none,
               cache := writeCache (cache ExampleFloat) 1 "m5.large" "us-east-1" "" none
                 (some (some [("us-east-1a", [ExampleFloat.NaN])])),
               calls := [spotInput "m5.large" 0] } ∧
    checkCacheSpot
        (writeCache (cache ExampleFloat) 1 "m5.large" "us-east-1" "" none
          (some (some [("us-east-1a", [ExampleFloat.NaN])])))
        Hour 3 "m5.large" "us-east-1" "" = some [("us-east-1a", [ExampleFloat.NaN])]) := by
  refine ⟨?_, ?_, ?_, ?_, ?_, ?_, ?_⟩
  · decide
  · decide
  · rfl
  · decide
  · decide
  · decide
  · decide

/-- C15, amended. For each fetcher, if a price string returned by the provider is rejected
by the parser, the fetch returns an error and no prices and leaves the cache as it was.
For the spot fetcher the error is the parse error of the first record whose price is
rejected.  For the on-demand fetcher the error is that of the first dimension visited
that fails a check: it is the parse error when the pages before parse, the dimensions
visited before on the page have the unit "Hrs" and a price that parses, and the dimension
has the unit "Hrs" and a price that is rejected.  A price string that the parser accepts
raises no error, whatever value it is read as: when the units are "Hrs" and no price
string is rejected, either fetcher returns the values parsed with no error and writes
them to the cache.  The two fetchers are taken separately. -/
theorem fetch_parse_error (parseFloat : String → Except String F) (c : priceCacheItems F)
    (L : Duration) (now nowW : Time) (it r : String) :
    (∀ (ro : RangeOrder), ro.Valid → ∀ (ten : OptionTenancy) (pre : List GetProductsOutput)
      (bad : GetProductsOutput) (extra : List GetProductsResponse),
      checkCacheOnDemand c L now it r ten = none →
      (∀ pg ∈ pre, noNextToken pg.NextToken = false) →
      (∀ (price : Product) (v : String × Term) (vv : String × PriceDimension) (err : String),
        price ∈ bad.PriceList → v ∈ price.OnDemand → vv ∈ v.2.priceDimensions →
        parseFloat vv.2.USD = .error err →
        ∃ e calls, firstDimensionError ro parseFloat (pre ++ [bad]) = some e ∧
          GetPricesOnDemand ro parseFloat c L now nowW it r ten
              (productsScript (pre ++ [bad]) extra)
            = some { p := none, err := some e, cache := c, calls := calls }) ∧
      (∀ (good rest : List PriceDimension) (d : PriceDimension) (derr : String),
        allHourlyParseable parseFloat pre = true →
        pageDimensions ro pre.length bad = good ++ d :: rest →
        (∀ g ∈ good, hourlyParseable parseFloat g = true) →
        d.unit = "Hrs" → parseFloat d.USD = .error derr →
        GetPricesOnDemand ro parseFloat c L now nowW it r ten
            (productsScript (pre ++ [bad]) extra)
          = some { p := none, err := some ("price is NaN:" ++ derr ++ ": '" ++ d.USD ++ "'"),
                   cache := c,
                   calls := onDemandInput it r ten :: pre.map
                     (fun pg => { onDemandInput it r ten with NextToken := pg.NextToken }) })) ∧
    (∀ (endTime : Time) (spre : List DescribeSpotPriceHistoryOutput)
      (sbad : DescribeSpotPriceHistoryOutput) (sextra : List DescribeSpotPriceHistoryResponse),
      checkCacheSpot c L now it r "" = none →
      (∀ pg ∈ spre, noNextToken pg.NextToken = false) →
      (∀ (sprice : Ec2SpotPrice) (serr : String),
        sprice ∈ sbad.SpotPriceHistory → parseFloat sprice.SpotPrice = .error serr →
        ∃ e calls, firstSpotRecordError parseFloat (spre ++ [sbad]) = some e ∧
          (∃ price' err', price' ∈ spotRecords (spre ++ [sbad]) ∧
            parseFloat price'.SpotPrice = .error err' ∧
            e = "could not parse float from " ++ price'.SpotPrice ++ ": " ++ err') ∧
          GetPricesSpot parseFloat c L now endTime nowW r it
              (spotScript (spre ++ [sbad]) sextra)
            = some { p := none, err := some e, cache := c, calls := calls }) ∧
      (∀ (good rest : List Ec2SpotPrice) (d : Ec2SpotPrice) (derr : String),
        allSpotParseable parseFloat spre = true →
        sbad.SpotPriceHistory = good ++ d :: rest →
        (∀ g ∈ good, spotParseable parseFloat g = true) →
        parseFloat d.SpotPrice = .error derr →
        GetPricesSpot parseFloat c L now endTime nowW r it (spotScript (spre ++ [sbad]) sextra)
          = some { p := none,
                   err := some ("could not parse float from " ++ d.SpotPrice ++ ": " ++ derr),
                   cache := c,
                   calls := spotInput it endTime :: spre.map
                     (fun pg => { spotInput it endTime with NextToken := pg.NextToken }) })) ∧
    (∀ (ro : RangeOrder), ro.Valid → ∀ (ten : OptionTenancy) (pages : List GetProductsOutput)
      (extra : List GetProductsResponse),
      checkCacheOnDemand c L now it r ten = none →
      isPageSequence (pages.map (fun pg => pg.NextToken)) = true →
      allHourlyParseable parseFloat pages = true →
      ∃ calls, GetPricesOnDemand ro parseFloat c L now nowW it r ten
          (productsScript pages extra)
        = some { p := some (allPrices ro parseFloat pages), err := none,
                 cache := writeCache c nowW it r ten
                   (some (some (allPrices ro parseFloat pages))) none,
                 calls := calls }) ∧
    (∀ (endTime : Time) (pages : List DescribeSpotPriceHistoryOutput)
      (extra : List DescribeSpotPriceHistoryResponse),
      checkCacheSpot c L now it r "" = none →
      isPageSequence (pages.map (fun pg => pg.NextToken)) = true →
      allSpotParseable parseFloat pages = true →
      ∃ m calls, GetPricesSpot parseFloat c L now endTime nowW r it (spotScript pages extra)
        = some { p := some m, err := none,
                 cache := writeCache c nowW it r "" none (some (some m)), calls := calls }) := by
  refine ⟨?_, ?_, ?_, ?_⟩
  rotate_left 2
  · intro ro hro ten pages extra hmiss hseq hok
    exact ⟨_, GetPricesOnDemand_fetch ro hro parseFloat c L now nowW it r ten pages extra
      hmiss hseq hok⟩
  · intro endTime pages extra hsmiss hseq hok
    obtain ⟨m, hm, _, _⟩ := readSpotPriceHistory_ok parseFloat (spotRecords pages) []
      ((allSpotParseable_iff parseFloat pages).mp hok)
    cases pages with
    | nil => simp [isPageSequence] at hseq
    | cons first rest =>
      have hres : (rest.map (fun pg => (⟨pg, none⟩ : DescribeSpotPriceHistoryResponse))).map
          (fun resp => resp.result) = rest := by
        rw [List.map_map]
        exact List.map_id _
      exact ⟨m, _, GetPricesSpot_fetch parseFloat c L now endTime nowW r it ⟨first, none⟩
        (rest.map (fun pg => ⟨pg, none⟩)) extra m hsmiss
        (by
          intro resp hresp
          rcases List.mem_cons.mp hresp with h | h
          · rw [h]; rfl
          · obtain ⟨pg, _, rfl⟩ := List.mem_map.mp h
            rfl)
        (by rw [hres]; exact hseq)
        (by rw [hres, readSpotPages_eq]; exact hm)⟩
  · intro ro hro ten pre bad extra hmiss hpre
    constructor
    · intro price v vv err hprice hv hvv hparse
      apply GetPricesOnDemand_any_failing ro hro parseFloat c L now nowW it r ten pre bad extra
        price v vv hmiss hpre hprice hv hvv
      by_cases hu : vv.2.unit = "Hrs"
      · rw [dimensionError_of_parse parseFloat vv.2 err hu hparse]
        simp
      · rw [dimensionError_of_unit parseFloat vv.2 hu]
        simp
    · intro good rest d derr hok hsplit hgood hu hd
      exact GetPricesOnDemand_first_failing ro hro parseFloat c L now nowW it r ten pre bad
        extra good rest d _ hmiss hpre hok hsplit hgood
        (dimensionError_of_parse parseFloat d derr hu hd)
  · intro endTime spre sbad sextra hsmiss hspre
    constructor
    · intro sprice serr hsprice hsparse
      have hsome : firstSpotRecordError parseFloat (spre ++ [sbad]) ≠ none := by
        intro hnone
        unfold firstSpotRecordError at hnone
        rw [List.findSome?_eq_none_iff] at hnone
        have hmem : sprice ∈ spotRecords (spre ++ [sbad]) := by
          unfold spotRecords
          rw [List.mem_flatMap]
          exact ⟨sbad, by simp, hsprice⟩
        have := hnone sprice hmem
        simp [spotRecordError, hsparse] at this
      obtain ⟨e, he⟩ := Option.ne_none_iff_exists'.mp hsome
      obtain ⟨calls, hrun⟩ := GetPricesSpot_first_error parseFloat c L now endTime nowW r it
        spre sbad sextra e hsmiss hspre he
      obtain ⟨price', hmem, hprice'⟩ := List.exists_of_findSome?_eq_some he
      obtain ⟨err', hp, rfl⟩ := spotRecordError_eq_some parseFloat price' e hprice'
      exact ⟨_, calls, he, ⟨price', err', hmem, hp, rfl⟩, hrun⟩
    · intro good rest d derr hok hsplit hgood hd
      obtain ⟨q, hq⟩ := readSpotPriceHistory_of_no_error parseFloat (spotRecords spre) []
        (firstSpotRecordError_of_allSpotParseable parseFloat spre hok)
      apply GetPricesSpot_read_fails parseFloat c L now endTime nowW r it spre q sbad sextra _
        hsmiss hspre (by rw [readSpotPages_eq]; exact hq)
      apply readSpotPriceHistory_error
      rw [hsplit]
      apply findSome?_first
      · intro g hg
        exact (spotRecordError_eq_none_iff parseFloat g).mpr (hgood g hg)
      · simp [spotRecordError, hd]

/-- Witness of C15, amended: for each fetcher a first page that parses, then a page whose
second price is "abc", which the parser rejects. -/
theorem fetch_parse_error_witness :
    GetPricesOnDemand RangeOrder.document exampleParseFloat exampleCache Hour Hour (Hour + 1)
        "m5.large" "us-east-1" "Shared" (productsScript ([firstPage] ++ [badPricePage]) [])
      = some { p := none
               err := some ("price is NaN:" ++ "invalid syntax" ++ ": '" ++ "abc" ++ "'")
               cache := exampleCache
               calls := onDemandInput "m5.large" "us-east-1" "Shared" :: [firstPage].map
                 (fun pg => { onDemandInput "m5.large" "us-east-1" "Shared" with
                   NextToken := pg.NextToken }) } ∧
    GetPricesSpot exampleParseFloat exampleCache Hour Hour Hour (Hour + 1)
        "us-east-1" "m5.large" (spotScript ([firstSpotPage] ++ [badSpotPage]) [])
      = some { p := none
               err := some ("could not parse float from " ++ "abc" ++ ": " ++ "invalid syntax")
               cache := exampleCache
               calls := spotInput "m5.large" Hour :: [firstSpotPage].map
                 (fun pg => { spotInput "m5.large" Hour with NextToken := pg.NextToken }) } :=
  ⟨((fetch_parse_error exampleParseFloat exampleCache Hour Hour (Hour + 1) "m5.large"
      "us-east-1").1 RangeOrder.document document_valid "Shared" [firstPage] badPricePage []
      (by decide) (by decide)).2 [⟨"Hrs", "0.096"⟩] [] ⟨"Hrs", "abc"⟩ "invalid syntax"
      (by decide) (by decide) (by decide) rfl rfl,
    ((fetch_parse_error exampleParseFloat exampleCache Hour Hour (Hour + 1) "m5.large"
      "us-east-1").2.1 Hour [firstSpotPage] badSpotPage [] (by decide) (by decide)).2
      [⟨"us-east-1a", "0.031"⟩] [] ⟨"us-east-1b", "abc"⟩ "invalid syntax" (by decide)
      (by decide) (by decide) rfl⟩

end MalformedClaims

end awscheckprices
